import Mathlib

/-!
# mirrorfs: a shallow embedding of `mirrorfs.c`

`mirrorfs.c` is a FUSE file system that applies every operation to `mntpath_count`
backing directories and compares what they answer.  The embedding below follows the C
functions one by one.

* The kernel is an input: a `World` says what every system call returns, what it leaves
  in `errno` and what it writes into the buffer it is given.
* The process state is explicit (`State`): the `errno` register and the `mirror_fds`
  array.
* A C function becomes a function from the state before to an `Out`: how it ended
  (`abort()` and an access outside an array are outcomes of their own), the state after,
  and what the process did on the way (system calls issued, divergence lines printed on
  stderr, calls of the FUSE filler).  The lines of `LOG_FUSE_OPERATION` are left out
  where `errno` is not read after them before it is set again; the one line that stands
  between a failing call and the `return -errno` that follows it, in `mirrorfs_write`, is
  part of the embedding.
* C `int` values are mathematical integers; the conversions that can change a value
  (`long _x = (x)`, the `uint64_t` arithmetic on `fi->fh`, `size - 1` on a `size_t`) are
  written out modulo the width of an LP64 Linux target.  Error codes are small, so
  `-errno` is the mathematical negation.
* A world answers a system call as a function of the call's arguments; within one
  operation every call is issued once per replica.
* The local arrays (`res`, `errnos`, `fds`, ...) have `MAX_MNTPATHS` elements and `main`
  keeps `mntpath_count` below that; they are lists here, and `malloc` never fails.
-/

namespace MirrorFS

/-! ## Data model -/

/-- A C string: the bytes before the terminating NUL, one `Char` per byte. -/
abbrev CString := List Char

/-- A pointer handed to a system call as a path: `none` when it does not point into a
string any more (one past the terminator). -/
abbrev PathArg := Option CString

/-- A byte buffer seen from its first byte: the byte found at each offset. -/
abbrev Buffer := Nat → Nat

/-- The fields of `struct stat` (x86-64 Linux layout, padding included). -/
structure Stat where
  st_dev : Int
  st_ino : Int
  st_nlink : Int
  st_mode : Int
  st_uid : Int
  st_gid : Int
  pad0 : Int
  st_rdev : Int
  st_size : Int
  st_blksize : Int
  st_blocks : Int
  st_atime : Int
  st_atimensec : Int
  st_mtime : Int
  st_mtimensec : Int
  st_ctime : Int
  st_ctimensec : Int
  reserved : Int
deriving DecidableEq

/-- The fields of `struct dirent` that the program reads. -/
structure Dirent where
  d_ino : Int
  d_type : Int
  d_name : CString
deriving DecidableEq

/-- The two `struct timespec` values handed to `utimensat`. -/
structure Timespec where
  tv_sec : Int
  tv_nsec : Int
deriving DecidableEq

/-- The system and library calls the program issues, with their arguments.  A directory
handle `mntfds[i]` is written as the replica index `i`.  The call `fprintf` is the
`fprintf(stderr, "%s: " fmt "\n", __func__, ...)` of `LOG_FUSE_OPERATION`, with the name of
the function, the format and the integer arguments; an argument `strerror(e)` is written
as the number `e`, and evaluating it belongs to the call. -/
inductive Syscall where
  | fstatat (dirfd : Nat) (path : PathArg) (flags : Int)
  | faccessat (dirfd : Nat) (path : PathArg) (mask : Int) (flags : Int)
  | readlinkat (dirfd : Nat) (path : PathArg) (bufsiz : Nat)
  | openat (dirfd : Nat) (path : PathArg) (flags : Int) (mode : Option Int)
  | fdopendir (fd : Int)
  | closedir (fd : Int)
  | close (fd : Int)
  | mkdirat (dirfd : Nat) (path : PathArg) (mode : Int)
  | unlinkat (dirfd : Nat) (path : PathArg) (flags : Int)
  | symlinkat (target : CString) (dirfd : Nat) (path : PathArg)
  | renameat (olddirfd : Nat) (oldpath : PathArg) (newdirfd : Nat) (newpath : PathArg)
  | linkat (olddirfd : Nat) (oldpath : PathArg) (newdirfd : Nat) (newpath : PathArg)
      (flags : Int)
  | fchmodat (dirfd : Nat) (path : PathArg) (mode : Int) (flags : Int)
  | fchownat (dirfd : Nat) (path : PathArg) (uid : Int) (gid : Int) (flags : Int)
  | utimensat (dirfd : Nat) (path : PathArg) (ts : List Timespec) (flags : Int)
  | pread (fd : Int) (size : Nat) (offset : Int)
  | pwrite (fd : Int) (data : List Nat) (size : Nat) (offset : Int)
  | fprintf (func : String) (fmt : String) (args : List Int)
deriving DecidableEq

/-- What the process does that can be observed from outside.  The index `i` of a
diagnostic is the value of the loop variable when the line is printed; it is not part of
the printed text. -/
inductive Event where
  | call (c : Syscall)
  | notEqual (func : String) (expr : String) (x y : Int) (i : Nat)
  | inconsistentFd (func : String) (fd1 fd2 : Int) (i : Nat)
  | inconsistentEntry (name : CString)
  | assertFailed (func : String) (slot : Nat)
  | filler (name : CString) (st_ino : Int) (st_mode : Int)
deriving DecidableEq

/-- The kernel and the backing file systems, as seen by the process. -/
structure World where
  /-- The value a system call returns (`fdopendir`: 0 stands for NULL). -/
  ret : Syscall → Int
  /-- The value a system call stores in `errno`, `none` when it leaves `errno` alone. -/
  err : Syscall → Option Int
  /-- The content of the `struct stat` handed to `fstatat` (zeroed before) after the call. -/
  stat : Syscall → Stat
  /-- The content of the buffer handed to `readlinkat` or `pread` after the call. -/
  buf : Syscall → Buffer
  /-- The entries that successive `readdir` calls yield on the stream of a descriptor. -/
  dirents : Int → List Dirent

/-- The globals `abort_on_difference` and `mntpath_count` (after `main` has removed the
mount point from the count). -/
structure Globals where
  abort_on_difference : Bool
  mntpath_count : Nat
deriving DecidableEq

/-- The `MAX_MNTPATHS` constant. -/
def MAX_MNTPATHS : Nat := 10

/-- The number of elements of `mirror_fds`. -/
def MIRROR_FDS_LEN : Nat := 1024

/-- The mutable state of the process. -/
structure State where
  errno : Int
  mirror_fds : Nat → Int

/-- How a C function ends: it returns, the process aborts (`abort()` or a failed
`assert`), or it reads or writes outside an array. -/
inductive Res (α : Type) where
  | ret (a : α)
  | aborted
  | undefined
deriving DecidableEq

/-- What running a piece of C gives: how it ends, the state it leaves, and what it did
on the way, in order. -/
structure Out (α : Type) where
  res : Res α
  state : State
  events : List Event

/-- A C function body, run from a state. -/
def M (α : Type) : Type := State → Out α

/-- Sequencing: the second part runs only when the first part returned. -/
def M.bind {α β : Type} (m : M α) (f : α → M β) : M β := fun s =>
  match m s with
  | ⟨Res.ret a, s1, ev1⟩ =>
      match f a s1 with
      | ⟨r, s2, ev2⟩ => ⟨r, s2, ev1 ++ ev2⟩
  | ⟨Res.aborted, s1, ev1⟩ => ⟨Res.aborted, s1, ev1⟩
  | ⟨Res.undefined, s1, ev1⟩ => ⟨Res.undefined, s1, ev1⟩

/-- A body that returns a value and does nothing else. -/
def M.pure {α : Type} (a : α) : M α := fun s => ⟨Res.ret a, s, []⟩

instance : Monad M where
  pure := M.pure
  bind := M.bind

/-- The C library `abort()`. -/
def abort {α : Type} : M α := fun s => ⟨Res.aborted, s, []⟩

/-- An access outside an array. -/
def outOfBounds {α : Type} : M α := fun s => ⟨Res.undefined, s, []⟩

/-- One observable event. -/
def emit (e : Event) : M Unit := fun s => ⟨Res.ret (), s, [e]⟩

/-- The assignment `errno = e`. -/
def setErrno (e : Int) : M Unit := fun s => ⟨Res.ret (), { s with errno := e }, []⟩

/-- Reading `errno`. -/
def getErrno : M Int := fun s => ⟨Res.ret s.errno, s, []⟩

/-- Issuing a system call: it is recorded, `errno` is stored when the call sets it, and
the call's return value is handed back. -/
def sys (w : World) (c : Syscall) : M Int := fun s =>
  ⟨Res.ret (w.ret c), { s with errno := (w.err c).getD s.errno }, [Event.call c]⟩

/-- The loop `for (int i = ...; ...; i++) body` over the listed values of `i`. -/
def forEach (is : List Nat) (body : Nat → M Unit) : M Unit :=
  match is with
  | [] => pure ()
  | i :: rest => do
      body i
      forEach rest body

/-- A loop that fills an array: the values stored for the listed indices, in order. -/
def collect {α : Type} (is : List Nat) (body : Nat → M α) : M (List α) :=
  match is with
  | [] => pure []
  | i :: rest => do
      let a ← body i
      let as ← collect rest body
      pure (a :: as)

/-! ## Path normaliser -/

/-- The function `safe_path`: `"/"` gives `"."`, every other string gives the pointer
`path + 1`, which for the empty string is past the terminator. -/
def safe_path (path : CString) : PathArg :=
  if path = ['/'] then some ['.']
  else
    match path with
    | [] => none
    | _ :: rest => some rest

/-! ## Constants of the system headers (Linux) -/

/-- The `AT_SYMLINK_NOFOLLOW` flag. -/
def AT_SYMLINK_NOFOLLOW : Int := 256

/-- The `AT_REMOVEDIR` flag. -/
def AT_REMOVEDIR : Int := 512

/-- The `O_RDONLY` flag. -/
def O_RDONLY : Int := 0

/-- The `O_WRONLY` flag. -/
def O_WRONLY : Int := 1

/-- The `O_DIRECTORY` flag. -/
def O_DIRECTORY : Int := 65536

/-- The `EINVAL` error code. -/
def EINVAL : Int := 22

/-- The test `S_ISDIR(m)`: `(m & S_IFMT) == S_IFDIR`. -/
def S_ISDIR (m : Int) : Bool := Nat.land m.toNat 61440 == 16384

/-! ## Conversions between C integer types -/

/-- The number `2 ^ 64`, the modulus of `size_t` and `uint64_t` arithmetic. -/
def U64_MOD : Nat := 18446744073709551616

/-- The conversion to `long` (64 bits, two's complement): `(v + 2 ^ 63) mod 2 ^ 64 - 2 ^ 63`. -/
def toLong (v : Int) : Int := (v + 9223372036854775808) % 18446744073709551616 - 9223372036854775808

/-- The conversion to `int` (32 bits, two's complement): `(v + 2 ^ 31) mod 2 ^ 32 - 2 ^ 31`. -/
def toInt32 (v : Int) : Int := (v + 2147483648) % 4294967296 - 2147483648

/-- The conversion to `size_t` or `uint64_t` (64 bits, unsigned): `v mod 2 ^ 64`. -/
def toU64 (v : Int) : Nat := (v % 18446744073709551616).toNat

/-! ## The comparison helpers -/

/-- The `ABORT_IF_NOT_EQUAL(x, y)` helper: both values are converted to `long`; when they
differ a line is printed and, if `abort_on_difference` is set, the process aborts. -/
def ABORT_IF_NOT_EQUAL (g : Globals) (func expr : String) (i : Nat) (x y : Int) : M Unit :=
  let _x := toLong x
  let _y := toLong y
  if _x ≠ _y then do
    emit (Event.notEqual func expr _x _y i)
    if g.abort_on_difference then abort else pure ()
  else pure ()

/-- The `ABORT_IF_INCONSISTENT_FD(fd1, fd2)` helper: when exactly one of the descriptors
is -1 a line is printed and the process aborts. -/
def ABORT_IF_INCONSISTENT_FD (func : String) (i : Nat) (fd1 fd2 : Int) : M Unit :=
  if xor (decide (fd1 = -1)) (decide (fd2 = -1)) then do
    emit (Event.inconsistentFd func fd1 fd2 i)
    abort
  else pure ()

/-- The test `memcmp(a, b, n) != 0`: some byte among the first `n` differs. -/
def memcmpDiffers (a b : Buffer) (n : Nat) : Bool :=
  (List.range n).any (fun k => a k != b k)

/-- The element `a[i]` of an `int` array filled by a loop. -/
def elem (a : List Int) (i : Nat) : Int := a.getD i 0

/-- The values of `i` of a loop `for (int i = 1; i < mntpath_count; i++)`. -/
def others (g : Globals) : List Nat := List.range' 1 (g.mntpath_count - 1)

/-- The values of `i` of a loop `for (int i = 0; i < mntpath_count; i++)`. -/
def replicas (g : Globals) : List Nat := List.range g.mntpath_count

/-- The loop that every fan-out operation starts with:
`errno = 0; res[i] = call; errnos[i] = errno;` for every replica. -/
def fanout (w : World) (g : Globals) (call : Nat → Syscall) : M (List (Int × Int)) :=
  collect (replicas g) (fun i => do
    setErrno 0
    let r ← sys w (call i)
    let e ← getErrno
    pure (r, e))

/-- The loop headed `// Compare results` of the operations that compare the return
value and the error code only. -/
def compareResults (g : Globals) (func : String) (res errnos : List Int) : M Unit :=
  forEach (others g) (fun i => do
    ABORT_IF_NOT_EQUAL g func "res[0]" i (elem res 0) (elem res i)
    ABORT_IF_NOT_EQUAL g func "errnos[0]" i (elem errnos 0) (elem errnos i))

/-- The body shared, up to the system call, by `mirrorfs_access`, `mirrorfs_mkdir`,
`mirrorfs_unlink`, `mirrorfs_rmdir`, `mirrorfs_symlink`, `mirrorfs_rename`,
`mirrorfs_link`, `mirrorfs_chmod`, `mirrorfs_chown` and `mirrorfs_utimens`: call every
replica, compare, and answer from replica 0. -/
def fanoutOp (w : World) (g : Globals) (func : String) (call : Nat → Syscall) : M Int := do
  let rs ← fanout w g call
  let res := rs.map Prod.fst
  let errnos := rs.map Prod.snd
  compareResults g func res errnos
  if elem res 0 = -1 then pure (-(elem errnos 0)) else pure 0

/-! ## The operations -/

/-- The all-zero `struct stat` left by `memset`. -/
def Stat.zero : Stat :=
  ⟨0, 0, 0, 0, 0, 0, 0, 0, 0, 0, 0, 0, 0, 0, 0, 0, 0, 0⟩

/-- The element `stbufs[i]`. -/
def statElem (a : List Stat) (i : Nat) : Stat := a.getD i Stat.zero

/-- The comparison of `stbufs[0]` with `stbufs[i]` in `mirrorfs_getattr`. -/
def compareStat (g : Globals) (i : Nat) (a b : Stat) : M Unit :=
  if a ≠ b then do
    ABORT_IF_NOT_EQUAL g "mirrorfs_getattr" "stbufs[0].st_mode" i a.st_mode b.st_mode
    ABORT_IF_NOT_EQUAL g "mirrorfs_getattr" "stbufs[0].st_nlink" i a.st_nlink b.st_nlink
    ABORT_IF_NOT_EQUAL g "mirrorfs_getattr" "stbufs[0].st_uid" i a.st_uid b.st_uid
    ABORT_IF_NOT_EQUAL g "mirrorfs_getattr" "stbufs[0].st_gid" i a.st_gid b.st_gid
    if !S_ISDIR a.st_mode then
      ABORT_IF_NOT_EQUAL g "mirrorfs_getattr" "stbufs[0].st_size" i a.st_size b.st_size
    else pure ()
  else pure ()

/-- The `fstatat` call of `mirrorfs_getattr` for replica `i`. -/
def fstatatCall (path : CString) (i : Nat) : Syscall :=
  Syscall.fstatat i (safe_path path) AT_SYMLINK_NOFOLLOW

/-- The array `stbufs` after the first loop of `mirrorfs_getattr`. -/
def statArr (w : World) (g : Globals) (path : CString) : List Stat :=
  (replicas g).map (fun i => w.stat (fstatatCall path i))

/-- The function `mirrorfs_getattr`; the result carries the caller's `stbuf`. -/
def mirrorfs_getattr (w : World) (g : Globals) (path : CString) (stbuf : Stat) :
    M (Int × Stat) := do
  let rs ← fanout w g (fstatatCall path)
  let res := rs.map Prod.fst
  let errnos := rs.map Prod.snd
  let stbufs := statArr w g path
  compareResults g "mirrorfs_getattr" res errnos
  if elem res 0 = -1 then pure (-(elem errnos 0), stbuf)
  else do
    forEach (others g) (fun i => compareStat g i (statElem stbufs 0) (statElem stbufs i))
    pure (0, statElem stbufs 0)

/-- The function `mirrorfs_access`. -/
def mirrorfs_access (w : World) (g : Globals) (path : CString) (mask : Int) : M Int :=
  fanoutOp w g "mirrorfs_access" (fun i => Syscall.faccessat i (safe_path path) mask 0)

/-- The function `mirrorfs_mkdir`. -/
def mirrorfs_mkdir (w : World) (g : Globals) (path : CString) (mode : Int) : M Int :=
  fanoutOp w g "mirrorfs_mkdir" (fun i => Syscall.mkdirat i (safe_path path) mode)

/-- The function `mirrorfs_unlink`. -/
def mirrorfs_unlink (w : World) (g : Globals) (path : CString) : M Int :=
  fanoutOp w g "mirrorfs_unlink" (fun i => Syscall.unlinkat i (safe_path path) 0)

/-- The function `mirrorfs_rmdir`. -/
def mirrorfs_rmdir (w : World) (g : Globals) (path : CString) : M Int :=
  fanoutOp w g "mirrorfs_rmdir" (fun i => Syscall.unlinkat i (safe_path path) AT_REMOVEDIR)

/-- The function `mirrorfs_symlink`. -/
def mirrorfs_symlink (w : World) (g : Globals) (src dst : CString) : M Int :=
  fanoutOp w g "mirrorfs_symlink" (fun i => Syscall.symlinkat src i (safe_path dst))

/-- The function `mirrorfs_rename`. -/
def mirrorfs_rename (w : World) (g : Globals) (src dst : CString) (flags : Nat) : M Int :=
  if flags ≠ 0 then pure (-EINVAL)
  else
    fanoutOp w g "mirrorfs_rename"
      (fun i => Syscall.renameat i (safe_path src) i (safe_path dst))

/-- The function `mirrorfs_link`. -/
def mirrorfs_link (w : World) (g : Globals) (src dst : CString) : M Int :=
  fanoutOp w g "mirrorfs_link"
    (fun i => Syscall.linkat i (safe_path src) i (safe_path dst) 0)

/-- The function `mirrorfs_chmod`. -/
def mirrorfs_chmod (w : World) (g : Globals) (path : CString) (mode : Int) : M Int :=
  fanoutOp w g "mirrorfs_chmod" (fun i => Syscall.fchmodat i (safe_path path) mode 0)

/-- The function `mirrorfs_chown`. -/
def mirrorfs_chown (w : World) (g : Globals) (path : CString) (uid gid : Int) : M Int :=
  fanoutOp w g "mirrorfs_chown" (fun i => Syscall.fchownat i (safe_path path) uid gid 0)

/-- The function `mirrorfs_utimens`. -/
def mirrorfs_utimens (w : World) (g : Globals) (path : CString) (ts : List Timespec) :
    M Int :=
  fanoutOp w g "mirrorfs_utimens"
    (fun i => Syscall.utimensat i (safe_path path) ts AT_SYMLINK_NOFOLLOW)

/-- The payload check of `mirrorfs_readlink` and `mirrorfs_read`:
`if (res[0] != -1 && memcmp(bufs[0], bufs[i], res[0]) != 0) abort();`. -/
def comparePayload (res0 : Int) (b0 bi : Buffer) : M Unit :=
  if res0 ≠ -1 ∧ memcmpDiffers b0 bi (toU64 res0) = true then abort else pure ()

/-- The loop headed `// Compare results` of `mirrorfs_readlink` and `mirrorfs_read`. -/
def compareWithPayload (g : Globals) (func : String) (res errnos : List Int)
    (bufs : Nat → Buffer) : M Unit :=
  forEach (others g) (fun i => do
    ABORT_IF_NOT_EQUAL g func "res[0]" i (elem res 0) (elem res i)
    ABORT_IF_NOT_EQUAL g func "errnos[0]" i (elem errnos 0) (elem errnos i)
    comparePayload (elem res 0) (bufs 0) (bufs i))

/-- The statements `memcpy(buf, src, n); buf[n] = 0;` on a buffer of `size` bytes; a
write past the end of the buffer is an access outside an array. -/
def copyAndTerminate (buf src : Buffer) (n size : Nat) : M Buffer :=
  if n < size then
    pure (fun k => if k = n then 0 else if k < n then src k else buf k)
  else outOfBounds

/-- The `readlinkat` call of `mirrorfs_readlink` for replica `i`: the replica is asked
for `size - 1` bytes, computed in `size_t`. -/
def readlinkatCall (path : CString) (size : Nat) (i : Nat) : Syscall :=
  Syscall.readlinkat i (safe_path path) ((size + U64_MOD - 1) % U64_MOD)

/-- The function `mirrorfs_readlink`; the result carries the caller's `buf`, which has
`size` bytes.  Every replica has a buffer of its own, `bufs[i]`. -/
def mirrorfs_readlink (w : World) (g : Globals) (path : CString) (buf : Buffer)
    (size : Nat) : M (Int × Buffer) := do
  let call := readlinkatCall path size
  let rs ← fanout w g call
  let res := rs.map Prod.fst
  let errnos := rs.map Prod.snd
  let bufs := fun i => w.buf (call i)
  compareWithPayload g "mirrorfs_readlink" res errnos bufs
  if elem res 0 = -1 then pure (-(elem errnos 0), buf)
  else do
    let out ← copyAndTerminate buf (bufs 0) (toU64 (elem res 0)) size
    pure (0, out)

/-- The fields of `struct fuse_file_info` that the program uses. -/
structure FuseFileInfo where
  flags : Int
  fh : Nat
deriving DecidableEq

/-- The index `fi->fh * (MAX_MNTPATHS - 1) + i - 1`, computed in `uint64_t`. -/
def slot (fh i : Nat) : Nat := (fh * (MAX_MNTPATHS - 1) + i + U64_MOD - 1) % U64_MOD

/-- Reading `mirror_fds[k]`. -/
def readSlot (k : Nat) : M Int := fun s =>
  if k < MIRROR_FDS_LEN then ⟨Res.ret (s.mirror_fds k), s, []⟩ else ⟨Res.undefined, s, []⟩

/-- The assignment `mirror_fds[k] = v`. -/
def writeSlot (k : Nat) (v : Int) : M Unit := fun s =>
  if k < MIRROR_FDS_LEN then
    ⟨Res.ret (), { s with mirror_fds := fun j => if j = k then v else s.mirror_fds j }, []⟩
  else ⟨Res.undefined, s, []⟩

/-- The loop that ends `mirrorfs_open` and `mirrorfs_create`:
`assert(mirror_fds[...] == -1); mirror_fds[...] = fds[i];` for every replica but 0. -/
def installHandle (g : Globals) (func : String) (fh : Nat) (fds : List Int) : M Unit :=
  forEach (others g) (fun i => do
    let v ← readSlot (slot fh i)
    if v ≠ -1 then do
      emit (Event.assertFailed func (slot fh i))
      abort
    else writeSlot (slot fh i) (elem fds i))

/-- The body shared, up to the `openat` call, by `mirrorfs_open` and `mirrorfs_create`;
the result carries the caller's `fi`. -/
def openOp (w : World) (g : Globals) (func : String) (call : Nat → Syscall)
    (fi : FuseFileInfo) : M (Int × FuseFileInfo) := do
  let rs ← fanout w g call
  let fds := rs.map Prod.fst
  let errnos := rs.map Prod.snd
  forEach (others g) (fun i => do
    ABORT_IF_INCONSISTENT_FD func i (elem fds 0) (elem fds i)
    ABORT_IF_NOT_EQUAL g func "errnos[0]" i (elem errnos 0) (elem errnos i))
  if elem fds 0 = -1 then pure (-(elem errnos 0), fi)
  else do
    let fh := toU64 (elem fds 0)
    installHandle g func fh fds
    pure (0, { fi with fh := fh })

/-- The function `mirrorfs_create`. -/
def mirrorfs_create (w : World) (g : Globals) (path : CString) (mode : Int)
    (fi : FuseFileInfo) : M (Int × FuseFileInfo) :=
  openOp w g "mirrorfs_create"
    (fun i => Syscall.openat i (safe_path path) fi.flags (some mode)) fi

/-- The function `mirrorfs_open`. -/
def mirrorfs_open (w : World) (g : Globals) (path : CString) (fi : FuseFileInfo) :
    M (Int × FuseFileInfo) :=
  openOp w g "mirrorfs_open" (fun i => Syscall.openat i (safe_path path) fi.flags none) fi

/-- The loop `for (int j = 0; j < k; j++) close(fds[j]);`. -/
def closeFirst (w : World) (k : Nat) (fds : List Int) : M Unit :=
  forEach (List.range k) (fun j => do
    let _ ← sys w (Syscall.close (elem fds j))
    pure ())

/-- The macro `LOG_FUSE_OPERATION(fmt, ...)`: `log_operations` is the constant 1, so the
line is always printed. -/
def LOG_FUSE_OPERATION (w : World) (func fmt : String) (args : List Int) : M Unit := do
  let _ ← sys w (Syscall.fprintf func fmt args)
  pure ()

/-- The loop that opens the path on every replica when `mirrorfs_read` is called without a
handle.  `fds` holds the descriptors of the replicas before `i`.  The result is the array
`fds`, or the value of the early `return -errno`. -/
def openAll (w : World) (call : Nat → Syscall) (is : List Nat) (fds : List Int) :
    M (Except Int (List Int)) :=
  match is with
  | [] => pure (Except.ok fds)
  | i :: rest => do
      let fd ← sys w (call i)
      if fd = -1 then do
        closeFirst w i fds
        let e ← getErrno
        pure (Except.error (-e))
      else openAll w call rest (fds ++ [fd])

/-- The loop that opens the path on every replica when `mirrorfs_write` is called without
a handle.  It is the loop of `mirrorfs_read` with one more statement: after a failing
`openat`, `LOG_FUSE_OPERATION("Failed to open file %d: %s", i, strerror(errno))` runs
before the descriptors are closed and `-errno` is returned. -/
def openAllForWrite (w : World) (call : Nat → Syscall) (is : List Nat) (fds : List Int) :
    M (Except Int (List Int)) :=
  match is with
  | [] => pure (Except.ok fds)
  | i :: rest => do
      let fd ← sys w (call i)
      if fd = -1 then do
        let e0 ← getErrno
        LOG_FUSE_OPERATION w "mirrorfs_write" "Failed to open file %d: %s" [(i : Int), e0]
        closeFirst w i fds
        let e ← getErrno
        pure (Except.error (-e))
      else openAllForWrite w call rest (fds ++ [fd])

/-- The lines `fds[0] = fi->fh; fds[i] = mirror_fds[fi->fh * (MAX_MNTPATHS - 1) + i - 1];`
of `mirrorfs_read` and `mirrorfs_write`. -/
def handleFds (g : Globals) (fh : Nat) : M (List Int) := do
  let rest ← collect (others g) (fun i => readSlot (slot fh i))
  pure (toInt32 fh :: rest)

/-- The `openat` call of `mirrorfs_read` and `mirrorfs_write` for replica `i`. -/
def openatCall (path : CString) (flags : Int) (i : Nat) : Syscall :=
  Syscall.openat i (safe_path path) flags none

/-- The descriptors `fds` of `mirrorfs_read`: looked up when there is a handle, opened
with `flags` otherwise. -/
def obtainFds (w : World) (g : Globals) (path : CString) (flags : Int)
    (fi : Option FuseFileInfo) : M (Except Int (List Int)) :=
  match fi with
  | none => openAll w (openatCall path flags) (replicas g) []
  | some f => do
      let fds ← handleFds g f.fh
      pure (Except.ok fds)

/-- The descriptors `fds` of `mirrorfs_write`: looked up when there is a handle, opened
with `O_WRONLY` otherwise. -/
def obtainFdsForWrite (w : World) (g : Globals) (path : CString)
    (fi : Option FuseFileInfo) : M (Except Int (List Int)) :=
  match fi with
  | none => openAllForWrite w (openatCall path O_WRONLY) (replicas g) []
  | some f => do
      let fds ← handleFds g f.fh
      pure (Except.ok fds)

/-- The closing loop of `mirrorfs_read` and `mirrorfs_write`:
`if (fi == NULL) close every fds[i]`. -/
def closeIfOpened (w : World) (g : Globals) (fi : Option FuseFileInfo) (fds : List Int) :
    M Unit :=
  match fi with
  | none => closeFirst w g.mntpath_count fds
  | some _ => pure ()

/-- The `pread` call that `mirrorfs_read` issues for replica `i` given the array `fds`. -/
def preadCall (fds : List Int) (size : Nat) (offset : Int) (i : Nat) : Syscall :=
  Syscall.pread (elem fds i) size offset

/-- The `pwrite` call that `mirrorfs_write` issues for replica `i` given the array `fds`. -/
def pwriteCall (fds : List Int) (buf : Buffer) (size : Nat) (offset : Int) (i : Nat) :
    Syscall :=
  Syscall.pwrite (elem fds i) ((List.range size).map buf) size offset

/-- The function `mirrorfs_read`; the result carries the caller's `buf`, which is the
buffer replica 0 reads into. -/
def mirrorfs_read (w : World) (g : Globals) (path : CString) (buf : Buffer) (size : Nat)
    (offset : Int) (fi : Option FuseFileInfo) : M (Int × Buffer) := do
  let opened ← obtainFds w g path O_RDONLY fi
  match opened with
  | Except.error v => pure (v, buf)
  | Except.ok fds => do
      let call := preadCall fds size offset
      let rs ← fanout w g call
      let res := rs.map Prod.fst
      let errnos := rs.map Prod.snd
      let bufs := fun i => w.buf (call i)
      compareWithPayload g "mirrorfs_read" res errnos bufs
      let result := if elem res 0 = -1 then -(elem errnos 0) else elem res 0
      closeIfOpened w g fi fds
      pure (result, bufs 0)

/-- The function `mirrorfs_write`; `buf` is the caller's data. -/
def mirrorfs_write (w : World) (g : Globals) (path : CString) (buf : Buffer) (size : Nat)
    (offset : Int) (fi : Option FuseFileInfo) : M Int := do
  let opened ← obtainFdsForWrite w g path fi
  match opened with
  | Except.error v => pure v
  | Except.ok fds => do
      let rs ← fanout w g (pwriteCall fds buf size offset)
      let res := rs.map Prod.fst
      let errnos := rs.map Prod.snd
      compareResults g "mirrorfs_write" res errnos
      let result := if elem res 0 = -1 then -(elem errnos 0) else elem res 0
      closeIfOpened w g fi fds
      pure result

/-- The function `mirrorfs_release`. -/
def mirrorfs_release (w : World) (fi : FuseFileInfo) : M Int := do
  let fd ← readSlot fi.fh
  let _ ← sys w (Syscall.close fd)
  writeSlot fi.fh (-1)
  let _ ← sys w (Syscall.close (toInt32 fi.fh))
  pure 0

/-- The function `mirrorfs_fsync`. -/
def mirrorfs_fsync : M Int := pure 0

/-- The `openat` call of `mirrorfs_readdir` for replica `i`. -/
def openDirCall (path : CString) (i : Nat) : Syscall :=
  Syscall.openat i (safe_path path) O_DIRECTORY none

/-- The first loop of `mirrorfs_readdir`: `openat` and `fdopendir` on every replica, with
an early `return -errno` when one of them fails.  `dirfds` holds the descriptors of the
replicas before `i`. -/
def openDirs (w : World) (path : CString) (is : List Nat) (dirfds : List Int) :
    M (Except Int (List Int)) :=
  match is with
  | [] => pure (Except.ok dirfds)
  | i :: rest => do
      let fd ← sys w (openDirCall path i)
      if fd = -1 then do
        closeFirst w i dirfds
        let e ← getErrno
        pure (Except.error (-e))
      else do
        let dp ← sys w (Syscall.fdopendir fd)
        if dp = 0 then do
          closeFirst w (i + 1) (dirfds ++ [fd])
          let e ← getErrno
          pure (Except.error (-e))
        else openDirs w path rest (dirfds ++ [fd])

/-- The inner loop of `mirrorfs_readdir`: every replica but 0 reads one entry, which must
exist and bear the name of `de`.  `dps i` is what is left of the stream of replica `i`. -/
def checkEntry (de : Dirent) (is : List Nat) (dps : Nat → List Dirent) :
    M (Nat → List Dirent) :=
  match is with
  | [] => pure dps
  | i :: rest =>
      match dps i with
      | [] => do
          emit (Event.inconsistentEntry de.d_name)
          abort
      | de_i :: left =>
          if de.d_name ≠ de_i.d_name then do
            emit (Event.inconsistentEntry de.d_name)
            abort
          else checkEntry de rest (fun j => if j = i then left else dps j)

/-- The `struct stat` that `mirrorfs_readdir` hands to the filler for an entry: all
zero but `st_ino = de->d_ino` and `st_mode = de->d_type << 12`. -/
def direntStat (de : Dirent) : Stat :=
  { Stat.zero with st_ino := de.d_ino, st_mode := de.d_type * 4096 }

/-- The `while ((de = readdir(dps[0])) != NULL)` loop of `mirrorfs_readdir`; `es0` is what
is left of the stream of replica 0, `buf` is the buffer that the filler fills. -/
def readdirLoop {σ : Type} (g : Globals) (filler : σ → CString → Stat → σ × Bool)
    (es0 : List Dirent) (buf : σ) (dps : Nat → List Dirent) : M σ :=
  match es0 with
  | [] => pure buf
  | de :: left => do
      let st := direntStat de
      emit (Event.filler de.d_name st.st_ino st.st_mode)
      let r := filler buf de.d_name st
      if r.2 then pure r.1
      else do
        let dps1 ← checkEntry de (others g) dps
        readdirLoop g filler left r.1 dps1

/-- The last loop of `mirrorfs_readdir`: `closedir(dps[i]); close(dirfds[i]);`. -/
def closeDirs (w : World) (g : Globals) (dirfds : List Int) : M Unit :=
  forEach (replicas g) (fun i => do
    let _ ← sys w (Syscall.closedir (elem dirfds i))
    let _ ← sys w (Syscall.close (elem dirfds i))
    pure ())

/-- The function `mirrorfs_readdir`; the filler returns the buffer it has filled and
whether it asks to stop; the result carries that buffer. -/
def mirrorfs_readdir {σ : Type} (w : World) (g : Globals) (path : CString) (buf : σ)
    (filler : σ → CString → Stat → σ × Bool) : M (Int × σ) := do
  let opened ← openDirs w path (replicas g) []
  match opened with
  | Except.error v => pure (v, buf)
  | Except.ok dirfds => do
      let dps := fun i => w.dirents (elem dirfds i)
      let out ← readdirLoop g filler (dps 0) buf dps
      closeDirs w g dirfds
      pure (0, out)

/-- The state in which `main` starts the file system: every element of `mirror_fds`
is -1 (`memset`). -/
def State.init : State := ⟨0, fun _ => -1⟩

/-! ## Definitions used to state the properties -/

/-- The value of `errnos[i]` after `errno = 0; call; errnos[i] = errno;`. -/
def errnoOf (w : World) (c : Syscall) : Int := (w.err c).getD 0

/-- The answer of an operation without payload: the negated error code of replica 0
when its call returned -1, and 0 otherwise. -/
def canonical (r0 e0 : Int) : Int := if r0 = -1 then -e0 else 0

/-- The answer of `read` and `write`: the negated error code of replica 0 when its call
returned -1, and its byte count otherwise. -/
def canonicalCount (r0 e0 : Int) : Int := if r0 = -1 then -e0 else r0

/-- The outcome of a check that leaves the state alone: it aborts or returns, after
having done `ev`. -/
def checkOut (ab : Bool) (ev : List Event) (s : State) : Out Unit :=
  ⟨if ab then Res.aborted else Res.ret (), s, ev⟩

/-- The events of a loop of checks: those of every round up to and including the first
round that aborts. -/
def loopEvents (is : List Nat) (ab : Nat → Bool) (ev : Nat → List Event) : List Event :=
  match is with
  | [] => []
  | i :: rest => ev i ++ (if ab i then [] else loopEvents rest ab ev)

/-- The value part of an outcome. -/
def Res.map {α β : Type} (f : α → β) (r : Res α) : Res β :=
  match r with
  | Res.ret a => Res.ret (f a)
  | Res.aborted => Res.aborted
  | Res.undefined => Res.undefined

/-- An operation answers from replica 0: whenever it returns, the value is `expected`;
and it does return `expected` when `abort_on_difference` is off. -/
def AnswersFromReplica0 (g : Globals) (r : Res Int) (expected : Int) : Prop :=
  (∀ v, r = Res.ret v → v = expected) ∧
  (g.abort_on_difference = false → r = Res.ret expected)

/-- Whether `ABORT_IF_NOT_EQUAL(x, y)` aborts. -/
def neqAborts (g : Globals) (x y : Int) : Bool :=
  decide (toLong x ≠ toLong y) && g.abort_on_difference

/-- The line that `ABORT_IF_NOT_EQUAL(x, y)` prints, if any. -/
def neqEvents (func expr : String) (i : Nat) (x y : Int) : List Event :=
  if toLong x ≠ toLong y then [Event.notEqual func expr (toLong x) (toLong y) i] else []

/-- The array `res` (or `fds`) after the first loop of a fan-out operation. -/
def resArr (w : World) (g : Globals) (call : Nat → Syscall) : List Int :=
  (replicas g).map (fun i => w.ret (call i))

/-- The array `errnos` after the first loop of a fan-out operation. -/
def errArr (w : World) (g : Globals) (call : Nat → Syscall) : List Int :=
  (replicas g).map (fun i => errnoOf w (call i))

/-- The system calls of the first loop of a fan-out operation. -/
def callEvents (g : Globals) (call : Nat → Syscall) : List Event :=
  (replicas g).map (fun i => Event.call (call i))

/-- Whether round `i` of the loop headed `// Compare results` aborts. -/
def roundAborts (g : Globals) (res errnos : List Int) (i : Nat) : Bool :=
  neqAborts g (elem res 0) (elem res i) || neqAborts g (elem errnos 0) (elem errnos i)

/-- The lines that round `i` of the loop headed `// Compare results` prints. -/
def roundEvents (g : Globals) (func : String) (res errnos : List Int) (i : Nat) :
    List Event :=
  neqEvents func "res[0]" i (elem res 0) (elem res i)
    ++ (if neqAborts g (elem res 0) (elem res i) then []
        else neqEvents func "errnos[0]" i (elem errnos 0) (elem errnos i))

/-- Whether the loop headed `// Compare results` aborts. -/
def resultsAbort (g : Globals) (res errnos : List Int) : Bool :=
  (others g).any (roundAborts g res errnos)

/-- The lines that the loop headed `// Compare results` prints. -/
def resultsEvents (g : Globals) (func : String) (res errnos : List Int) : List Event :=
  loopEvents (others g) (roundAborts g res errnos) (roundEvents g func res errnos)

/-- Whether the payload check of `readlink` and `read` aborts. -/
def payloadDiffers (res0 : Int) (b0 bi : Buffer) : Bool :=
  decide (res0 ≠ -1) && memcmpDiffers b0 bi (toU64 res0)

/-- Whether round `i` of the comparison loop of `readlink` and `read` aborts. -/
def payloadRoundAborts (g : Globals) (res errnos : List Int) (bufs : Nat → Buffer)
    (i : Nat) : Bool :=
  roundAborts g res errnos i || payloadDiffers (elem res 0) (bufs 0) (bufs i)

/-- Whether the comparison loop of `readlink` and `read` aborts. -/
def payloadAbort (g : Globals) (res errnos : List Int) (bufs : Nat → Buffer) : Bool :=
  (others g).any (payloadRoundAborts g res errnos bufs)

/-- The lines that the comparison loop of `readlink` and `read` prints. -/
def payloadEvents (g : Globals) (func : String) (res errnos : List Int)
    (bufs : Nat → Buffer) : List Event :=
  loopEvents (others g) (payloadRoundAborts g res errnos bufs) (roundEvents g func res errnos)

/-- Whether every element of `mirror_fds` that belongs to the handle `fh` is inside the
array. -/
def slotsInRange (g : Globals) (fh : Nat) : Bool :=
  (others g).all (fun i => decide (slot fh i < MIRROR_FDS_LEN))

/-- The array `fds` that `read` and `write` look up for the handle `fh`. -/
def fdsOf (g : Globals) (s : State) (fh : Nat) : List Int :=
  toInt32 fh :: (others g).map (fun i => s.mirror_fds (slot fh i))

/-- Whether the comparison of two `struct stat` in `mirrorfs_getattr` aborts. -/
def statAborts (g : Globals) (a b : Stat) : Bool :=
  decide (a ≠ b) &&
    (neqAborts g a.st_mode b.st_mode || (neqAborts g a.st_nlink b.st_nlink ||
      (neqAborts g a.st_uid b.st_uid || (neqAborts g a.st_gid b.st_gid ||
        (!S_ISDIR a.st_mode && neqAborts g a.st_size b.st_size)))))

/-- The lines that the comparison of two `struct stat` in `mirrorfs_getattr` prints. -/
def statEvents (g : Globals) (i : Nat) (a b : Stat) : List Event :=
  if a ≠ b then
    neqEvents "mirrorfs_getattr" "stbufs[0].st_mode" i a.st_mode b.st_mode ++
    (if neqAborts g a.st_mode b.st_mode then [] else
      neqEvents "mirrorfs_getattr" "stbufs[0].st_nlink" i a.st_nlink b.st_nlink ++
      (if neqAborts g a.st_nlink b.st_nlink then [] else
        neqEvents "mirrorfs_getattr" "stbufs[0].st_uid" i a.st_uid b.st_uid ++
        (if neqAborts g a.st_uid b.st_uid then [] else
          neqEvents "mirrorfs_getattr" "stbufs[0].st_gid" i a.st_gid b.st_gid ++
          (if neqAborts g a.st_gid b.st_gid then [] else
            (if S_ISDIR a.st_mode then [] else
              neqEvents "mirrorfs_getattr" "stbufs[0].st_size" i a.st_size b.st_size)))))
  else []

/-- Whether the loop of `mirrorfs_getattr` that compares the `struct stat` aborts. -/
def statLoopAborts (g : Globals) (stbufs : List Stat) : Bool :=
  (others g).any (fun i => statAborts g (statElem stbufs 0) (statElem stbufs i))

/-- The lines that the loop of `mirrorfs_getattr` that compares the `struct stat` prints. -/
def statLoopEvents (g : Globals) (stbufs : List Stat) : List Event :=
  loopEvents (others g) (fun i => statAborts g (statElem stbufs 0) (statElem stbufs i))
    (fun i => statEvents g i (statElem stbufs 0) (statElem stbufs i))

/-- An example world with two diverging replicas: on replica 0 every path-based call
fails with error code 2 (`ENOENT`), on the other replicas every call succeeds. -/
def worldDiverging : World where
  ret := fun c =>
    match c with
    | Syscall.faccessat 0 _ _ _ => -1
    | Syscall.fstatat 0 _ _ => -1
    | _ => 0
  err := fun c =>
    match c with
    | Syscall.faccessat 0 _ _ _ => some 2
    | Syscall.fstatat 0 _ _ => some 2
    | _ => none
  stat := fun _ => Stat.zero
  buf := fun _ _ => 0
  dirents := fun _ => []

/-- Two replicas, `abort_on_difference` off. -/
def twoReplicasNoAbort : Globals := ⟨false, 2⟩

/-- Two replicas, `abort_on_difference` on (the value compiled into the program). -/
def twoReplicas : Globals := ⟨true, 2⟩

/-- The compared fields of a `struct stat` lie in the range of their C types:
`st_mode`, `st_uid` and `st_gid` are `unsigned int`, `st_nlink` is `unsigned long`,
`st_size` is `long`. -/
def Stat.InRange (a : Stat) : Prop :=
  (0 ≤ a.st_mode ∧ a.st_mode < 4294967296) ∧
  (0 ≤ a.st_nlink ∧ a.st_nlink < 18446744073709551616) ∧
  (0 ≤ a.st_uid ∧ a.st_uid < 4294967296) ∧
  (0 ≤ a.st_gid ∧ a.st_gid < 4294967296) ∧
  (-9223372036854775808 ≤ a.st_size ∧ a.st_size < 9223372036854775808)

instance (a : Stat) : Decidable a.InRange := by
  unfold Stat.InRange
  infer_instance

/-- The comparison policy of `getattr`: `b` differs from the reference `a` in `st_mode`,
`st_nlink`, `st_uid` or `st_gid`, or `a` is not a directory and `st_size` differs. -/
def comparedFieldsDiffer (a b : Stat) : Prop :=
  a.st_mode ≠ b.st_mode ∨ a.st_nlink ≠ b.st_nlink ∨ a.st_uid ≠ b.st_uid ∨
    a.st_gid ≠ b.st_gid ∨ (S_ISDIR a.st_mode = false ∧ a.st_size ≠ b.st_size)

instance (a b : Stat) : Decidable (comparedFieldsDiffer a b) := by
  unfold comparedFieldsDiffer
  infer_instance

/-- Whether a divergence line was printed in the round of replica `i`. -/
def reports (evs : List Event) (i : Nat) : Bool :=
  evs.any (fun e =>
    match e with
    | Event.notEqual _ _ _ _ j => j == i
    | _ => false)

/-- An example world in which `fstatat` succeeds everywhere and the replicas differ only
in fields that `getattr` does not compare (replica 1 has another inode number and, both
being directories, another size). -/
def worldStatNoise : World where
  ret := fun _ => 0
  err := fun _ => none
  stat := fun c =>
    match c with
    | Syscall.fstatat 1 _ _ => { Stat.zero with st_mode := 16877, st_ino := 7, st_size := 4096 }
    | _ => { Stat.zero with st_mode := 16877, st_ino := 3, st_size := 60 }
  buf := fun _ _ => 0
  dirents := fun _ => []

/-- The value of `errno` after a sequence of system calls, when it was `e` before. -/
def errnoAfter (w : World) (cs : List Syscall) (e : Int) : Int :=
  cs.foldl (fun e c => (w.err c).getD e) e

/-- The `close` calls of the loop `for (j = 0; j < k; j++) close(fds[j])`. -/
def closeCalls (k : Nat) (fds : List Int) : List Syscall :=
  (List.range k).map (fun j => Syscall.close (elem fds j))

/-- The array `fds` that `read` and `write` use: looked up in `mirror_fds` when there is
a handle, the results of the `openat` calls otherwise. -/
def usedFds (w : World) (g : Globals) (s : State) (path : CString) (flags : Int)
    (fi : Option FuseFileInfo) : List Int :=
  match fi with
  | none => resArr w g (openatCall path flags)
  | some f => fdsOf g s f.fh

/-- Whether `read` and `write` get to use their array `fds`: with a handle, the elements
of `mirror_fds` read are inside the array; without one, `openat` succeeded on every
replica. -/
def fdsObtained (w : World) (g : Globals) (path : CString) (flags : Int)
    (fi : Option FuseFileInfo) : Bool :=
  match fi with
  | none => (replicas g).all (fun i => decide (w.ret (openatCall path flags i) ≠ -1))
  | some f => slotsInRange g f.fh

/-- The caller's buffer after `memcpy(buf, src, n); buf[n] = 0;`. -/
def terminated (buf src : Buffer) (n : Nat) : Buffer :=
  fun k => if k = n then 0 else if k < n then src k else buf k

/-- The replicas of `is` that come before the first one whose call returns -1. -/
def openedBefore (w : World) (call : Nat → Syscall) (is : List Nat) : List Nat :=
  is.takeWhile (fun i => decide (w.ret (call i) ≠ -1))

/-- The first replica of `is` whose call returns -1, if any. -/
def firstFailure (w : World) (call : Nat → Syscall) (is : List Nat) : Option Nat :=
  is.find? (fun i => decide (w.ret (call i) = -1))

/-- The system calls of the opening loop of `read` when the call of replica `i` is the
first to return -1: the calls up to that one, then the `close` calls on the
descriptors obtained before. `fds` holds the descriptors of earlier replicas. -/
def failedOpenCalls (w : World) (call : Nat → Syscall) (is : List Nat) (fds : List Int)
    (i : Nat) : List Syscall :=
  (openedBefore w call is).map call ++ [call i]
    ++ closeCalls i (fds ++ (openedBefore w call is).map (fun j => w.ret (call j)))

/-- The first `ret` bytes of two buffers are not byte-identical. -/
def payloadMismatch (ret : Int) (b0 bi : Buffer) : Prop :=
  ∃ k : Nat, (k : Int) < ret ∧ b0 k ≠ bi k

/-- An example world for `read` and `readlink` on two replicas: every call succeeds and
returns 2 (so two bytes are read), replica 0 holds the bytes `aa` (97, 97) and replica 1
the bytes `bb` (98, 98). -/
def worldPayload : World where
  ret := fun _ => 2
  err := fun _ => none
  stat := fun _ => Stat.zero
  buf := fun c =>
    match c with
    | Syscall.readlinkat 0 _ _ => fun _ => 97
    | Syscall.pread 2 _ _ => fun _ => 97
    | _ => fun _ => 98
  dirents := fun _ => []

/-- A handle whose canonical descriptor is 2. -/
def handleTwo : FuseFileInfo := ⟨0, 2⟩

/-- The state after a handle with canonical descriptor 2 and second descriptor 5 has
been installed for two replicas. -/
def stateHandleTwo : State := ⟨0, fun k => if k = 18 then 5 else -1⟩

/-- Whether `ABORT_IF_INCONSISTENT_FD(fd1, fd2)` aborts: exactly one descriptor is -1. -/
def fdInconsistent (fd1 fd2 : Int) : Bool := xor (decide (fd1 = -1)) (decide (fd2 = -1))

/-- Whether round `i` of the comparison loop of `open` and `create` aborts. -/
def fdRoundAborts (g : Globals) (fds errnos : List Int) (i : Nat) : Bool :=
  fdInconsistent (elem fds 0) (elem fds i) || neqAborts g (elem errnos 0) (elem errnos i)

/-- The lines that round `i` of the comparison loop of `open` and `create` prints. -/
def fdRoundEvents (func : String) (fds errnos : List Int) (i : Nat) : List Event :=
  (if fdInconsistent (elem fds 0) (elem fds i) then
      [Event.inconsistentFd func (elem fds 0) (elem fds i) i] else [])
    ++ (if fdInconsistent (elem fds 0) (elem fds i) then []
        else neqEvents func "errnos[0]" i (elem errnos 0) (elem errnos i))

/-- Whether the comparison loop of `open` and `create` aborts. -/
def fdAbort (g : Globals) (fds errnos : List Int) : Bool :=
  (others g).any (fdRoundAborts g fds errnos)

/-- The lines that the comparison loop of `open` and `create` prints. -/
def fdEvents (g : Globals) (func : String) (fds errnos : List Int) : List Event :=
  loopEvents (others g) (fdRoundAborts g fds errnos) (fdRoundEvents func fds errnos)

/-- The array `mirror_fds` after the assignments `mirror_fds[key i] = fds[i]` for the
listed `i`, in order (`key i` is the index `slot fh i`). -/
def installed (key : Nat → Nat) (is : List Nat) (fds : List Int) (t : Nat → Int) :
    Nat → Int :=
  match is with
  | [] => t
  | i :: rest => installed key rest fds (fun j => if j = key i then elem fds i else t j)

/-- The elements of `mirror_fds` that belong to the handle `fh` are all -1. -/
def slotsFree (g : Globals) (s : State) (fh : Nat) : Bool :=
  (others g).all (fun i => decide (s.mirror_fds (slot fh i) = -1))

/-- What `open` and `create` promise for the `openat` calls `call`, given the outcome
`out` of the operation run from the state `s` with the caller's `fi`:
* when exactly one of the descriptors of replica 0 and of some replica `i` is -1, the
  process aborts, whatever `abort_on_difference` says;
* when every replica succeeds (descriptor `≥ 0`) with the same error code and the elements
  of `mirror_fds` of the new handle are inside the array and free, the operation returns
  0, hands replica 0's descriptor to the host in `fi->fh`, and does nothing observable but
  its `openat` calls (no diagnostic), however the descriptor values differ;
* when every replica fails with the same error code, the operation returns the negated
  error code, leaves `fi` and `mirror_fds` alone and prints nothing. -/
def OpenPolicy (w : World) (g : Globals) (call : Nat → Syscall) (fi : FuseFileInfo)
    (s : State) (out : Out (Int × FuseFileInfo)) : Prop :=
  (∀ i, 1 ≤ i → i < g.mntpath_count →
    ((w.ret (call 0) = -1 ∧ w.ret (call i) ≠ -1) ∨
      (w.ret (call 0) ≠ -1 ∧ w.ret (call i) = -1)) →
    out.res = Res.aborted) ∧
  ((∀ i, i < g.mntpath_count → 0 ≤ w.ret (call i)) →
    (∀ i, i < g.mntpath_count → errnoOf w (call i) = errnoOf w (call 0)) →
    w.ret (call 0) < 2147483648 →
    slotsInRange g (w.ret (call 0)).toNat = true →
    slotsFree g s (w.ret (call 0)).toNat = true →
    out.res = Res.ret (0, { fi with fh := (w.ret (call 0)).toNat }) ∧
      out.events = callEvents g call) ∧
  ((∀ i, i < g.mntpath_count → w.ret (call i) = -1) →
    (∀ i, i < g.mntpath_count → errnoOf w (call i) = errnoOf w (call 0)) →
    out.res = Res.ret (-(errnoOf w (call 0)), fi) ∧
      out.state.mirror_fds = s.mirror_fds ∧ out.events = callEvents g call)

/-- An example world for opening files on two replicas: the path `a` opens as the
descriptors 3 and 4, every other path as 3 and 5; closing the descriptor -1 fails with
error code 9 (`EBADF`), every other call succeeds. -/
def worldReopen : World where
  ret := fun c =>
    match c with
    | Syscall.openat 0 _ _ _ => 3
    | Syscall.openat _ (some ['a']) _ _ => 4
    | Syscall.openat _ _ _ _ => 5
    | Syscall.close (-1) => -1
    | _ => 0
  err := fun c =>
    match c with
    | Syscall.close (-1) => some 9
    | _ => none
  stat := fun _ => Stat.zero
  buf := fun _ _ => 0
  dirents := fun _ => []

/-- A state in which the element of `mirror_fds` of the handle 3 for replica 1 (index 27)
holds the descriptor 4. -/
def stateStale : State := ⟨0, fun k => if k = 27 then 4 else -1⟩

/-- A `fuse_file_info` as `open` receives it: read-only flags, no handle yet. -/
def fiFresh : FuseFileInfo := ⟨0, 0⟩

/-- The outcome of opening `a` on two replicas from the initial state: the descriptors
are 3 and 4, so the handle is 3. -/
def afterOpen : Out (Int × FuseFileInfo) :=
  mirrorfs_open worldReopen twoReplicas ['/', 'a'] fiFresh State.init

/-- The outcome of releasing the handle 3 right after that. -/
def afterRelease : Out Int :=
  mirrorfs_release worldReopen ⟨0, 3⟩ afterOpen.state

/-- An event is a divergence line printed by `ABORT_IF_NOT_EQUAL`. -/
def Event.isNotEqual (e : Event) : Bool :=
  match e with
  | Event.notEqual _ _ _ _ _ => true
  | _ => false

/-- The handle round trip for the `openat` calls `call`, given the outcome `out` of
`open` or `create`: when the operation returned 0 with the handle `fi2` after replica 0
succeeded, and the elements of `mirror_fds` of the handle are inside the array, then in
every later state with the same `mirror_fds` the array `fds` that `read` and `write` look
up holds, for every replica `i`, the descriptor that `openat` returned for replica `i`;
`read` issues exactly one `pread` per replica, on that descriptor, in replica order, and
`write` one `pwrite`; whatever else they do is printing divergence lines. -/
def HandleRoundTrip (w : World) (g : Globals) (call : Nat → Syscall)
    (out : Out (Int × FuseFileInfo)) : Prop :=
  ∀ fi2 : FuseFileInfo, out.res = Res.ret (0, fi2) →
    0 ≤ w.ret (call 0) → w.ret (call 0) < 2147483648 →
    slotsInRange g fi2.fh = true →
    ∀ s2 : State, s2.mirror_fds = out.state.mirror_fds →
      (∀ i, i < g.mntpath_count → elem (fdsOf g s2 fi2.fh) i = w.ret (call i)) ∧
      (∀ (path : CString) (buf : Buffer) (size : Nat) (offset : Int),
        (∃ lines, (mirrorfs_read w g path buf size offset (some fi2) s2).events
            = (replicas g).map
                (fun i => Event.call (Syscall.pread (w.ret (call i)) size offset))
              ++ lines
          ∧ ∀ e ∈ lines, e.isNotEqual = true) ∧
        (∃ lines, (mirrorfs_write w g path buf size offset (some fi2) s2).events
            = (replicas g).map
                (fun i => Event.call
                  (Syscall.pwrite (w.ret (call i)) ((List.range size).map buf) size offset))
              ++ lines
          ∧ ∀ e ∈ lines, e.isNotEqual = true))

/-- Whether `openat` and `fdopendir` both succeed on replica `i` in `readdir`. -/
def dirOpens (w : World) (path : CString) (i : Nat) : Bool :=
  decide (w.ret (openDirCall path i) ≠ -1) &&
    decide (w.ret (Syscall.fdopendir (w.ret (openDirCall path i))) ≠ 0)

/-- The two calls that open the directory of replica `i` in `readdir`. -/
def dirCalls (w : World) (path : CString) (i : Nat) : List Syscall :=
  [openDirCall path i, Syscall.fdopendir (w.ret (openDirCall path i))]

/-- The calls that open the directories of the listed replicas, in order. -/
def dirCallsOf (w : World) (path : CString) (is : List Nat) : List Syscall :=
  match is with
  | [] => []
  | i :: rest => dirCalls w path i ++ dirCallsOf w path rest

/-- The first replica of `is` on which `openat` or `fdopendir` fails, if any. -/
def firstDirFailure (w : World) (path : CString) (is : List Nat) : Option Nat :=
  is.find? (fun i => !dirOpens w path i)

/-- The system calls of the opening loop of `readdir` when replica `i` is the first on
which `openat` or `fdopendir` fails: the calls up to the failing one, then the `close`
calls (on the descriptors of the replicas before `i` when `openat` failed; on those and on
the descriptor of replica `i` when `fdopendir` failed). -/
def failedDirCalls (w : World) (path : CString) (is : List Nat) (dirfds : List Int)
    (i : Nat) : List Syscall :=
  dirCallsOf w path (is.takeWhile (dirOpens w path)) ++
    (if w.ret (openDirCall path i) = -1 then
      openDirCall path i ::
        closeCalls i
          (dirfds ++ (is.takeWhile (dirOpens w path)).map (fun j => w.ret (openDirCall path j)))
    else
      dirCalls w path i ++
        closeCalls (i + 1)
          (dirfds ++ (is.takeWhile (dirOpens w path)).map (fun j => w.ret (openDirCall path j))
            ++ [w.ret (openDirCall path i)]))

/-- The call that fails on replica `i` in the opening loop of `readdir`: `openat` when it
returns -1, `fdopendir` otherwise. -/
def failingDirCall (w : World) (path : CString) (i : Nat) : Syscall :=
  if w.ret (openDirCall path i) = -1 then openDirCall path i
  else Syscall.fdopendir (w.ret (openDirCall path i))

/-- An example world with two replicas in which every `openat` succeeds on replica 0
(descriptor 5, `errno` untouched) and fails on replica 1 with the error code `e`; every
other call succeeds and leaves `errno` alone. -/
def worldSecondFails (e : Int) : World where
  ret := fun c =>
    match c with
    | Syscall.openat 0 _ _ _ => 5
    | Syscall.openat _ _ _ _ => -1
    | Syscall.fdopendir _ => 1
    | _ => 0
  err := fun c =>
    match c with
    | Syscall.openat 0 _ _ _ => none
    | Syscall.openat _ _ _ _ => some e
    | _ => none
  stat := fun _ => Stat.zero
  buf := fun _ _ => 0
  dirents := fun _ => []

/-- Whether every replica but 0 has a next entry that bears the name of `de`. -/
def headsAgree (g : Globals) (de : Dirent) (dps : Nat → List Dirent) : Bool :=
  (others g).all (fun i =>
    match dps i with
    | [] => false
    | de_i :: _ => decide (de.d_name = de_i.d_name))

/-- The streams after every replica but 0 has read one entry. -/
def advanced (g : Globals) (dps : Nat → List Dirent) : Nat → List Dirent :=
  fun j => if j ∈ others g then (dps j).tail else dps j

/-- The number of entries of replica 0 that the filler accepts (returns 0 for) before
it signals stop or the list ends. -/
def acceptedCount {σ : Type} (filler : σ → CString → Stat → σ × Bool) (buf : σ) :
    List Dirent → Nat
  | [] => 0
  | de :: left =>
      if (filler buf de.d_name (direntStat de)).2 then 0
      else 1 + acceptedCount filler (filler buf de.d_name (direntStat de)).1 left

/-- The number of entries of replica 0 that are passed to the filler: iteration stops at
the first entry for which the filler signals stop, or at the end of the list. -/
def fillerCalls {σ : Type} (filler : σ → CString → Stat → σ × Bool) (buf : σ) :
    List Dirent → Nat
  | [] => 0
  | de :: left =>
      if (filler buf de.d_name (direntStat de)).2 then 1
      else 1 + fillerCalls filler (filler buf de.d_name (direntStat de)).1 left

/-- The filler's buffer after the entries have been passed to it in order, up to the
first stop. -/
def finalBuf {σ : Type} (filler : σ → CString → Stat → σ × Bool) (buf : σ) :
    List Dirent → σ
  | [] => buf
  | de :: left =>
      if (filler buf de.d_name (direntStat de)).2 then
        (filler buf de.d_name (direntStat de)).1
      else finalBuf filler (filler buf de.d_name (direntStat de)).1 left

/-- The call of the filler for an entry. -/
def fillerEvent (de : Dirent) : Event :=
  Event.filler de.d_name (direntStat de).st_ino (direntStat de).st_mode

/-- For every position below `m`, every replica but 0 has an entry at that position in
its stream `dps i`, with the name of the entry of `es0` at that position. -/
def AgreeWith (g : Globals) (m : Nat) (es0 : List Dirent) (dps : Nat → List Dirent) :
    Prop :=
  ∀ k, k < m → ∀ i ∈ others g,
    ((dps i)[k]?).map Dirent.d_name = (es0[k]?).map Dirent.d_name

/-- An event is a call of the filler. -/
def Event.isFiller (e : Event) : Bool :=
  match e with
  | Event.filler _ _ _ => true
  | _ => false

/-- The calls of the filler among the events, in order. -/
def fillerEventsOf (evs : List Event) : List Event := evs.filter Event.isFiller

/-- The entries that successive `readdir` calls yield on the directory stream of replica
`i` in `mirrorfs_readdir`. -/
def entriesOf (w : World) (path : CString) (i : Nat) : List Dirent :=
  w.dirents (w.ret (openDirCall path i))

/-- For every position below `m` (the positions whose entry the filler accepted), every
replica `1 ≤ i < n` has an entry at that position and its name is the name of replica 0's
entry at that position. -/
def EntriesAgree (n m : Nat) (es : Nat → List Dirent) : Prop :=
  ∀ k, k < m → ∀ i, 1 ≤ i → i < n →
    ((es i)[k]?).map Dirent.d_name = ((es 0)[k]?).map Dirent.d_name

/-- An example world for `readdir` on two replicas: the directories open as the
descriptors 5 and 6; replica 0 lists `a`, `b` and replica 1 lists only `a`. -/
def worldShortDir : World where
  ret := fun c =>
    match c with
    | Syscall.openat 0 _ _ _ => 5
    | Syscall.openat _ _ _ _ => 6
    | Syscall.fdopendir _ => 1
    | _ => 0
  err := fun _ => none
  stat := fun _ => Stat.zero
  buf := fun _ _ => 0
  dirents := fun fd =>
    if fd = 5 then [⟨11, 8, ['a']⟩, ⟨12, 8, ['b']⟩]
    else if fd = 6 then [⟨21, 8, ['a']⟩]
    else []

/-- A filler that records the names it is given and never asks to stop. -/
def recordingFiller : List CString → CString → Stat → List CString × Bool :=
  fun names name _ => (names ++ [name], false)

/-- An example world for `readlink` on two replicas: the link target is `target` (6
bytes: 116 97 114 103 101 116) on both, so `readlinkat` returns 6. -/
def worldSymlink : World where
  ret := fun c =>
    match c with
    | Syscall.readlinkat _ _ _ => 6
    | _ => 0
  err := fun _ => none
  stat := fun _ => Stat.zero
  buf := fun _ k => [116, 97, 114, 103, 101, 116].getD k 255
  dirents := fun _ => []

/-- What installing a handle in `open` and `create` promises about the other handles, for
the `openat` calls `call` and the outcome `out` of the operation run from the state `s`;
the new handle is replica 0's descriptor `w.ret (call 0)`:
* a run without undefined behaviour changes no element of `mirror_fds` other than those
  at the indices `slot fh i`, `1 ≤ i < mntpath_count`, of the new handle `fh`;
* such a run leaves the array `fdsOf` looked up for every other non-negative `int`
  handle as it was;
* when the new handle `fd0` has `fd0 * (MAX_MNTPATHS - 1) + mntpath_count - 2` below the
  length of `mirror_fds`, the run has no undefined behaviour;
* when every replica succeeds with the same error code, the elements of the new handle
  are free and `fd0 * (MAX_MNTPATHS - 1) + mntpath_count - 2` is not below the length of
  `mirror_fds`, the run accesses `mirror_fds` outside the array. -/
def KeepsOtherHandles (w : World) (g : Globals) (call : Nat → Syscall) (s : State)
    (out : Out (Int × FuseFileInfo)) : Prop :=
  (out.res ≠ Res.undefined →
    ∀ k, (∀ i, 1 ≤ i → i < g.mntpath_count → slot (toU64 (w.ret (call 0))) i ≠ k) →
      out.state.mirror_fds k = s.mirror_fds k) ∧
  (out.res ≠ Res.undefined → -1 ≤ w.ret (call 0) → w.ret (call 0) < 2147483648 →
    ∀ fh : Nat, fh < 2147483648 → (fh : Int) ≠ w.ret (call 0) →
      fdsOf g out.state fh = fdsOf g s fh) ∧
  (0 ≤ w.ret (call 0) → w.ret (call 0) < 2147483648 →
    (w.ret (call 0)).toNat * (MAX_MNTPATHS - 1) + g.mntpath_count - 2 < MIRROR_FDS_LEN →
    out.res ≠ Res.undefined) ∧
  ((∀ i, i < g.mntpath_count → 0 ≤ w.ret (call i)) →
    (∀ i, i < g.mntpath_count → errnoOf w (call i) = errnoOf w (call 0)) →
    w.ret (call 0) < 2147483648 →
    slotsFree g s (w.ret (call 0)).toNat = true →
    ¬ (w.ret (call 0)).toNat * (MAX_MNTPATHS - 1) + g.mntpath_count - 2 < MIRROR_FDS_LEN →
    out.res = Res.undefined)

/-- An example world for opening a second file on two replicas: every path opens as the
descriptors 5 and 6, every other call succeeds. -/
def worldNextHandle : World where
  ret := fun c =>
    match c with
    | Syscall.openat 0 _ _ _ => 5
    | Syscall.openat _ _ _ _ => 6
    | _ => 0
  err := fun _ => none
  stat := fun _ => Stat.zero
  buf := fun _ _ => 0
  dirents := fun _ => []

/-- Three replicas, `abort_on_difference` on (the value compiled into the program). -/
def threeReplicas : Globals := ⟨true, 3⟩

/-- An example world in which `fstatat` succeeds on every replica with the same return
value and error code, and the regular file has the owner 1000 on replica 0 and the owner
1001 on the replicas 1 and 2. -/
def worldUidDiffers : World where
  ret := fun _ => 0
  err := fun _ => none
  stat := fun c =>
    match c with
    | Syscall.fstatat 0 _ _ => { Stat.zero with st_mode := 33188, st_uid := 1000 }
    | _ => { Stat.zero with st_mode := 33188, st_uid := 1001 }
  buf := fun _ _ => 0
  dirents := fun _ => []

/-- An example world with two replicas in which `openat` succeeds on replica 0
(descriptor 5) and fails on replica 1 with the error code 2, and the line that logs the
failure stores the error code 28 in `errno`; every other call succeeds and leaves `errno`
alone. -/
def worldLogFails : World where
  ret := fun c =>
    match c with
    | Syscall.openat 0 _ _ _ => 5
    | Syscall.openat _ _ _ _ => -1
    | Syscall.fprintf _ _ _ => -1
    | _ => 0
  err := fun c =>
    match c with
    | Syscall.openat 0 _ _ _ => none
    | Syscall.openat _ _ _ _ => some 2
    | Syscall.fprintf _ _ _ => some 28
    | _ => none
  stat := fun _ => Stat.zero
  buf := fun _ _ => 0
  dirents := fun _ => []

/-! ## Running sequences and loops -/

theorem run_pure {α : Type} (a : α) (s : State) :
    (pure a : M α) s = ⟨Res.ret a, s, []⟩ := rfl

theorem run_bind_ret {α β : Type} (m : M α) (f : α → M β) (s s1 : State) (a : α)
    (ev1 : List Event) (h : m s = ⟨Res.ret a, s1, ev1⟩) :
    (m >>= f) s = ⟨(f a s1).res, (f a s1).state, ev1 ++ (f a s1).events⟩ := by
  show M.bind m f s = _
  unfold M.bind
  rw [h]

theorem run_bind_aborted {α β : Type} (m : M α) (f : α → M β) (s s1 : State)
    (ev1 : List Event) (h : m s = ⟨Res.aborted, s1, ev1⟩) :
    (m >>= f) s = ⟨Res.aborted, s1, ev1⟩ := by
  show M.bind m f s = _
  unfold M.bind
  rw [h]

theorem run_bind_undefined {α β : Type} (m : M α) (f : α → M β) (s s1 : State)
    (ev1 : List Event) (h : m s = ⟨Res.undefined, s1, ev1⟩) :
    (m >>= f) s = ⟨Res.undefined, s1, ev1⟩ := by
  show M.bind m f s = _
  unfold M.bind
  rw [h]

theorem forEach_nil (body : Nat → M Unit) (s : State) :
    forEach [] body s = ⟨Res.ret (), s, []⟩ := rfl

theorem forEach_cons (i : Nat) (rest : List Nat) (body : Nat → M Unit) :
    forEach (i :: rest) body = (body i >>= fun _ => forEach rest body) := rfl

theorem checkOut_seq (m1 m2 : M Unit) (ab1 ab2 : Bool) (ev1 ev2 : List Event) (s : State)
    (h1 : m1 s = checkOut ab1 ev1 s) (h2 : m2 s = checkOut ab2 ev2 s) :
    (m1 >>= fun _ => m2) s
      = checkOut (ab1 || ab2) (ev1 ++ (if ab1 then [] else ev2)) s := by
  cases ab1 with
  | true =>
      rw [run_bind_aborted m1 _ s s ev1 (by simpa [checkOut] using h1)]
      simp [checkOut]
  | false =>
      rw [run_bind_ret m1 _ s s () ev1 (by simpa [checkOut] using h1), h2]
      simp [checkOut]

theorem forEach_checks (body : Nat → M Unit) (ab : Nat → Bool) (ev : Nat → List Event)
    (is : List Nat) (s : State) (h : ∀ i ∈ is, body i s = checkOut (ab i) (ev i) s) :
    forEach is body s = checkOut (is.any ab) (loopEvents is ab ev) s := by
  induction is with
  | nil => rfl
  | cons i rest ih =>
      have hrest := ih (fun j hj => h j (List.mem_cons_of_mem i hj))
      rw [forEach_cons, checkOut_seq (body i) (forEach rest body) _ _ _ _ s
        (h i (List.mem_cons_self i rest)) hrest]
      simp [loopEvents]

theorem ABORT_IF_NOT_EQUAL_run (g : Globals) (func expr : String) (i : Nat) (x y : Int)
    (s : State) :
    ABORT_IF_NOT_EQUAL g func expr i x y s
      = checkOut (decide (toLong x ≠ toLong y) && g.abort_on_difference)
          (if toLong x ≠ toLong y then [Event.notEqual func expr (toLong x) (toLong y) i]
            else []) s := by
  unfold ABORT_IF_NOT_EQUAL
  by_cases h : toLong x = toLong y
  · simp [h, checkOut, run_pure]
  · cases hb : g.abort_on_difference <;>
      simp [h, hb, checkOut, emit, abort, bind, M.bind, pure, M.pure]

theorem elem_map_range (f : Nat → Int) (n i : Nat) (h : i < n) :
    elem ((List.range n).map f) i = f i := by
  unfold elem
  rw [List.getD_eq_getElem _ _ (by simpa using h)]
  simp

theorem ABORT_IF_NOT_EQUAL_check (g : Globals) (func expr : String) (i : Nat) (x y : Int)
    (s : State) :
    ABORT_IF_NOT_EQUAL g func expr i x y s
      = checkOut (neqAborts g x y) (neqEvents func expr i x y) s :=
  ABORT_IF_NOT_EQUAL_run g func expr i x y s

theorem compareResults_run (g : Globals) (func : String) (res errnos : List Int)
    (s : State) :
    compareResults g func res errnos s
      = checkOut (resultsAbort g res errnos) (resultsEvents g func res errnos) s := by
  unfold compareResults resultsAbort resultsEvents
  apply forEach_checks
  intro i _
  exact checkOut_seq _ _ _ _ _ _ s (ABORT_IF_NOT_EQUAL_check ..) (ABORT_IF_NOT_EQUAL_check ..)

theorem neqAborts_off (g : Globals) (h : g.abort_on_difference = false) (x y : Int) :
    neqAborts g x y = false := by
  simp [neqAborts, h]

theorem collect_nil {α : Type} (body : Nat → M α) (s : State) :
    collect [] body s = ⟨Res.ret [], s, []⟩ := rfl

theorem collect_cons {α : Type} (i : Nat) (rest : List Nat) (body : Nat → M α) :
    collect (i :: rest) body
      = (body i >>= fun a => collect rest body >>= fun as => pure (a :: as)) := rfl

theorem fanout_body_run (w : World) (c : Syscall) (s : State) :
    (do
      setErrno 0
      let r ← sys w c
      let e ← getErrno
      pure (r, e) : M (Int × Int)) s
      = ⟨Res.ret (w.ret c, errnoOf w c), ⟨errnoOf w c, s.mirror_fds⟩, [Event.call c]⟩ := rfl

theorem collect_calls (w : World) (call : Nat → Syscall) (is : List Nat) (s : State) :
    ∃ e1, collect is (fun i => do
        setErrno 0
        let r ← sys w (call i)
        let e ← getErrno
        pure (r, e)) s
      = ⟨Res.ret (is.map (fun i => (w.ret (call i), errnoOf w (call i)))),
          ⟨e1, s.mirror_fds⟩, is.map (fun i => Event.call (call i))⟩ := by
  induction is generalizing s with
  | nil => exact ⟨s.errno, rfl⟩
  | cons i rest ih =>
      obtain ⟨e1, h1⟩ := ih ⟨errnoOf w (call i), s.mirror_fds⟩
      refine ⟨e1, ?_⟩
      rw [collect_cons, run_bind_ret _ _ s _ _ _ (fanout_body_run w (call i) s),
        run_bind_ret _ _ _ _ _ _ h1]
      simp [run_pure]

theorem fanout_run (w : World) (g : Globals) (call : Nat → Syscall) (s : State) :
    ∃ e1, fanout w g call s
      = ⟨Res.ret ((replicas g).map (fun i => (w.ret (call i), errnoOf w (call i)))),
          ⟨e1, s.mirror_fds⟩, (replicas g).map (fun i => Event.call (call i))⟩ :=
  collect_calls w call (replicas g) s

theorem resultsAbort_off (g : Globals) (h : g.abort_on_difference = false)
    (res errnos : List Int) : resultsAbort g res errnos = false := by
  simp [resultsAbort, roundAborts, neqAborts_off g h]

theorem fanout_arrays (w : World) (g : Globals) (call : Nat → Syscall) (s : State) :
    ∃ e1 rs, fanout w g call s = ⟨Res.ret rs, ⟨e1, s.mirror_fds⟩, callEvents g call⟩
      ∧ rs.map Prod.fst = resArr w g call ∧ rs.map Prod.snd = errArr w g call := by
  obtain ⟨e1, h⟩ := fanout_run w g call s
  exact ⟨e1, _, h, by simp [resArr, List.map_map, Function.comp_def],
    by simp [errArr, List.map_map, Function.comp_def]⟩

theorem resArr_elem (w : World) (g : Globals) (call : Nat → Syscall) (i : Nat)
    (h : i < g.mntpath_count) : elem (resArr w g call) i = w.ret (call i) :=
  elem_map_range _ _ _ h

theorem errArr_elem (w : World) (g : Globals) (call : Nat → Syscall) (i : Nat)
    (h : i < g.mntpath_count) : elem (errArr w g call) i = errnoOf w (call i) :=
  elem_map_range _ _ _ h

theorem fanoutOp_run (w : World) (g : Globals) (func : String) (call : Nat → Syscall)
    (s : State) :
    ∃ e1, fanoutOp w g func call s
      = ⟨if resultsAbort g (resArr w g call) (errArr w g call) then Res.aborted
          else Res.ret (canonical (elem (resArr w g call) 0) (elem (errArr w g call) 0)),
         ⟨e1, s.mirror_fds⟩,
         callEvents g call
           ++ resultsEvents g func (resArr w g call) (errArr w g call)⟩ := by
  obtain ⟨e1, rs, h, hres, herr⟩ := fanout_arrays w g call s
  refine ⟨e1, ?_⟩
  unfold fanoutOp
  rw [run_bind_ret _ _ s _ _ _ h]
  simp only [hres, herr]
  cases hab : resultsAbort g (resArr w g call) (errArr w g call) with
  | true =>
      rw [run_bind_aborted _ _ _ _ _
        (by rw [compareResults_run, hab]; rfl)]
      simp
  | false =>
      rw [run_bind_ret _ _ _ _ _ _
        (by rw [compareResults_run, hab]; rfl)]
      unfold canonical
      split <;> simp [run_pure]

theorem fanoutOp_answers (w : World) (g : Globals) (func : String) (call : Nat → Syscall)
    (s : State) (hn : 2 ≤ g.mntpath_count) :
    AnswersFromReplica0 g (fanoutOp w g func call s).res
      (canonical (w.ret (call 0)) (errnoOf w (call 0))) := by
  obtain ⟨e1, h⟩ := fanoutOp_run w g func call s
  rw [h, resArr_elem w g call 0 (by omega), errArr_elem w g call 0 (by omega)]
  constructor
  · intro v hv
    split at hv
    · cases hv
    · cases hv; rfl
  · intro hoff
    simp [resultsAbort_off g hoff]

theorem comparePayload_run (res0 : Int) (b0 bi : Buffer) (s : State) :
    comparePayload res0 b0 bi s = checkOut (payloadDiffers res0 b0 bi) [] s := by
  unfold comparePayload payloadDiffers checkOut
  by_cases h1 : res0 = -1
  · simp [h1, run_pure]
  · cases h2 : memcmpDiffers b0 bi (toU64 res0) <;> simp [h1, run_pure, abort]

theorem compareWithPayload_run (g : Globals) (func : String) (res errnos : List Int)
    (bufs : Nat → Buffer) (s : State) :
    compareWithPayload g func res errnos bufs s
      = checkOut (payloadAbort g res errnos bufs) (payloadEvents g func res errnos bufs) s := by
  unfold compareWithPayload payloadAbort payloadEvents
  apply forEach_checks
  intro i _
  have h := checkOut_seq _ _ _ _ _ _ s
    (ABORT_IF_NOT_EQUAL_check g func "res[0]" i (elem res 0) (elem res i) s)
    (checkOut_seq _ _ _ _ _ _ s
      (ABORT_IF_NOT_EQUAL_check g func "errnos[0]" i (elem errnos 0) (elem errnos i) s)
      (comparePayload_run (elem res 0) (bufs 0) (bufs i) s))
  rw [h]
  simp [payloadRoundAborts, roundAborts, roundEvents, Bool.or_assoc]

theorem collect_readSlot (k : Nat → Nat) (is : List Nat) (s : State) :
    collect is (fun i => readSlot (k i)) s
      = if is.all (fun i => decide (k i < MIRROR_FDS_LEN)) then
          ⟨Res.ret (is.map (fun i => s.mirror_fds (k i))), s, []⟩
        else ⟨Res.undefined, s, []⟩ := by
  induction is with
  | nil => rfl
  | cons i rest ih =>
      rw [collect_cons]
      by_cases hi : k i < MIRROR_FDS_LEN
      · rw [run_bind_ret _ _ s s (s.mirror_fds (k i)) [] (by simp [readSlot, hi])]
        by_cases hr : rest.all (fun i => decide (k i < MIRROR_FDS_LEN)) = true
        · rw [run_bind_ret _ _ s s _ [] (by rw [ih, if_pos hr])]
          rw [if_pos (by simp only [List.all_cons, hr, hi, decide_True, Bool.and_self])]
          simp [run_pure]
        · rw [run_bind_undefined _ _ s s [] (by rw [ih, if_neg hr])]
          rw [if_neg (by simp only [List.all_cons, hi, decide_True, Bool.true_and]; exact hr)]
          rfl
      · rw [run_bind_undefined _ _ s s [] (by simp [readSlot, hi])]
        rw [if_neg (by simp [hi])]

theorem handleFds_run (g : Globals) (fh : Nat) (s : State) :
    handleFds g fh s
      = if slotsInRange g fh then ⟨Res.ret (fdsOf g s fh), s, []⟩
        else ⟨Res.undefined, s, []⟩ := by
  unfold handleFds slotsInRange fdsOf
  by_cases h : (others g).all (fun i => decide (slot fh i < MIRROR_FDS_LEN)) = true
  · rw [run_bind_ret _ _ s s _ [] (by rw [collect_readSlot, if_pos h]), if_pos h]
    simp [run_pure]
  · rw [run_bind_undefined _ _ s s [] (by rw [collect_readSlot, if_neg h]), if_neg h]

theorem obtainFds_handle_run (w : World) (g : Globals) (path : CString) (flags : Int)
    (f : FuseFileInfo) (s : State) :
    obtainFds w g path flags (some f) s
      = if slotsInRange g f.fh then ⟨Res.ret (Except.ok (fdsOf g s f.fh)), s, []⟩
        else ⟨Res.undefined, s, []⟩ := by
  show (handleFds g f.fh >>= fun fds => pure (Except.ok fds)) s = _
  by_cases h : slotsInRange g f.fh = true
  · rw [run_bind_ret _ _ s s _ [] (by rw [handleFds_run, if_pos h]), if_pos h]
    rfl
  · rw [run_bind_undefined _ _ s s [] (by rw [handleFds_run, if_neg h]), if_neg h]

theorem mirrorfs_read_handle_run (w : World) (g : Globals) (path : CString) (buf : Buffer)
    (size : Nat) (offset : Int) (f : FuseFileInfo) (s : State)
    (hr : slotsInRange g f.fh = true) :
    ∃ e1, mirrorfs_read w g path buf size offset (some f) s
      = ⟨if payloadAbort g (resArr w g (preadCall (fdsOf g s f.fh) size offset))
              (errArr w g (preadCall (fdsOf g s f.fh) size offset))
              (fun i => w.buf (preadCall (fdsOf g s f.fh) size offset i)) then Res.aborted
          else Res.ret
            (canonicalCount (elem (resArr w g (preadCall (fdsOf g s f.fh) size offset)) 0)
              (elem (errArr w g (preadCall (fdsOf g s f.fh) size offset)) 0),
             w.buf (preadCall (fdsOf g s f.fh) size offset 0)),
         ⟨e1, s.mirror_fds⟩,
         callEvents g (preadCall (fdsOf g s f.fh) size offset)
           ++ payloadEvents g "mirrorfs_read"
                (resArr w g (preadCall (fdsOf g s f.fh) size offset))
                (errArr w g (preadCall (fdsOf g s f.fh) size offset))
                (fun i => w.buf (preadCall (fdsOf g s f.fh) size offset i))⟩ := by
  obtain ⟨e1, rs, h, hres, herr⟩ :=
    fanout_arrays w g (preadCall (fdsOf g s f.fh) size offset) s
  refine ⟨e1, ?_⟩
  unfold mirrorfs_read
  rw [run_bind_ret _ _ s s _ [] (by rw [obtainFds_handle_run, if_pos hr])]
  simp only [List.nil_append]
  rw [run_bind_ret _ _ s _ _ _ h]
  simp only [hres, herr]
  cases hab : payloadAbort g (resArr w g (preadCall (fdsOf g s f.fh) size offset))
      (errArr w g (preadCall (fdsOf g s f.fh) size offset))
      (fun i => w.buf (preadCall (fdsOf g s f.fh) size offset i)) with
  | true =>
      rw [run_bind_aborted _ _ _ _ _
        (by rw [compareWithPayload_run, hab]; rfl)]
      simp
  | false =>
      rw [run_bind_ret _ _ _ _ _ _
        (by rw [compareWithPayload_run, hab]; rfl)]
      simp [closeIfOpened, run_pure, canonicalCount, bind, M.bind, pure, M.pure]

theorem obtainFdsForWrite_handle_run (w : World) (g : Globals) (path : CString)
    (f : FuseFileInfo) (s : State) :
    obtainFdsForWrite w g path (some f) s
      = if slotsInRange g f.fh then ⟨Res.ret (Except.ok (fdsOf g s f.fh)), s, []⟩
        else ⟨Res.undefined, s, []⟩ :=
  obtainFds_handle_run w g path O_WRONLY f s

theorem mirrorfs_read_handle_range (w : World) (g : Globals) (path : CString) (buf : Buffer)
    (size : Nat) (offset : Int) (f : FuseFileInfo) (s : State)
    (hr : slotsInRange g f.fh = false) :
    mirrorfs_read w g path buf size offset (some f) s = ⟨Res.undefined, s, []⟩ := by
  unfold mirrorfs_read
  rw [run_bind_undefined _ _ s s [] (by rw [obtainFds_handle_run]; simp [hr])]

theorem mirrorfs_write_handle_run (w : World) (g : Globals) (path : CString) (buf : Buffer)
    (size : Nat) (offset : Int) (f : FuseFileInfo) (s : State)
    (hr : slotsInRange g f.fh = true) :
    ∃ e1, mirrorfs_write w g path buf size offset (some f) s
      = ⟨if resultsAbort g (resArr w g (pwriteCall (fdsOf g s f.fh) buf size offset))
              (errArr w g (pwriteCall (fdsOf g s f.fh) buf size offset)) then Res.aborted
          else Res.ret
            (canonicalCount
              (elem (resArr w g (pwriteCall (fdsOf g s f.fh) buf size offset)) 0)
              (elem (errArr w g (pwriteCall (fdsOf g s f.fh) buf size offset)) 0)),
         ⟨e1, s.mirror_fds⟩,
         callEvents g (pwriteCall (fdsOf g s f.fh) buf size offset)
           ++ resultsEvents g "mirrorfs_write"
                (resArr w g (pwriteCall (fdsOf g s f.fh) buf size offset))
                (errArr w g (pwriteCall (fdsOf g s f.fh) buf size offset))⟩ := by
  obtain ⟨e1, rs, h, hres, herr⟩ :=
    fanout_arrays w g (pwriteCall (fdsOf g s f.fh) buf size offset) s
  refine ⟨e1, ?_⟩
  unfold mirrorfs_write
  rw [run_bind_ret _ _ s s _ [] (by rw [obtainFdsForWrite_handle_run, if_pos hr])]
  simp only [List.nil_append]
  rw [run_bind_ret _ _ s _ _ _ h]
  simp only [hres, herr]
  cases hab : resultsAbort g (resArr w g (pwriteCall (fdsOf g s f.fh) buf size offset))
      (errArr w g (pwriteCall (fdsOf g s f.fh) buf size offset)) with
  | true =>
      rw [run_bind_aborted _ _ _ _ _ (by rw [compareResults_run, hab]; rfl)]
      simp
  | false =>
      rw [run_bind_ret _ _ _ _ _ _ (by rw [compareResults_run, hab]; rfl)]
      simp [closeIfOpened, run_pure, canonicalCount, bind, M.bind, pure, M.pure]

theorem mirrorfs_write_handle_range (w : World) (g : Globals) (path : CString)
    (buf : Buffer) (size : Nat) (offset : Int) (f : FuseFileInfo) (s : State)
    (hr : slotsInRange g f.fh = false) :
    mirrorfs_write w g path buf size offset (some f) s = ⟨Res.undefined, s, []⟩ := by
  unfold mirrorfs_write
  rw [run_bind_undefined _ _ s s [] (by rw [obtainFdsForWrite_handle_run]; simp [hr])]

theorem compareStat_run (g : Globals) (i : Nat) (a b : Stat) (s : State) :
    compareStat g i a b s = checkOut (statAborts g a b) (statEvents g i a b) s := by
  unfold compareStat statAborts statEvents
  by_cases hab : a = b
  · simp [hab, checkOut, run_pure]
  · have hsize : (if (!S_ISDIR a.st_mode) = true then
          ABORT_IF_NOT_EQUAL g "mirrorfs_getattr" "stbufs[0].st_size" i a.st_size b.st_size
        else pure ()) s
        = checkOut (!S_ISDIR a.st_mode && neqAborts g a.st_size b.st_size)
            (if S_ISDIR a.st_mode then [] else
              neqEvents "mirrorfs_getattr" "stbufs[0].st_size" i a.st_size b.st_size) s := by
      cases hd : S_ISDIR a.st_mode
      · simpa using ABORT_IF_NOT_EQUAL_check g _ _ i a.st_size b.st_size s
      · simp [checkOut, run_pure]
    have h := checkOut_seq _ _ _ _ _ _ s
      (ABORT_IF_NOT_EQUAL_check g "mirrorfs_getattr" "stbufs[0].st_mode" i
        a.st_mode b.st_mode s)
      (checkOut_seq _ _ _ _ _ _ s
        (ABORT_IF_NOT_EQUAL_check g "mirrorfs_getattr" "stbufs[0].st_nlink" i
          a.st_nlink b.st_nlink s)
        (checkOut_seq _ _ _ _ _ _ s
          (ABORT_IF_NOT_EQUAL_check g "mirrorfs_getattr" "stbufs[0].st_uid" i
            a.st_uid b.st_uid s)
          (checkOut_seq _ _ _ _ _ _ s
            (ABORT_IF_NOT_EQUAL_check g "mirrorfs_getattr" "stbufs[0].st_gid" i
              a.st_gid b.st_gid s)
            hsize)))
    simp only [hab, ne_eq, not_false_eq_true, if_true, decide_True, Bool.true_and]
    exact h

theorem statLoop_run (g : Globals) (stbufs : List Stat) (s : State) :
    forEach (others g) (fun i => compareStat g i (statElem stbufs 0) (statElem stbufs i)) s
      = checkOut (statLoopAborts g stbufs) (statLoopEvents g stbufs) s := by
  unfold statLoopAborts statLoopEvents
  apply forEach_checks
  intro i _
  exact compareStat_run g i _ _ s

theorem mirrorfs_getattr_run (w : World) (g : Globals) (path : CString) (stbuf : Stat)
    (s : State) :
    ∃ e1, mirrorfs_getattr w g path stbuf s
      = ⟨if resultsAbort g (resArr w g (fstatatCall path)) (errArr w g (fstatatCall path))
          then Res.aborted
          else if elem (resArr w g (fstatatCall path)) 0 = -1
          then Res.ret (-(elem (errArr w g (fstatatCall path)) 0), stbuf)
          else if statLoopAborts g (statArr w g path) then Res.aborted
          else Res.ret (0, statElem (statArr w g path) 0),
         ⟨e1, s.mirror_fds⟩,
         callEvents g (fstatatCall path)
           ++ (resultsEvents g "mirrorfs_getattr" (resArr w g (fstatatCall path))
                (errArr w g (fstatatCall path))
           ++ (if resultsAbort g (resArr w g (fstatatCall path))
                    (errArr w g (fstatatCall path)) = true
                  ∨ elem (resArr w g (fstatatCall path)) 0 = -1 then []
               else statLoopEvents g (statArr w g path)))⟩ := by
  obtain ⟨e1, rs, h, hres, herr⟩ := fanout_arrays w g (fstatatCall path) s
  refine ⟨e1, ?_⟩
  unfold mirrorfs_getattr
  rw [run_bind_ret _ _ s _ _ _ h]
  simp only [hres, herr]
  cases hab : resultsAbort g (resArr w g (fstatatCall path)) (errArr w g (fstatatCall path)) with
  | true =>
      rw [run_bind_aborted _ _ _ _ _ (by rw [compareResults_run, hab]; rfl)]
      simp
  | false =>
      rw [run_bind_ret _ _ _ _ _ _ (by rw [compareResults_run, hab]; rfl)]
      by_cases h0 : elem (resArr w g (fstatatCall path)) 0 = -1
      · simp [h0, run_pure]
      · simp only [h0, if_false, Bool.false_eq_true, false_or]
        cases hst : statLoopAborts g (statArr w g path) with
        | true =>
            rw [run_bind_aborted _ _ _ _ _ (by rw [statLoop_run, hst]; rfl)]
            simp
        | false =>
            rw [run_bind_ret _ _ _ _ _ _ (by rw [statLoop_run, hst]; rfl)]
            simp [run_pure]

/-! ## The path normaliser (C9) -/

/-- C9: `safe_path` maps `"/"` to `"."`; it maps a path made of one leading `/` and a
non-empty remainder `r` to exactly `r`, the input without its first character; for every
path other than `"/"` the result is a suffix of the input; and when the input does not
start with two separators the result is neither empty nor starts with `/`. -/
theorem safe_path_normalises :
    safe_path ['/'] = some ['.'] ∧
    (∀ r : CString, r ≠ [] → safe_path ('/' :: r) = some r ∧ some r = ('/' :: r).tail?) ∧
    (∀ path p : CString, path ≠ ['/'] → safe_path path = some p → p <:+ path) ∧
    (∀ r p : CString, r.head? ≠ some '/' → safe_path ('/' :: r) = some p →
      p ≠ [] ∧ p.head? ≠ some '/') := by
  refine ⟨rfl, ?_, ?_, ?_⟩
  · intro r hr
    simp [safe_path, hr]
  · intro path p hne hp
    unfold safe_path at hp
    rw [if_neg hne] at hp
    cases path with
    | nil => simp at hp
    | cons c rest =>
        simp only [Option.some.injEq] at hp
        subst hp
        exact List.suffix_cons c rest
  · intro r p hr hp
    by_cases hnil : r = []
    · subst hnil
      have : p = ['.'] := by
        have h1 : safe_path ['/'] = some ['.'] := rfl
        rw [h1] at hp
        exact (Option.some.inj hp).symm
      subst this
      exact ⟨by simp, by decide⟩
    · have h1 : safe_path ('/' :: r) = some r := by simp [safe_path, hnil]
      rw [h1] at hp
      have : p = r := (Option.some.inj hp).symm
      subst this
      exact ⟨hnil, hr⟩

/-- The path `/x/y` is normalised to `x/y`. -/
theorem safe_path_normalises_witness :
    safe_path ['/', 'x', '/', 'y'] = some ['x', '/', 'y']
      ∧ some ['x', '/', 'y'] = (['/', 'x', '/', 'y'] : CString).tail? :=
  safe_path_normalises.2.1 ['x', '/', 'y'] (by decide)

/-! ## The value returned by the fan-out operations (C1) -/

theorem statLoopAborts_off (g : Globals) (h : g.abort_on_difference = false)
    (stbufs : List Stat) : statLoopAborts g stbufs = false := by
  simp [statLoopAborts, statAborts, neqAborts_off g h]

theorem payloadAbort_off (g : Globals) (h : g.abort_on_difference = false)
    (res errnos : List Int) (bufs : Nat → Buffer)
    (hp : ∀ i ∈ others g, payloadDiffers (elem res 0) (bufs 0) (bufs i) = false) :
    payloadAbort g res errnos bufs = false := by
  unfold payloadAbort
  rw [List.any_eq_false]
  intro i hi
  simp [payloadRoundAborts, roundAborts, neqAborts_off g h, hp i hi]

theorem fdsOf_zero (g : Globals) (s : State) (fh : Nat) :
    elem (fdsOf g s fh) 0 = toInt32 fh := by
  unfold fdsOf elem
  rw [List.getD_cons_zero]

theorem preadCall_zero (g : Globals) (s : State) (fh size : Nat) (offset : Int) :
    preadCall (fdsOf g s fh) size offset 0 = Syscall.pread (toInt32 fh) size offset := by
  unfold preadCall
  rw [fdsOf_zero]

theorem pwriteCall_zero (g : Globals) (s : State) (fh : Nat) (buf : Buffer) (size : Nat)
    (offset : Int) :
    pwriteCall (fdsOf g s fh) buf size offset 0
      = Syscall.pwrite (toInt32 fh) ((List.range size).map buf) size offset := by
  unfold pwriteCall
  rw [fdsOf_zero]

/-- C1: with at least two replicas, every fan-out operation answers from replica 0 alone.
Whenever `access`, `mkdir`, `unlink`, `rmdir`, `symlink`, `rename` (flags 0), `link`,
`chmod`, `chown`, `utimens` or `getattr` returns, the value is the negated error code of
replica 0 when the call of replica 0 returned -1 and 0 otherwise; `read` and `write`
called with a handle return the byte count of replica 0 instead of 0.  The expected value
is a function of replica 0's call alone, so the other replicas cannot change it.  With
`abort_on_difference` off the operations do return that value, whatever the other
replicas answered (`read` and `write`: when the handle's table entries are inside the
array, and `read`: when no payload differs). -/
theorem fanout_answers_from_replica0 (w : World) (g : Globals) (s : State)
    (hn : 2 ≤ g.mntpath_count) :
    (∀ path mask, AnswersFromReplica0 g (mirrorfs_access w g path mask s).res
      (canonical (w.ret (Syscall.faccessat 0 (safe_path path) mask 0))
        (errnoOf w (Syscall.faccessat 0 (safe_path path) mask 0)))) ∧
    (∀ path mode, AnswersFromReplica0 g (mirrorfs_mkdir w g path mode s).res
      (canonical (w.ret (Syscall.mkdirat 0 (safe_path path) mode))
        (errnoOf w (Syscall.mkdirat 0 (safe_path path) mode)))) ∧
    (∀ path, AnswersFromReplica0 g (mirrorfs_unlink w g path s).res
      (canonical (w.ret (Syscall.unlinkat 0 (safe_path path) 0))
        (errnoOf w (Syscall.unlinkat 0 (safe_path path) 0)))) ∧
    (∀ path, AnswersFromReplica0 g (mirrorfs_rmdir w g path s).res
      (canonical (w.ret (Syscall.unlinkat 0 (safe_path path) AT_REMOVEDIR))
        (errnoOf w (Syscall.unlinkat 0 (safe_path path) AT_REMOVEDIR)))) ∧
    (∀ src dst, AnswersFromReplica0 g (mirrorfs_symlink w g src dst s).res
      (canonical (w.ret (Syscall.symlinkat src 0 (safe_path dst)))
        (errnoOf w (Syscall.symlinkat src 0 (safe_path dst))))) ∧
    (∀ src dst, AnswersFromReplica0 g (mirrorfs_rename w g src dst 0 s).res
      (canonical (w.ret (Syscall.renameat 0 (safe_path src) 0 (safe_path dst)))
        (errnoOf w (Syscall.renameat 0 (safe_path src) 0 (safe_path dst))))) ∧
    (∀ src dst, AnswersFromReplica0 g (mirrorfs_link w g src dst s).res
      (canonical (w.ret (Syscall.linkat 0 (safe_path src) 0 (safe_path dst) 0))
        (errnoOf w (Syscall.linkat 0 (safe_path src) 0 (safe_path dst) 0)))) ∧
    (∀ path mode, AnswersFromReplica0 g (mirrorfs_chmod w g path mode s).res
      (canonical (w.ret (Syscall.fchmodat 0 (safe_path path) mode 0))
        (errnoOf w (Syscall.fchmodat 0 (safe_path path) mode 0)))) ∧
    (∀ path uid gid, AnswersFromReplica0 g (mirrorfs_chown w g path uid gid s).res
      (canonical (w.ret (Syscall.fchownat 0 (safe_path path) uid gid 0))
        (errnoOf w (Syscall.fchownat 0 (safe_path path) uid gid 0)))) ∧
    (∀ path ts, AnswersFromReplica0 g (mirrorfs_utimens w g path ts s).res
      (canonical (w.ret (Syscall.utimensat 0 (safe_path path) ts AT_SYMLINK_NOFOLLOW))
        (errnoOf w (Syscall.utimensat 0 (safe_path path) ts AT_SYMLINK_NOFOLLOW)))) ∧
    (∀ path stbuf,
      AnswersFromReplica0 g (Res.map Prod.fst (mirrorfs_getattr w g path stbuf s).res)
        (canonical (w.ret (Syscall.fstatat 0 (safe_path path) AT_SYMLINK_NOFOLLOW))
          (errnoOf w (Syscall.fstatat 0 (safe_path path) AT_SYMLINK_NOFOLLOW)))) ∧
    (∀ path buf size offset f,
      (∀ v, Res.map Prod.fst (mirrorfs_read w g path buf size offset (some f) s).res
          = Res.ret v →
        v = canonicalCount (w.ret (Syscall.pread (toInt32 f.fh) size offset))
              (errnoOf w (Syscall.pread (toInt32 f.fh) size offset))) ∧
      (g.abort_on_difference = false → slotsInRange g f.fh = true →
        (∀ i ∈ others g,
          payloadDiffers (w.ret (Syscall.pread (toInt32 f.fh) size offset))
            (w.buf (preadCall (fdsOf g s f.fh) size offset 0))
            (w.buf (preadCall (fdsOf g s f.fh) size offset i)) = false) →
        Res.map Prod.fst (mirrorfs_read w g path buf size offset (some f) s).res
          = Res.ret (canonicalCount (w.ret (Syscall.pread (toInt32 f.fh) size offset))
              (errnoOf w (Syscall.pread (toInt32 f.fh) size offset))))) ∧
    (∀ path buf size offset f,
      (∀ v, (mirrorfs_write w g path buf size offset (some f) s).res = Res.ret v →
        v = canonicalCount
              (w.ret (Syscall.pwrite (toInt32 f.fh) ((List.range size).map buf) size offset))
              (errnoOf w
                (Syscall.pwrite (toInt32 f.fh) ((List.range size).map buf) size offset))) ∧
      (g.abort_on_difference = false → slotsInRange g f.fh = true →
        (mirrorfs_write w g path buf size offset (some f) s).res
          = Res.ret (canonicalCount
              (w.ret (Syscall.pwrite (toInt32 f.fh) ((List.range size).map buf) size offset))
              (errnoOf w
                (Syscall.pwrite (toInt32 f.fh) ((List.range size).map buf) size
                  offset))))) := by
  have h0 : 0 < g.mntpath_count := by omega
  refine ⟨fun path mask => fanoutOp_answers w g "mirrorfs_access"
      (fun i => Syscall.faccessat i (safe_path path) mask 0) s hn,
    fun path mode => fanoutOp_answers w g "mirrorfs_mkdir"
      (fun i => Syscall.mkdirat i (safe_path path) mode) s hn,
    fun path => fanoutOp_answers w g "mirrorfs_unlink"
      (fun i => Syscall.unlinkat i (safe_path path) 0) s hn,
    fun path => fanoutOp_answers w g "mirrorfs_rmdir"
      (fun i => Syscall.unlinkat i (safe_path path) AT_REMOVEDIR) s hn,
    fun src dst => fanoutOp_answers w g "mirrorfs_symlink"
      (fun i => Syscall.symlinkat src i (safe_path dst)) s hn,
    fun src dst => fanoutOp_answers w g "mirrorfs_rename"
      (fun i => Syscall.renameat i (safe_path src) i (safe_path dst)) s hn,
    fun src dst => fanoutOp_answers w g "mirrorfs_link"
      (fun i => Syscall.linkat i (safe_path src) i (safe_path dst) 0) s hn,
    fun path mode => fanoutOp_answers w g "mirrorfs_chmod"
      (fun i => Syscall.fchmodat i (safe_path path) mode 0) s hn,
    fun path uid gid => fanoutOp_answers w g "mirrorfs_chown"
      (fun i => Syscall.fchownat i (safe_path path) uid gid 0) s hn,
    fun path ts => fanoutOp_answers w g "mirrorfs_utimens"
      (fun i => Syscall.utimensat i (safe_path path) ts AT_SYMLINK_NOFOLLOW) s hn,
    ?_, ?_, ?_⟩
  · intro path stbuf
    show AnswersFromReplica0 g _
      (canonical (w.ret (fstatatCall path 0)) (errnoOf w (fstatatCall path 0)))
    obtain ⟨e1, h⟩ := mirrorfs_getattr_run w g path stbuf s
    have hr := resArr_elem w g (fstatatCall path) 0 h0
    have he := errArr_elem w g (fstatatCall path) 0 h0
    rw [h, hr, he]
    generalize w.ret (fstatatCall path 0) = r0
    generalize errnoOf w (fstatatCall path 0) = e0
    unfold AnswersFromReplica0 canonical
    constructor
    · intro v hv
      split_ifs at hv with h1 h2 h3 <;> simp_all [Res.map]
    · intro hoff
      rw [resultsAbort_off g hoff, statLoopAborts_off g hoff]
      split_ifs <;> simp_all [Res.map]
  · intro path buf size offset f
    rw [← preadCall_zero g s f.fh size offset]
    cases hrange : slotsInRange g f.fh with
    | false =>
        rw [mirrorfs_read_handle_range w g path buf size offset f s hrange]
        exact ⟨fun v hv => (by cases hv), fun _ h => (by cases h)⟩
    | true =>
        obtain ⟨e1, h⟩ := mirrorfs_read_handle_run w g path buf size offset f s hrange
        have hr := resArr_elem w g (preadCall (fdsOf g s f.fh) size offset) 0 h0
        have he := errArr_elem w g (preadCall (fdsOf g s f.fh) size offset) 0 h0
        rw [h, hr, he]
        generalize preadCall (fdsOf g s f.fh) size offset = call at *
        constructor
        · intro v hv
          split_ifs at hv
          · cases hv
          · simp only [Res.map] at hv
            injection hv with hv
            exact hv.symm
        · intro hoff _ hp
          rw [payloadAbort_off g hoff _ _ _ (by
            intro i hi
            rw [hr]
            exact hp i hi)]
          rfl
  · intro path buf size offset f
    rw [← pwriteCall_zero g s f.fh buf size offset]
    cases hrange : slotsInRange g f.fh with
    | false =>
        rw [mirrorfs_write_handle_range w g path buf size offset f s hrange]
        exact ⟨fun v hv => (by cases hv), fun _ h => (by cases h)⟩
    | true =>
        obtain ⟨e1, h⟩ := mirrorfs_write_handle_run w g path buf size offset f s hrange
        have hr := resArr_elem w g (pwriteCall (fdsOf g s f.fh) buf size offset) 0 h0
        have he := errArr_elem w g (pwriteCall (fdsOf g s f.fh) buf size offset) 0 h0
        rw [h, hr, he]
        generalize pwriteCall (fdsOf g s f.fh) buf size offset = call at *
        constructor
        · intro v hv
          split_ifs at hv
          cases hv
          rfl
        · intro hoff _
          rw [resultsAbort_off g hoff]
          rfl

/-- With two replicas that disagree (replica 0 fails with error code 2, replica 1
succeeds) and `abort_on_difference` off, `access` returns -2. -/
theorem fanout_answers_from_replica0_witness :
    2 ≤ twoReplicasNoAbort.mntpath_count ∧
    (mirrorfs_access worldDiverging twoReplicasNoAbort ['/', 'x'] 0 State.init).res
      = Res.ret (-2) :=
  ⟨by decide,
    ((fanout_answers_from_replica0 worldDiverging twoReplicasNoAbort State.init
      (by decide)).1 ['/', 'x'] 0).2 rfl⟩

/-! ## The comparison policy of `getattr` (C2) -/

theorem toLong_eq_iff_unsigned (x y : Int) (hx : 0 ≤ x ∧ x < 18446744073709551616)
    (hy : 0 ≤ y ∧ y < 18446744073709551616) : toLong x = toLong y ↔ x = y := by
  unfold toLong
  omega

theorem toLong_eq_iff_signed (x y : Int)
    (hx : -9223372036854775808 ≤ x ∧ x < 9223372036854775808)
    (hy : -9223372036854775808 ≤ y ∧ y < 9223372036854775808) :
    toLong x = toLong y ↔ x = y := by
  unfold toLong
  omega

theorem reports_append (l1 l2 : List Event) (i : Nat) :
    reports (l1 ++ l2) i = (reports l1 i || reports l2 i) := by
  simp [reports, List.any_append]

theorem reports_nil (i : Nat) : reports [] i = false := rfl

theorem reports_neqEvents (func expr : String) (j i : Nat) (x y : Int) :
    reports (neqEvents func expr j x y) i = true ↔ toLong x ≠ toLong y ∧ j = i := by
  unfold neqEvents
  by_cases h : toLong x = toLong y <;> simp [h, reports]

theorem reports_callEvents (g : Globals) (call : Nat → Syscall) (i : Nat) :
    reports (callEvents g call) i = false := by
  simp [reports, callEvents]

theorem reports_statEvents (g : Globals) (j i : Nat) (a b : Stat) (ha : a.InRange)
    (hb : b.InRange) :
    reports (statEvents g j a b) i = true ↔ comparedFieldsDiffer a b ∧ j = i := by
  obtain ⟨ham, han, hau, hag, has⟩ := ha
  obtain ⟨hbm, hbn, hbu, hbg, hbs⟩ := hb
  have hm := toLong_eq_iff_unsigned a.st_mode b.st_mode (by omega) (by omega)
  have hn := toLong_eq_iff_unsigned a.st_nlink b.st_nlink han hbn
  have hu := toLong_eq_iff_unsigned a.st_uid b.st_uid (by omega) (by omega)
  have hg := toLong_eq_iff_unsigned a.st_gid b.st_gid (by omega) (by omega)
  have hs := toLong_eq_iff_signed a.st_size b.st_size has hbs
  by_cases hab : a = b
  · subst hab
    simp [statEvents, comparedFieldsDiffer, reports_nil]
  · unfold statEvents comparedFieldsDiffer
    rw [if_pos hab]
    by_cases h1 : a.st_mode = b.st_mode <;> by_cases h2 : a.st_nlink = b.st_nlink <;>
      by_cases h3 : a.st_uid = b.st_uid <;> by_cases h4 : a.st_gid = b.st_gid <;>
      by_cases h5 : a.st_size = b.st_size <;> cases hd : S_ISDIR a.st_mode <;>
      cases hq : g.abort_on_difference <;>
      simp [reports_append, reports_neqEvents, reports_nil, neqAborts, hm, hn, hu, hg, hs,
        h1, h2, h3, h4, h5, hd, hq]

theorem statAborts_iff (g : Globals) (a b : Stat) (ha : a.InRange) (hb : b.InRange) :
    statAborts g a b = true ↔ g.abort_on_difference = true ∧ comparedFieldsDiffer a b := by
  obtain ⟨ham, han, hau, hag, has⟩ := ha
  obtain ⟨hbm, hbn, hbu, hbg, hbs⟩ := hb
  have hm := toLong_eq_iff_unsigned a.st_mode b.st_mode (by omega) (by omega)
  have hn := toLong_eq_iff_unsigned a.st_nlink b.st_nlink han hbn
  have hu := toLong_eq_iff_unsigned a.st_uid b.st_uid (by omega) (by omega)
  have hg := toLong_eq_iff_unsigned a.st_gid b.st_gid (by omega) (by omega)
  have hs := toLong_eq_iff_signed a.st_size b.st_size has hbs
  by_cases hab : a = b
  · subst hab
    simp [statAborts, comparedFieldsDiffer]
  · unfold statAborts comparedFieldsDiffer
    by_cases h1 : a.st_mode = b.st_mode <;> by_cases h2 : a.st_nlink = b.st_nlink <;>
      by_cases h3 : a.st_uid = b.st_uid <;> by_cases h4 : a.st_gid = b.st_gid <;>
      by_cases h5 : a.st_size = b.st_size <;> cases hd : S_ISDIR a.st_mode <;>
      cases hq : g.abort_on_difference <;>
      simp [neqAborts, hm, hn, hu, hg, hs, h1, h2, h3, h4, h5, hd, hq, hab]

theorem reports_loopEvents (ab : Nat → Bool) (ev : Nat → List Event)
    (htag : ∀ j i, reports (ev j) i = true → j = i) (k a i : Nat) :
    reports (loopEvents (List.range' a k) ab ev) i = true
      ↔ a ≤ i ∧ i < a + k ∧ (∀ j, a ≤ j → j < i → ab j = false)
          ∧ reports (ev i) i = true := by
  induction k generalizing a with
  | zero =>
      simp only [List.range'_zero, loopEvents, reports_nil]
      constructor
      · intro h; cases h
      · rintro ⟨h1, h2, _⟩; omega
  | succ k ih =>
      rw [List.range'_succ]
      simp only [loopEvents, reports_append, Bool.or_eq_true]
      constructor
      · rintro (h | h)
        · have := htag a i h
          subst this
          exact ⟨le_refl _, by omega, fun j h1 h2 => by omega, h⟩
        · cases hab : ab a with
          | true => rw [hab] at h; simp [reports_nil] at h
          | false =>
              rw [hab] at h
              simp only [Bool.false_eq_true, if_false] at h
              obtain ⟨h1, h2, h3, h4⟩ := (ih (a + 1)).mp h
              refine ⟨by omega, by omega, ?_, h4⟩
              intro j hj1 hj2
              by_cases hja : j = a
              · subst hja; exact hab
              · exact h3 j (by omega) hj2
      · rintro ⟨h1, h2, h3, h4⟩
        by_cases hia : i = a
        · subst hia
          exact Or.inl h4
        · right
          rw [h3 a (le_refl _) (by omega)]
          simp only [Bool.false_eq_true, if_false]
          exact (ih (a + 1)).mpr ⟨by omega, by omega, fun j hj1 hj2 => h3 j (by omega) hj2, h4⟩

theorem mem_others (g : Globals) (i : Nat) :
    i ∈ others g ↔ 1 ≤ i ∧ i < g.mntpath_count := by
  unfold others
  rw [List.mem_range'_1]
  omega

theorem loopEvents_quiet (is : List Nat) (ab : Nat → Bool) (ev : Nat → List Event)
    (h : ∀ i ∈ is, ab i = false ∧ ev i = []) : loopEvents is ab ev = [] := by
  induction is with
  | nil => rfl
  | cons i rest ih =>
      have hi := h i (List.mem_cons_self i rest)
      simp only [loopEvents, hi.1, hi.2, List.nil_append, Bool.false_eq_true, if_false]
      exact ih (fun j hj => h j (List.mem_cons_of_mem i hj))

theorem results_quiet (g : Globals) (func : String) (res errnos : List Int)
    (h : ∀ i ∈ others g, elem res i = elem res 0 ∧ elem errnos i = elem errnos 0) :
    resultsAbort g res errnos = false ∧ resultsEvents g func res errnos = [] := by
  have hround : ∀ i ∈ others g,
      roundAborts g res errnos i = false ∧ roundEvents g func res errnos i = [] := by
    intro i hi
    obtain ⟨h1, h2⟩ := h i hi
    simp [roundAborts, roundEvents, neqAborts, neqEvents, h1, h2]
  constructor
  · unfold resultsAbort
    rw [List.any_eq_false]
    intro i hi
    simp [(hround i hi).1]
  · exact loopEvents_quiet _ _ _ hround

theorem statArr_elem (w : World) (g : Globals) (path : CString) (i : Nat)
    (h : i < g.mntpath_count) :
    statElem (statArr w g path) i = w.stat (fstatatCall path i) := by
  unfold statElem statArr replicas
  rw [List.getD_eq_getElem _ _ (by simpa using h)]
  simp

theorem statArr_inRange (w : World) (g : Globals) (path : CString)
    (hrange : ∀ i, i < g.mntpath_count → (w.stat (fstatatCall path i)).InRange) (i : Nat) :
    (statElem (statArr w g path) i).InRange := by
  by_cases h : i < g.mntpath_count
  · rw [statArr_elem w g path i h]
    exact hrange i h
  · unfold statElem statArr replicas
    rw [List.getD_eq_default _ _ (by simpa using h)]
    decide

/-- C2 (amended): the comparison policy of `getattr`.  Assume that `fstatat` succeeded on every
replica with the same return value and error code, and that the compared fields are in
the range of their C types.  Then
* a divergence line is printed in the round of replica `i` if and only if replica `i`
  differs from replica 0 in `st_mode`, `st_nlink`, `st_uid` or `st_gid`, or replica 0 is
  not a directory and `st_size` differs; this holds for every replica that the loop
  reaches (all earlier replicas agree), and for every replica when `abort_on_difference`
  is off;
* the process aborts if and only if `abort_on_difference` is set and some replica
  differs in that sense;
* no line is printed for a replica that does not differ in that sense (so records that
  differ only in ino, dev, rdev, blksize, blocks, timestamps, or in the size of a
  directory, are never reported);
* whenever the process does not abort, `getattr` returns 0 and hands back the record of
  replica 0;
* when `abort_on_difference` is set, no line is printed for a replica that comes after a
  differing one: the process aborts in the round of the first replica that differs. -/
theorem getattr_comparison_policy (w : World) (g : Globals) (path : CString)
    (stbuf : Stat) (s : State) (hn : 1 ≤ g.mntpath_count)
    (hsucc : w.ret (fstatatCall path 0) ≠ -1)
    (heq : ∀ i, i < g.mntpath_count →
      w.ret (fstatatCall path i) = w.ret (fstatatCall path 0) ∧
      errnoOf w (fstatatCall path i) = errnoOf w (fstatatCall path 0))
    (hrange : ∀ i, i < g.mntpath_count → (w.stat (fstatatCall path i)).InRange) :
    (∀ i, 1 ≤ i → i < g.mntpath_count →
      (∀ j, 1 ≤ j → j < i →
        ¬ comparedFieldsDiffer (w.stat (fstatatCall path 0)) (w.stat (fstatatCall path j))) →
      (reports (mirrorfs_getattr w g path stbuf s).events i = true ↔
        comparedFieldsDiffer (w.stat (fstatatCall path 0)) (w.stat (fstatatCall path i)))) ∧
    (g.abort_on_difference = false → ∀ i, 1 ≤ i → i < g.mntpath_count →
      (reports (mirrorfs_getattr w g path stbuf s).events i = true ↔
        comparedFieldsDiffer (w.stat (fstatatCall path 0)) (w.stat (fstatatCall path i)))) ∧
    ((mirrorfs_getattr w g path stbuf s).res = Res.aborted ↔
      g.abort_on_difference = true ∧ ∃ i, 1 ≤ i ∧ i < g.mntpath_count ∧
        comparedFieldsDiffer (w.stat (fstatatCall path 0)) (w.stat (fstatatCall path i))) ∧
    (∀ i, reports (mirrorfs_getattr w g path stbuf s).events i = true →
      1 ≤ i ∧ i < g.mntpath_count ∧
        comparedFieldsDiffer (w.stat (fstatatCall path 0)) (w.stat (fstatatCall path i))) ∧
    ((mirrorfs_getattr w g path stbuf s).res ≠ Res.aborted →
      (mirrorfs_getattr w g path stbuf s).res
        = Res.ret (0, w.stat (fstatatCall path 0))) ∧
    (g.abort_on_difference = true → ∀ i j, 1 ≤ j → j < i →
      comparedFieldsDiffer (w.stat (fstatatCall path 0)) (w.stat (fstatatCall path j)) →
      reports (mirrorfs_getattr w g path stbuf s).events i = false) := by
  obtain ⟨e1, hrun⟩ := mirrorfs_getattr_run w g path stbuf s
  have hr0 := resArr_elem w g (fstatatCall path) 0 (by omega)
  have hquiet := results_quiet g "mirrorfs_getattr" (resArr w g (fstatatCall path))
    (errArr w g (fstatatCall path)) (by
      intro i hi
      have hi2 := ((mem_others g i).mp hi).2
      rw [resArr_elem w g _ i hi2, errArr_elem w g _ i hi2, resArr_elem w g _ 0 (by omega),
        errArr_elem w g _ 0 (by omega)]
      exact heq i hi2)
  have hne : ¬ elem (resArr w g (fstatatCall path)) 0 = -1 := by rw [hr0]; exact hsucc
  rw [hquiet.1, hquiet.2] at hrun
  simp only [Bool.false_eq_true, if_false, hne, false_or, List.nil_append] at hrun
  have hst : ∀ i, i < g.mntpath_count →
      statElem (statArr w g path) i = w.stat (fstatatCall path i) :=
    fun i hi => statArr_elem w g path i hi
  have hin := statArr_inRange w g path hrange
  have hab : ∀ j, j < g.mntpath_count →
      (statAborts g (statElem (statArr w g path) 0) (statElem (statArr w g path) j) = true ↔
        g.abort_on_difference = true ∧
          comparedFieldsDiffer (w.stat (fstatatCall path 0)) (w.stat (fstatatCall path j))) := by
    intro j hj
    rw [statAborts_iff g _ _ (hin 0) (hin j), hst 0 (by omega), hst j hj]
  have hrep : ∀ i, reports (mirrorfs_getattr w g path stbuf s).events i = true ↔
      1 ≤ i ∧ i < g.mntpath_count ∧
        (∀ j, 1 ≤ j → j < i →
          statAborts g (statElem (statArr w g path) 0) (statElem (statArr w g path) j)
            = false) ∧
        comparedFieldsDiffer (w.stat (fstatatCall path 0)) (w.stat (fstatatCall path i)) := by
    intro i
    rw [hrun]
    simp only [reports_append, reports_callEvents, Bool.false_or]
    unfold statLoopEvents others
    rw [reports_loopEvents _ _ (fun j i h =>
      ((reports_statEvents g j i _ _ (hin 0) (hin j)).mp h).2)]
    rw [reports_statEvents g i i _ _ (hin 0) (hin i)]
    constructor
    · rintro ⟨h1, h2, h3, h4, _⟩
      have hi : i < g.mntpath_count := by omega
      rw [hst 0 (by omega), hst i hi] at h4
      exact ⟨h1, hi, h3, h4⟩
    · rintro ⟨h1, h2, h3, h4⟩
      rw [← hst 0 (by omega), ← hst i h2] at h4
      exact ⟨h1, by omega, h3, h4, rfl⟩
  have hfalse : ∀ j, j < g.mntpath_count →
      ¬ (g.abort_on_difference = true ∧
        comparedFieldsDiffer (w.stat (fstatatCall path 0)) (w.stat (fstatatCall path j))) →
      statAborts g (statElem (statArr w g path) 0) (statElem (statArr w g path) j) = false := by
    intro j hj hnot
    cases h : statAborts g (statElem (statArr w g path) 0) (statElem (statArr w g path) j)
    · rfl
    · exact absurd ((hab j hj).mp h) hnot
  have habort : statLoopAborts g (statArr w g path) = true ↔
      g.abort_on_difference = true ∧ ∃ i, 1 ≤ i ∧ i < g.mntpath_count ∧
        comparedFieldsDiffer (w.stat (fstatatCall path 0)) (w.stat (fstatatCall path i)) := by
    unfold statLoopAborts
    rw [List.any_eq_true]
    constructor
    · rintro ⟨i, hi, h⟩
      obtain ⟨h1, h2⟩ := (mem_others g i).mp hi
      obtain ⟨h3, h4⟩ := (hab i h2).mp h
      exact ⟨h3, i, h1, h2, h4⟩
    · rintro ⟨h3, i, h1, h2, h4⟩
      exact ⟨i, (mem_others g i).mpr ⟨h1, h2⟩, (hab i h2).mpr ⟨h3, h4⟩⟩
  refine ⟨?_, ?_, ?_, ?_, ?_, ?_⟩
  · intro i h1 h2 hprev
    rw [hrep i]
    constructor
    · rintro ⟨_, _, _, h⟩; exact h
    · intro h
      exact ⟨h1, h2, fun j hj1 hj2 => hfalse j (by omega) (fun hc => hprev j hj1 hj2 hc.2), h⟩
  · intro hoff i h1 h2
    rw [hrep i]
    constructor
    · rintro ⟨_, _, _, h⟩; exact h
    · intro h
      exact ⟨h1, h2, fun j _ hj2 => hfalse j (by omega) (fun hc => by simp [hoff] at hc), h⟩
  · rw [hrun, ← habort]
    cases statLoopAborts g (statArr w g path) <;> simp
  · intro i h
    obtain ⟨h1, h2, _, h4⟩ := (hrep i).mp h
    exact ⟨h1, h2, h4⟩
  · rw [hrun, ← hst 0 (by omega)]
    cases statLoopAborts g (statArr w g path) <;> simp
  · intro hflag i j hj1 hj2 hdiff
    cases hr : reports (mirrorfs_getattr w g path stbuf s).events i
    · rfl
    · obtain ⟨_, h2, h3, _⟩ := (hrep i).mp hr
      have hfa := h3 j hj1 hj2
      rw [(hab j (by omega)).mpr ⟨hflag, hdiff⟩] at hfa
      cases hfa

/-- On two directories that differ only in inode number and size, `getattr` with
`abort_on_difference` set does not abort and hands back the record of replica 0. -/
theorem getattr_comparison_policy_witness :
    (mirrorfs_getattr worldStatNoise twoReplicas ['/'] Stat.zero State.init).res
      = Res.ret (0, worldStatNoise.stat (fstatatCall ['/'] 0)) :=
  (getattr_comparison_policy worldStatNoise twoReplicas ['/'] Stat.zero State.init
    (by decide) (by decide) (fun _ _ => ⟨rfl, rfl⟩)
    (by
      intro i hi
      have h2 : i < 2 := hi
      interval_cases i <;> decide)).2.2.2.2.1 (by decide)

/-- Counterexample to C2 as stated: with three replicas and `abort_on_difference` set,
`fstatat` succeeds on every replica with the same return value and error code, and the
replicas 1 and 2 both differ from replica 0 in `st_uid`.  The process aborts in the round
of replica 1, so a line is printed for replica 1 and none for replica 2, although replica
2 differs. -/
theorem getattr_stops_at_first_divergence :
    (∀ i, i < 3 → worldUidDiffers.ret (fstatatCall ['/', 'a'] i) = 0 ∧
      errnoOf worldUidDiffers (fstatatCall ['/', 'a'] i) = 0) ∧
    threeReplicas.abort_on_difference = true ∧
    comparedFieldsDiffer (worldUidDiffers.stat (fstatatCall ['/', 'a'] 0))
      (worldUidDiffers.stat (fstatatCall ['/', 'a'] 1)) ∧
    comparedFieldsDiffer (worldUidDiffers.stat (fstatatCall ['/', 'a'] 0))
      (worldUidDiffers.stat (fstatatCall ['/', 'a'] 2)) ∧
    (mirrorfs_getattr worldUidDiffers threeReplicas ['/', 'a'] Stat.zero State.init).res
      = Res.aborted ∧
    reports (mirrorfs_getattr worldUidDiffers threeReplicas ['/', 'a'] Stat.zero
      State.init).events 1 = true ∧
    reports (mirrorfs_getattr worldUidDiffers threeReplicas ['/', 'a'] Stat.zero
      State.init).events 2 = false := by
  refine ⟨by decide, by decide, by decide, by decide, by decide, by decide, by decide⟩

/-! ## Payload divergences (C3) -/

theorem sys_calls_run (w : World) (c : Nat → Syscall) (is : List Nat) (s : State) :
    forEach is (fun j => do
        let _ ← sys w (c j)
        pure ()) s
      = ⟨Res.ret (), ⟨errnoAfter w (is.map c) s.errno, s.mirror_fds⟩,
          is.map (fun j => Event.call (c j))⟩ := by
  induction is generalizing s with
  | nil => rfl
  | cons i rest ih =>
      rw [forEach_cons, run_bind_ret _ _ s ⟨(w.err (c i)).getD s.errno, s.mirror_fds⟩ ()
        [Event.call (c i)] rfl, ih]
      rfl

theorem closeFirst_run (w : World) (k : Nat) (fds : List Int) (s : State) :
    closeFirst w k fds s
      = ⟨Res.ret (), ⟨errnoAfter w (closeCalls k fds) s.errno, s.mirror_fds⟩,
          (closeCalls k fds).map Event.call⟩ := by
  unfold closeFirst closeCalls
  rw [sys_calls_run, List.map_map]
  rfl

theorem openAll_ok (w : World) (call : Nat → Syscall) (is : List Nat) (fds : List Int)
    (s : State) (h : ∀ i ∈ is, w.ret (call i) ≠ -1) :
    openAll w call is fds s
      = ⟨Res.ret (Except.ok (fds ++ is.map (fun i => w.ret (call i)))),
          ⟨errnoAfter w (is.map call) s.errno, s.mirror_fds⟩,
          is.map (fun i => Event.call (call i))⟩ := by
  induction is generalizing s fds with
  | nil => simp [openAll, run_pure, errnoAfter]
  | cons i rest ih =>
      have hi := h i (List.mem_cons_self i rest)
      unfold openAll
      rw [run_bind_ret _ _ s ⟨(w.err (call i)).getD s.errno, s.mirror_fds⟩ (w.ret (call i))
        [Event.call (call i)] rfl]
      rw [if_neg hi, ih _ _ (fun j hj => h j (List.mem_cons_of_mem i hj))]
      simp [errnoAfter]

theorem mirrorfs_read_nohandle_run (w : World) (g : Globals) (path : CString) (buf : Buffer)
    (size : Nat) (offset : Int) (s : State)
    (hok : ∀ i ∈ replicas g, w.ret (openatCall path O_RDONLY i) ≠ -1) :
    ∃ e1, mirrorfs_read w g path buf size offset none s
      = ⟨if payloadAbort g
              (resArr w g (preadCall (resArr w g (openatCall path O_RDONLY)) size offset))
              (errArr w g (preadCall (resArr w g (openatCall path O_RDONLY)) size offset))
              (fun i => w.buf (preadCall (resArr w g (openatCall path O_RDONLY)) size offset i))
          then Res.aborted
          else Res.ret
            (canonicalCount
              (elem (resArr w g
                (preadCall (resArr w g (openatCall path O_RDONLY)) size offset)) 0)
              (elem (errArr w g
                (preadCall (resArr w g (openatCall path O_RDONLY)) size offset)) 0),
             w.buf (preadCall (resArr w g (openatCall path O_RDONLY)) size offset 0)),
         ⟨e1, s.mirror_fds⟩,
         callEvents g (openatCall path O_RDONLY)
           ++ (callEvents g (preadCall (resArr w g (openatCall path O_RDONLY)) size offset)
           ++ (payloadEvents g "mirrorfs_read"
                (resArr w g (preadCall (resArr w g (openatCall path O_RDONLY)) size offset))
                (errArr w g (preadCall (resArr w g (openatCall path O_RDONLY)) size offset))
                (fun i =>
                  w.buf (preadCall (resArr w g (openatCall path O_RDONLY)) size offset i))
           ++ (if payloadAbort g
                (resArr w g (preadCall (resArr w g (openatCall path O_RDONLY)) size offset))
                (errArr w g (preadCall (resArr w g (openatCall path O_RDONLY)) size offset))
                (fun i =>
                  w.buf (preadCall (resArr w g (openatCall path O_RDONLY)) size offset i))
               then []
               else (closeCalls g.mntpath_count
                  (resArr w g (openatCall path O_RDONLY))).map Event.call)))⟩ := by
  generalize hfds : resArr w g (openatCall path O_RDONLY) = fds
  have hopen := openAll_ok w (openatCall path O_RDONLY) (replicas g) [] s hok
  simp only [List.nil_append] at hopen
  have hfds2 : (replicas g).map (fun i => w.ret (openatCall path O_RDONLY i)) = fds := hfds
  rw [hfds2] at hopen
  obtain ⟨e1, rs, h, hres, herr⟩ := fanout_arrays w g (preadCall fds size offset)
    ⟨errnoAfter w ((replicas g).map (openatCall path O_RDONLY)) s.errno, s.mirror_fds⟩
  unfold mirrorfs_read obtainFds
  rw [run_bind_ret _ _ s _ _ _ hopen]
  simp only []
  rw [run_bind_ret _ _ _ _ _ _ h]
  simp only [hres, herr]
  cases hab : payloadAbort g (resArr w g (preadCall fds size offset))
      (errArr w g (preadCall fds size offset))
      (fun i => w.buf (preadCall fds size offset i)) with
  | true =>
      rw [run_bind_aborted _ _ _ _ _ (by rw [compareWithPayload_run, hab]; rfl)]
      exact ⟨e1, by simp [callEvents]⟩
  | false =>
      rw [run_bind_ret _ _ _ _ _ _ (by rw [compareWithPayload_run, hab]; rfl)]
      unfold closeIfOpened
      simp only []
      rw [run_bind_ret _ _ _ _ _ _ (closeFirst_run w g.mntpath_count fds _)]
      refine ⟨errnoAfter w (closeCalls g.mntpath_count fds) e1, ?_⟩
      simp [callEvents, run_pure, canonicalCount]

theorem mirrorfs_readlink_run (w : World) (g : Globals) (path : CString) (buf : Buffer)
    (size : Nat) (s : State) :
    ∃ e1, mirrorfs_readlink w g path buf size s
      = ⟨if payloadAbort g (resArr w g (readlinkatCall path size))
              (errArr w g (readlinkatCall path size))
              (fun i => w.buf (readlinkatCall path size i)) then Res.aborted
          else if elem (resArr w g (readlinkatCall path size)) 0 = -1 then
            Res.ret (-(elem (errArr w g (readlinkatCall path size)) 0), buf)
          else if toU64 (elem (resArr w g (readlinkatCall path size)) 0) < size then
            Res.ret (0, terminated buf (w.buf (readlinkatCall path size 0))
              (toU64 (elem (resArr w g (readlinkatCall path size)) 0)))
          else Res.undefined,
         ⟨e1, s.mirror_fds⟩,
         callEvents g (readlinkatCall path size)
           ++ payloadEvents g "mirrorfs_readlink" (resArr w g (readlinkatCall path size))
                (errArr w g (readlinkatCall path size))
                (fun i => w.buf (readlinkatCall path size i))⟩ := by
  obtain ⟨e1, rs, h, hres, herr⟩ := fanout_arrays w g (readlinkatCall path size) s
  refine ⟨e1, ?_⟩
  unfold mirrorfs_readlink
  rw [run_bind_ret _ _ s _ _ _ h]
  simp only [hres, herr]
  generalize readlinkatCall path size = call
  cases hab : payloadAbort g (resArr w g call) (errArr w g call) (fun i => w.buf (call i)) with
  | true =>
      rw [run_bind_aborted _ _ _ _ _ (by rw [compareWithPayload_run, hab]; rfl)]
      simp
  | false =>
      rw [run_bind_ret _ _ _ _ _ _ (by rw [compareWithPayload_run, hab]; rfl)]
      by_cases h0 : elem (resArr w g call) 0 = -1
      · simp [h0, run_pure]
      · simp only [h0, if_false, Bool.false_eq_true]
        by_cases hsz : toU64 (elem (resArr w g call) 0) < size
        · rw [run_bind_ret _ _ _ ⟨e1, s.mirror_fds⟩
            (terminated buf (w.buf (call 0)) (toU64 (elem (resArr w g call) 0))) []
            (by unfold copyAndTerminate; rw [if_pos hsz]; rfl)]
          simp [hsz, run_pure]
        · rw [run_bind_undefined _ _ _ ⟨e1, s.mirror_fds⟩ []
            (by unfold copyAndTerminate; rw [if_neg hsz]; rfl)]
          simp [hsz]

theorem errnoAfter_append (w : World) (cs ds : List Syscall) (e : Int) :
    errnoAfter w (cs ++ ds) e = errnoAfter w ds (errnoAfter w cs e) := by
  simp [errnoAfter, List.foldl_append]

theorem errnoAfter_cons (w : World) (c : Syscall) (cs : List Syscall) (e : Int) :
    errnoAfter w (c :: cs) e = errnoAfter w cs ((w.err c).getD e) := rfl

theorem openAll_fail (w : World) (call : Nat → Syscall) (is : List Nat) (fds : List Int)
    (s : State) (i : Nat) (h : firstFailure w call is = some i) :
    openAll w call is fds s
      = ⟨Res.ret (Except.error (-(errnoAfter w (failedOpenCalls w call is fds i) s.errno))),
          ⟨errnoAfter w (failedOpenCalls w call is fds i) s.errno, s.mirror_fds⟩,
          (failedOpenCalls w call is fds i).map Event.call⟩ := by
  induction is generalizing s fds with
  | nil => simp [firstFailure] at h
  | cons j rest ih =>
      unfold openAll
      rw [run_bind_ret _ _ s ⟨(w.err (call j)).getD s.errno, s.mirror_fds⟩ (w.ret (call j))
        [Event.call (call j)] rfl]
      by_cases hj : w.ret (call j) = -1
      · have hij : j = i := by
          simpa [firstFailure, List.find?_cons, hj] using h
        subst hij
        rw [if_pos hj]
        rw [run_bind_ret _ _ _ _ _ _ (closeFirst_run w j fds _)]
        simp [failedOpenCalls, openedBefore, List.takeWhile_cons, hj, getErrno, run_pure,
          errnoAfter_append, errnoAfter_cons, errnoAfter, bind, M.bind, pure, M.pure]
      · have hrest : firstFailure w call rest = some i := by
          simpa [firstFailure, List.find?_cons, hj] using h
        rw [if_neg hj, ih (fds ++ [w.ret (call j)]) _ hrest]
        simp [failedOpenCalls, openedBefore, List.takeWhile_cons, hj, errnoAfter_append,
          errnoAfter_cons, errnoAfter]

theorem firstFailure_none (w : World) (call : Nat → Syscall) (is : List Nat) :
    firstFailure w call is = none ↔ ∀ i ∈ is, w.ret (call i) ≠ -1 := by
  simp [firstFailure, List.find?_eq_none]

theorem memcmpDiffers_iff (a b : Buffer) (n : Nat) :
    memcmpDiffers a b n = true ↔ ∃ k, k < n ∧ a k ≠ b k := by
  simp [memcmpDiffers, List.any_eq_true]

theorem toU64_of_nonneg (r : Int) (h0 : 0 ≤ r) (h1 : r < 18446744073709551616) :
    toU64 r = r.toNat := by
  unfold toU64
  rw [Int.emod_eq_of_lt h0 h1]

theorem payloadDiffers_iff (r : Int) (b0 bi : Buffer) (h0 : 0 ≤ r)
    (h1 : r < 18446744073709551616) :
    payloadDiffers r b0 bi = true ↔ payloadMismatch r b0 bi := by
  unfold payloadDiffers payloadMismatch
  rw [toU64_of_nonneg r h0 h1]
  have hne : r ≠ -1 := by omega
  simp only [hne, ne_eq, not_false_eq_true, decide_True, Bool.true_and, memcmpDiffers_iff]
  constructor
  · rintro ⟨k, hk, hd⟩
    exact ⟨k, by omega, hd⟩
  · rintro ⟨k, hk, hd⟩
    exact ⟨k, by omega, hd⟩

theorem payloadAbort_of_differs (g : Globals) (res errnos : List Int) (bufs : Nat → Buffer)
    (i : Nat) (hi : i ∈ others g)
    (hd : payloadDiffers (elem res 0) (bufs 0) (bufs i) = true) :
    payloadAbort g res errnos bufs = true := by
  unfold payloadAbort
  rw [List.any_eq_true]
  exact ⟨i, hi, by simp [payloadRoundAborts, hd]⟩

theorem loopEvents_silent (is : List Nat) (ab : Nat → Bool) (ev : Nat → List Event)
    (h : ∀ i ∈ is, ev i = []) : loopEvents is ab ev = [] := by
  induction is with
  | nil => rfl
  | cons i rest ih =>
      simp only [loopEvents, h i (List.mem_cons_self i rest), List.nil_append]
      split
      · rfl
      · exact ih (fun j hj => h j (List.mem_cons_of_mem i hj))

theorem any_congr_mem (l : List Nat) (p q : Nat → Bool) (h : ∀ i ∈ l, p i = q i) :
    l.any p = l.any q := by
  induction l with
  | nil => rfl
  | cons i rest ih =>
      simp only [List.any_cons, h i (List.mem_cons_self i rest),
        ih (fun j hj => h j (List.mem_cons_of_mem i hj))]

theorem payload_quiet (g : Globals) (func : String) (res errnos : List Int)
    (bufs : Nat → Buffer)
    (h : ∀ i ∈ others g, elem res i = elem res 0 ∧ elem errnos i = elem errnos 0) :
    payloadAbort g res errnos bufs
        = (others g).any (fun i => payloadDiffers (elem res 0) (bufs 0) (bufs i))
      ∧ payloadEvents g func res errnos bufs = [] := by
  constructor
  · unfold payloadAbort
    apply any_congr_mem
    intro i hi
    obtain ⟨h1, h2⟩ := h i hi
    simp [payloadRoundAborts, roundAborts, neqAborts, h1, h2]
  · apply loopEvents_silent
    intro i hi
    obtain ⟨h1, h2⟩ := h i hi
    simp [roundEvents, neqEvents, h1, h2]

theorem mirrorfs_read_nohandle_fail (w : World) (g : Globals) (path : CString)
    (buf : Buffer) (size : Nat) (offset : Int) (s : State) (i : Nat)
    (h : firstFailure w (openatCall path O_RDONLY) (replicas g) = some i) :
    mirrorfs_read w g path buf size offset none s
      = ⟨Res.ret (-(errnoAfter w
            (failedOpenCalls w (openatCall path O_RDONLY) (replicas g) [] i) s.errno), buf),
          ⟨errnoAfter w (failedOpenCalls w (openatCall path O_RDONLY) (replicas g) [] i)
            s.errno, s.mirror_fds⟩,
          (failedOpenCalls w (openatCall path O_RDONLY) (replicas g) [] i).map Event.call⟩ := by
  unfold mirrorfs_read obtainFds
  rw [run_bind_ret _ _ s _ _ _ (openAll_fail w _ _ [] s i h)]
  simp [run_pure]

theorem errnoAfter_quiet (w : World) (cs : List Syscall) (e : Int)
    (h : ∀ c ∈ cs, w.err c = none) : errnoAfter w cs e = e := by
  induction cs generalizing e with
  | nil => rfl
  | cons c rest ih =>
      rw [errnoAfter_cons, h c (List.mem_cons_self c rest), Option.getD_none]
      exact ih e (fun d hd => h d (List.mem_cons_of_mem c hd))

theorem LOG_FUSE_OPERATION_run (w : World) (func fmt : String) (args : List Int)
    (s : State) :
    LOG_FUSE_OPERATION w func fmt args s
      = ⟨Res.ret (), ⟨(w.err (Syscall.fprintf func fmt args)).getD s.errno, s.mirror_fds⟩,
          [Event.call (Syscall.fprintf func fmt args)]⟩ := by
  unfold LOG_FUSE_OPERATION
  rw [run_bind_ret _ _ s ⟨(w.err (Syscall.fprintf func fmt args)).getD s.errno,
    s.mirror_fds⟩ (w.ret (Syscall.fprintf func fmt args))
    [Event.call (Syscall.fprintf func fmt args)] rfl]
  simp [run_pure]

theorem openAllForWrite_fail (w : World) (call : Nat → Syscall) (is : List Nat)
    (fds : List Int) (s : State) (i : Nat) (e : Int)
    (h : firstFailure w call is = some i) (herr : w.err (call i) = some e)
    (hlog : w.err (Syscall.fprintf "mirrorfs_write" "Failed to open file %d: %s"
      [(i : Int), e]) = none)
    (hclose : ∀ c ∈ closeCalls i
      (fds ++ (openedBefore w call is).map (fun j => w.ret (call j))), w.err c = none) :
    (openAllForWrite w call is fds s).res = Res.ret (Except.error (-e)) := by
  induction is generalizing s fds with
  | nil => simp [firstFailure] at h
  | cons j rest ih =>
      unfold openAllForWrite
      rw [run_bind_ret _ _ s ⟨(w.err (call j)).getD s.errno, s.mirror_fds⟩ (w.ret (call j))
        [Event.call (call j)] rfl]
      by_cases hj : w.ret (call j) = -1
      · have hij : j = i := by
          simpa [firstFailure, List.find?_cons, hj] using h
        subst hij
        have hclose2 : ∀ c ∈ closeCalls j fds, w.err c = none := by
          simpa [openedBefore, List.takeWhile_cons, hj] using hclose
        rw [if_pos hj, herr, Option.getD_some]
        rw [run_bind_ret _ _ ⟨e, s.mirror_fds⟩ ⟨e, s.mirror_fds⟩ e [] rfl]
        rw [run_bind_ret _ _ ⟨e, s.mirror_fds⟩ ⟨e, s.mirror_fds⟩ ()
          [Event.call (Syscall.fprintf "mirrorfs_write" "Failed to open file %d: %s"
            [(j : Int), e])]
          (by rw [LOG_FUSE_OPERATION_run, hlog]; rfl)]
        rw [run_bind_ret _ _ _ _ _ _ (closeFirst_run w j fds _)]
        simp [getErrno, run_pure, errnoAfter_quiet w _ e hclose2, bind, M.bind, pure,
          M.pure]
      · have hrest : firstFailure w call rest = some i := by
          simpa [firstFailure, List.find?_cons, hj] using h
        rw [if_neg hj]
        exact ih (fds ++ [w.ret (call j)]) _ hrest (by
          simpa [openedBefore, List.takeWhile_cons, hj] using hclose)

theorem mirrorfs_write_nohandle_fail (w : World) (g : Globals) (path : CString)
    (buf : Buffer) (size : Nat) (offset : Int) (s : State) (i : Nat) (e : Int)
    (h : firstFailure w (openatCall path O_WRONLY) (replicas g) = some i)
    (herr : w.err (openatCall path O_WRONLY i) = some e)
    (hlog : w.err (Syscall.fprintf "mirrorfs_write" "Failed to open file %d: %s"
      [(i : Int), e]) = none)
    (hclose : ∀ c ∈ closeCalls i
      ([] ++ (openedBefore w (openatCall path O_WRONLY) (replicas g)).map
        (fun j => w.ret (openatCall path O_WRONLY j))), w.err c = none) :
    (mirrorfs_write w g path buf size offset none s).res = Res.ret (-e) := by
  have hopen := openAllForWrite_fail w (openatCall path O_WRONLY) (replicas g) [] s i e h
    herr hlog hclose
  unfold mirrorfs_write obtainFdsForWrite
  show (M.bind (openAllForWrite w (openatCall path O_WRONLY) (replicas g) []) _ s).res = _
  unfold M.bind
  revert hopen
  cases openAllForWrite w (openatCall path O_WRONLY) (replicas g) [] s with
  | mk r st ev =>
      intro hopen
      simp only at hopen
      subst hopen
      rfl

theorem fdsObtained_none (w : World) (g : Globals) (path : CString) (flags : Int) :
    fdsObtained w g path flags none = true
      ↔ ∀ i ∈ replicas g, w.ret (openatCall path flags i) ≠ -1 := by
  simp [fdsObtained, List.all_eq_true]

theorem mirrorfs_read_res (w : World) (g : Globals) (path : CString) (buf : Buffer)
    (size : Nat) (offset : Int) (fi : Option FuseFileInfo) (s : State)
    (hobt : fdsObtained w g path O_RDONLY fi = true) :
    (mirrorfs_read w g path buf size offset fi s).res
      = (if payloadAbort g
              (resArr w g (preadCall (usedFds w g s path O_RDONLY fi) size offset))
              (errArr w g (preadCall (usedFds w g s path O_RDONLY fi) size offset))
              (fun i => w.buf (preadCall (usedFds w g s path O_RDONLY fi) size offset i))
          then Res.aborted
          else Res.ret
            (canonicalCount
              (elem (resArr w g
                (preadCall (usedFds w g s path O_RDONLY fi) size offset)) 0)
              (elem (errArr w g
                (preadCall (usedFds w g s path O_RDONLY fi) size offset)) 0),
             w.buf (preadCall (usedFds w g s path O_RDONLY fi) size offset 0))) := by
  cases fi with
  | none =>
      obtain ⟨e1, h⟩ := mirrorfs_read_nohandle_run w g path buf size offset s
        ((fdsObtained_none w g path O_RDONLY).mp hobt)
      rw [h]
      rfl
  | some f =>
      obtain ⟨e1, h⟩ := mirrorfs_read_handle_run w g path buf size offset f s hobt
      rw [h]
      rfl

theorem replicas_congr (g1 g2 : Globals) (h : g1.mntpath_count = g2.mntpath_count) :
    replicas g2 = replicas g1 := by
  unfold replicas
  rw [h]

theorem others_congr (g1 g2 : Globals) (h : g1.mntpath_count = g2.mntpath_count) :
    others g2 = others g1 := by
  unfold others
  rw [h]

theorem resArr_congr (w : World) (g1 g2 : Globals) (call : Nat → Syscall)
    (h : g1.mntpath_count = g2.mntpath_count) : resArr w g2 call = resArr w g1 call := by
  unfold resArr
  rw [replicas_congr g1 g2 h]

theorem errArr_congr (w : World) (g1 g2 : Globals) (call : Nat → Syscall)
    (h : g1.mntpath_count = g2.mntpath_count) : errArr w g2 call = errArr w g1 call := by
  unfold errArr
  rw [replicas_congr g1 g2 h]

theorem callEvents_congr (g1 g2 : Globals) (call : Nat → Syscall)
    (h : g1.mntpath_count = g2.mntpath_count) : callEvents g2 call = callEvents g1 call := by
  unfold callEvents
  rw [replicas_congr g1 g2 h]

theorem fdsOf_congr (g1 g2 : Globals) (s : State) (fh : Nat)
    (h : g1.mntpath_count = g2.mntpath_count) : fdsOf g2 s fh = fdsOf g1 s fh := by
  unfold fdsOf
  rw [others_congr g1 g2 h]

theorem slotsInRange_congr (g1 g2 : Globals) (fh : Nat)
    (h : g1.mntpath_count = g2.mntpath_count) :
    slotsInRange g2 fh = slotsInRange g1 fh := by
  unfold slotsInRange
  rw [others_congr g1 g2 h]

theorem payload_flag_free (w : World) (g1 g2 : Globals) (func : String)
    (call : Nat → Syscall) (h : g1.mntpath_count = g2.mntpath_count)
    (hscalar : ∀ i, i < g1.mntpath_count →
      w.ret (call i) = w.ret (call 0) ∧ errnoOf w (call i) = errnoOf w (call 0)) :
    payloadAbort g2 (resArr w g2 call) (errArr w g2 call) (fun i => w.buf (call i))
        = payloadAbort g1 (resArr w g1 call) (errArr w g1 call) (fun i => w.buf (call i))
      ∧ payloadEvents g2 func (resArr w g2 call) (errArr w g2 call) (fun i => w.buf (call i))
        = payloadEvents g1 func (resArr w g1 call) (errArr w g1 call)
            (fun i => w.buf (call i)) := by
  have hq : ∀ g : Globals, g.mntpath_count = g1.mntpath_count →
      ∀ i ∈ others g, elem (resArr w g call) i = elem (resArr w g call) 0 ∧
        elem (errArr w g call) i = elem (errArr w g call) 0 := by
    intro g hg i hi
    obtain ⟨hi1, hi2⟩ := (mem_others g i).mp hi
    rw [resArr_elem w g call i hi2, resArr_elem w g call 0 (by omega),
      errArr_elem w g call i hi2, errArr_elem w g call 0 (by omega)]
    exact hscalar i (by omega)
  have q1 := payload_quiet g1 func _ _ (fun i => w.buf (call i)) (hq g1 rfl)
  have q2 := payload_quiet g2 func _ _ (fun i => w.buf (call i)) (hq g2 h.symm)
  rw [q1.1, q1.2, q2.1, q2.2, resArr_congr w g1 g2 call h, others_congr g1 g2 h]
  exact ⟨rfl, rfl⟩

theorem mirrorfs_read_flag_free (w : World) (g1 g2 : Globals) (path : CString)
    (buf : Buffer) (size : Nat) (offset : Int) (fi : Option FuseFileInfo) (s : State)
    (h : g1.mntpath_count = g2.mntpath_count)
    (hscalar : ∀ i, i < g1.mntpath_count →
      w.ret (preadCall (usedFds w g1 s path O_RDONLY fi) size offset i)
          = w.ret (preadCall (usedFds w g1 s path O_RDONLY fi) size offset 0) ∧
        errnoOf w (preadCall (usedFds w g1 s path O_RDONLY fi) size offset i)
          = errnoOf w (preadCall (usedFds w g1 s path O_RDONLY fi) size offset 0)) :
    (mirrorfs_read w g2 path buf size offset fi s).res
        = (mirrorfs_read w g1 path buf size offset fi s).res ∧
      (mirrorfs_read w g2 path buf size offset fi s).events
        = (mirrorfs_read w g1 path buf size offset fi s).events := by
  cases fi with
  | none =>
      simp only [usedFds] at hscalar
      cases hff : firstFailure w (openatCall path O_RDONLY) (replicas g1) with
      | some i =>
          rw [mirrorfs_read_nohandle_fail w g1 path buf size offset s i hff,
            mirrorfs_read_nohandle_fail w g2 path buf size offset s i
              (by rw [replicas_congr g1 g2 h]; exact hff),
            replicas_congr g1 g2 h]
          exact ⟨rfl, rfl⟩
      | none =>
          have hok1 := (firstFailure_none _ _ _).mp hff
          have hok2 : ∀ i ∈ replicas g2, w.ret (openatCall path O_RDONLY i) ≠ -1 := by
            rw [replicas_congr g1 g2 h]; exact hok1
          obtain ⟨e1, r1⟩ := mirrorfs_read_nohandle_run w g1 path buf size offset s hok1
          obtain ⟨e2, r2⟩ := mirrorfs_read_nohandle_run w g2 path buf size offset s hok2
          rw [r1, r2, resArr_congr w g1 g2 (openatCall path O_RDONLY) h]
          obtain ⟨p1, p2⟩ := payload_flag_free w g1 g2 "mirrorfs_read"
            (preadCall (resArr w g1 (openatCall path O_RDONLY)) size offset) h hscalar
          rw [p1, p2, resArr_congr w g1 g2 _ h, errArr_congr w g1 g2 _ h,
            callEvents_congr g1 g2 _ h, callEvents_congr g1 g2 _ h, ← h]
          exact ⟨rfl, rfl⟩
  | some f =>
      simp only [usedFds] at hscalar
      cases hr : slotsInRange g1 f.fh with
      | false =>
          rw [mirrorfs_read_handle_range w g1 path buf size offset f s hr,
            mirrorfs_read_handle_range w g2 path buf size offset f s
              (by rw [slotsInRange_congr g1 g2 f.fh h]; exact hr)]
          exact ⟨rfl, rfl⟩
      | true =>
          obtain ⟨e1, r1⟩ := mirrorfs_read_handle_run w g1 path buf size offset f s hr
          obtain ⟨e2, r2⟩ := mirrorfs_read_handle_run w g2 path buf size offset f s
            (by rw [slotsInRange_congr g1 g2 f.fh h]; exact hr)
          rw [r1, r2, fdsOf_congr g1 g2 s f.fh h]
          obtain ⟨p1, p2⟩ := payload_flag_free w g1 g2 "mirrorfs_read"
            (preadCall (fdsOf g1 s f.fh) size offset) h hscalar
          rw [p1, p2, resArr_congr w g1 g2 _ h, errArr_congr w g1 g2 _ h,
            callEvents_congr g1 g2 _ h]
          exact ⟨rfl, rfl⟩

theorem mirrorfs_readlink_flag_free (w : World) (g1 g2 : Globals) (path : CString)
    (buf : Buffer) (size : Nat) (s : State)
    (h : g1.mntpath_count = g2.mntpath_count)
    (hscalar : ∀ i, i < g1.mntpath_count →
      w.ret (readlinkatCall path size i) = w.ret (readlinkatCall path size 0) ∧
        errnoOf w (readlinkatCall path size i) = errnoOf w (readlinkatCall path size 0)) :
    (mirrorfs_readlink w g2 path buf size s).res
        = (mirrorfs_readlink w g1 path buf size s).res ∧
      (mirrorfs_readlink w g2 path buf size s).events
        = (mirrorfs_readlink w g1 path buf size s).events := by
  obtain ⟨e1, r1⟩ := mirrorfs_readlink_run w g1 path buf size s
  obtain ⟨e2, r2⟩ := mirrorfs_readlink_run w g2 path buf size s
  rw [r1, r2]
  obtain ⟨p1, p2⟩ := payload_flag_free w g1 g2 "mirrorfs_readlink"
    (readlinkatCall path size) h hscalar
  rw [p1, p2, resArr_congr w g1 g2 _ h, errArr_congr w g1 g2 _ h,
    callEvents_congr g1 g2 _ h]
  exact ⟨rfl, rfl⟩

/-- C3: payload divergences are always fatal.  For every configuration (both values of
`abort_on_difference`): when `read` gets as far as its `pread` calls, replica 0's `pread`
returned a byte count `ret ≥ 0` and the first `ret` bytes of some replica's buffer differ
from replica 0's, `read` aborts; likewise `readlink` with `readlinkat`.  And the flag
matters for return-value and error-code divergences only: when every replica reports the
same return value and error code, two configurations that differ only in
`abort_on_difference` give `read` (and `readlink`) the same outcome and the same
events. -/
theorem payload_divergence_is_fatal (w : World) (path : CString) (buf : Buffer)
    (size : Nat) (offset : Int) (s : State) :
    (∀ (g : Globals) (fi : Option FuseFileInfo) (i : Nat),
      fdsObtained w g path O_RDONLY fi = true → 1 ≤ i → i < g.mntpath_count →
      0 ≤ w.ret (preadCall (usedFds w g s path O_RDONLY fi) size offset 0) →
      w.ret (preadCall (usedFds w g s path O_RDONLY fi) size offset 0) < 2147483648 →
      payloadMismatch (w.ret (preadCall (usedFds w g s path O_RDONLY fi) size offset 0))
        (w.buf (preadCall (usedFds w g s path O_RDONLY fi) size offset 0))
        (w.buf (preadCall (usedFds w g s path O_RDONLY fi) size offset i)) →
      (mirrorfs_read w g path buf size offset fi s).res = Res.aborted) ∧
    (∀ (g : Globals) (i : Nat), 1 ≤ i → i < g.mntpath_count →
      0 ≤ w.ret (readlinkatCall path size 0) →
      w.ret (readlinkatCall path size 0) < 2147483648 →
      payloadMismatch (w.ret (readlinkatCall path size 0))
        (w.buf (readlinkatCall path size 0)) (w.buf (readlinkatCall path size i)) →
      (mirrorfs_readlink w g path buf size s).res = Res.aborted) ∧
    (∀ (g1 g2 : Globals) (fi : Option FuseFileInfo),
      g1.mntpath_count = g2.mntpath_count →
      (∀ i, i < g1.mntpath_count →
        w.ret (preadCall (usedFds w g1 s path O_RDONLY fi) size offset i)
            = w.ret (preadCall (usedFds w g1 s path O_RDONLY fi) size offset 0) ∧
          errnoOf w (preadCall (usedFds w g1 s path O_RDONLY fi) size offset i)
            = errnoOf w (preadCall (usedFds w g1 s path O_RDONLY fi) size offset 0)) →
      (mirrorfs_read w g2 path buf size offset fi s).res
          = (mirrorfs_read w g1 path buf size offset fi s).res ∧
        (mirrorfs_read w g2 path buf size offset fi s).events
          = (mirrorfs_read w g1 path buf size offset fi s).events) ∧
    (∀ (g1 g2 : Globals), g1.mntpath_count = g2.mntpath_count →
      (∀ i, i < g1.mntpath_count →
        w.ret (readlinkatCall path size i) = w.ret (readlinkatCall path size 0) ∧
          errnoOf w (readlinkatCall path size i)
            = errnoOf w (readlinkatCall path size 0)) →
      (mirrorfs_readlink w g2 path buf size s).res
          = (mirrorfs_readlink w g1 path buf size s).res ∧
        (mirrorfs_readlink w g2 path buf size s).events
          = (mirrorfs_readlink w g1 path buf size s).events) := by
  refine ⟨?_, ?_, ?_, ?_⟩
  · intro g fi i hobt h1 h2 hr0 hr1 hm
    rw [mirrorfs_read_res w g path buf size offset fi s hobt]
    generalize preadCall (usedFds w g s path O_RDONLY fi) size offset = call at *
    rw [payloadAbort_of_differs g _ _ _ i ((mem_others g i).mpr ⟨h1, h2⟩) (by
      rw [resArr_elem w g call 0 (by omega)]
      exact (payloadDiffers_iff _ _ _ hr0 (by omega)).mpr hm)]
    rfl
  · intro g i h1 h2 hr0 hr1 hm
    obtain ⟨e1, hrun⟩ := mirrorfs_readlink_run w g path buf size s
    rw [hrun]
    generalize readlinkatCall path size = call at *
    rw [payloadAbort_of_differs g _ _ _ i ((mem_others g i).mpr ⟨h1, h2⟩) (by
      rw [resArr_elem w g call 0 (by omega)]
      exact (payloadDiffers_iff _ _ _ hr0 (by omega)).mpr hm)]
    rfl
  · intro g1 g2 fi h hscalar
    exact mirrorfs_read_flag_free w g1 g2 path buf size offset fi s h hscalar
  · intro g1 g2 h hscalar
    exact mirrorfs_readlink_flag_free w g1 g2 path buf size s h hscalar

/-- Two replicas hold `aa` and `bb`; `read` of two bytes through a handle aborts although
`abort_on_difference` is off. -/
theorem payload_divergence_is_fatal_witness :
    (mirrorfs_read worldPayload twoReplicasNoAbort ['/', 'x'] (fun _ => 0) 2 0
      (some handleTwo) stateHandleTwo).res = Res.aborted :=
  (payload_divergence_is_fatal worldPayload ['/', 'x'] (fun _ => 0) 2 0 stateHandleTwo).1
    twoReplicasNoAbort (some handleTwo) 1 (by decide) (by decide) (by decide) (by decide)
    (by decide) ⟨0, by decide, by decide⟩

/-! ## Open and create (C4) -/

theorem ABORT_IF_INCONSISTENT_FD_run (func : String) (i : Nat) (fd1 fd2 : Int) (s : State) :
    ABORT_IF_INCONSISTENT_FD func i fd1 fd2 s
      = checkOut (fdInconsistent fd1 fd2)
          (if fdInconsistent fd1 fd2 then [Event.inconsistentFd func fd1 fd2 i] else []) s := by
  unfold ABORT_IF_INCONSISTENT_FD fdInconsistent
  cases h : xor (decide (fd1 = -1)) (decide (fd2 = -1)) <;>
    simp [h, checkOut, emit, abort, bind, M.bind, pure, M.pure]

theorem fdLoop_run (g : Globals) (func : String) (fds errnos : List Int) (s : State) :
    forEach (others g) (fun i => do
        ABORT_IF_INCONSISTENT_FD func i (elem fds 0) (elem fds i)
        ABORT_IF_NOT_EQUAL g func "errnos[0]" i (elem errnos 0) (elem errnos i)) s
      = checkOut (fdAbort g fds errnos) (fdEvents g func fds errnos) s := by
  unfold fdAbort fdEvents
  apply forEach_checks
  intro i _
  exact checkOut_seq _ _ _ _ _ _ s (ABORT_IF_INCONSISTENT_FD_run ..)
    (ABORT_IF_NOT_EQUAL_check ..)

theorem openOp_run (w : World) (g : Globals) (func : String) (call : Nat → Syscall)
    (fi : FuseFileInfo) (s : State) :
    ∃ e1, openOp w g func call fi s
      = (if fdAbort g (resArr w g call) (errArr w g call) then
          ⟨Res.aborted, ⟨e1, s.mirror_fds⟩,
            callEvents g call ++ fdEvents g func (resArr w g call) (errArr w g call)⟩
        else if elem (resArr w g call) 0 = -1 then
          ⟨Res.ret (-(elem (errArr w g call) 0), fi), ⟨e1, s.mirror_fds⟩,
            callEvents g call ++ fdEvents g func (resArr w g call) (errArr w g call)⟩
        else
          ⟨Res.map (fun _ => ((0 : Int), { fi with fh := toU64 (elem (resArr w g call) 0) }))
              (installHandle g func (toU64 (elem (resArr w g call) 0)) (resArr w g call)
                ⟨e1, s.mirror_fds⟩).res,
            (installHandle g func (toU64 (elem (resArr w g call) 0)) (resArr w g call)
                ⟨e1, s.mirror_fds⟩).state,
            callEvents g call ++ (fdEvents g func (resArr w g call) (errArr w g call)
              ++ (installHandle g func (toU64 (elem (resArr w g call) 0)) (resArr w g call)
                ⟨e1, s.mirror_fds⟩).events)⟩) := by
  obtain ⟨e1, rs, h, hres, herr⟩ := fanout_arrays w g call s
  refine ⟨e1, ?_⟩
  unfold openOp
  rw [run_bind_ret _ _ s _ _ _ h]
  simp only [hres, herr]
  cases hab : fdAbort g (resArr w g call) (errArr w g call) with
  | true =>
      rw [run_bind_aborted _ _ _ _ _ (by rw [fdLoop_run, hab]; rfl)]
      simp
  | false =>
      rw [run_bind_ret _ _ _ _ _ _ (by rw [fdLoop_run, hab]; rfl)]
      by_cases h0 : elem (resArr w g call) 0 = -1
      · simp [h0, run_pure]
      · simp only [h0, if_false, Bool.false_eq_true]
        generalize hinst : installHandle g func (toU64 (elem (resArr w g call) 0))
          (resArr w g call) ⟨e1, s.mirror_fds⟩ = o
        obtain ⟨r, st, ev⟩ := o
        cases r with
        | ret u =>
            rw [run_bind_ret _ _ _ _ _ _ hinst]
            simp [run_pure, Res.map]
        | aborted =>
            rw [run_bind_aborted _ _ _ _ _ hinst]
            simp [Res.map]
        | undefined =>
            rw [run_bind_undefined _ _ _ _ _ hinst]
            simp [Res.map]

theorem slot_inj (fh i j : Nat) (hi : i < U64_MOD) (hj : j < U64_MOD)
    (h : slot fh i = slot fh j) : i = j := by
  unfold slot U64_MOD MAX_MNTPATHS at *
  omega

theorem slot_small (fh i : Nat) (hi : 1 ≤ i) (h : fh * 9 + i - 1 < U64_MOD) :
    slot fh i = fh * 9 + i - 1 := by
  unfold slot U64_MOD MAX_MNTPATHS at *
  omega

theorem others_pairwise (g : Globals) (fh : Nat) (hn : g.mntpath_count ≤ U64_MOD) :
    (others g).Pairwise (fun i j => slot fh i ≠ slot fh j) := by
  have hlt : (others g).Pairwise (· < ·) := by
    unfold others
    exact List.pairwise_lt_range' 1 (g.mntpath_count - 1)
  refine List.Pairwise.imp_of_mem ?_ hlt
  intro i j hi hj hij heq
  have h1 := ((mem_others g i).mp hi).2
  have h2 := ((mem_others g j).mp hj).2
  have := slot_inj fh i j (by omega) (by omega) heq
  omega

theorem installed_other (key : Nat → Nat) (is : List Nat) (fds : List Int) (t : Nat → Int)
    (k : Nat) (h : ∀ i ∈ is, key i ≠ k) : installed key is fds t k = t k := by
  induction is generalizing t with
  | nil => rfl
  | cons i rest ih =>
      unfold installed
      rw [ih _ (fun j hj => h j (List.mem_cons_of_mem i hj))]
      have hi := h i (List.mem_cons_self i rest)
      rw [if_neg (fun hk => hi hk.symm)]

theorem installed_at (key : Nat → Nat) (is : List Nat) (fds : List Int) (t : Nat → Int)
    (hinj : is.Pairwise (fun i j => key i ≠ key j)) (i : Nat) (hi : i ∈ is) :
    installed key is fds t (key i) = elem fds i := by
  induction is generalizing t with
  | nil => cases hi
  | cons j rest ih =>
      unfold installed
      rw [List.pairwise_cons] at hinj
      cases List.mem_cons.mp hi with
      | inl hij =>
          subst hij
          rw [installed_other key rest fds _ _ (fun k hk heq => hinj.1 k hk heq.symm)]
          rw [if_pos rfl]
      | inr hmem => exact ih _ hinj.2 hmem

theorem installHandle_loop_ok (func : String) (key : Nat → Nat) (fds : List Int)
    (is : List Nat) (s : State) (hr : ∀ i ∈ is, key i < MIRROR_FDS_LEN)
    (hfree : ∀ i ∈ is, s.mirror_fds (key i) = -1)
    (hinj : is.Pairwise (fun i j => key i ≠ key j)) :
    forEach is (fun i => do
        let v ← readSlot (key i)
        if v ≠ -1 then do
          emit (Event.assertFailed func (key i))
          abort
        else writeSlot (key i) (elem fds i)) s
      = ⟨Res.ret (), ⟨s.errno, installed key is fds s.mirror_fds⟩, []⟩ := by
  induction is generalizing s with
  | nil => rfl
  | cons i rest ih =>
      have hri := hr i (List.mem_cons_self i rest)
      have hfi := hfree i (List.mem_cons_self i rest)
      rw [List.pairwise_cons] at hinj
      rw [forEach_cons]
      rw [run_bind_ret _ _ s
        ⟨s.errno, fun j => if j = key i then elem fds i else s.mirror_fds j⟩ () [] (by
          rw [run_bind_ret _ _ s s (s.mirror_fds (key i)) [] (by simp [readSlot, hri])]
          simp [hfi, writeSlot, hri])]
      rw [ih _ (fun j hj => hr j (List.mem_cons_of_mem i hj))
        (fun j hj => by
          show (if key j = key i then elem fds i else s.mirror_fds (key j)) = -1
          rw [if_neg (fun heq => hinj.1 j hj heq.symm)]
          exact hfree j (List.mem_cons_of_mem i hj))
        hinj.2]
      rfl

theorem installHandle_ok (g : Globals) (func : String) (fh : Nat) (fds : List Int)
    (s : State) (hn : g.mntpath_count ≤ U64_MOD) (hr : slotsInRange g fh = true)
    (hfree : slotsFree g s fh = true) :
    installHandle g func fh fds s
      = ⟨Res.ret (), ⟨s.errno, installed (slot fh) (others g) fds s.mirror_fds⟩, []⟩ := by
  unfold installHandle
  apply installHandle_loop_ok func (slot fh)
  · intro i hi
    simpa using (List.all_eq_true.mp hr) i hi
  · intro i hi
    simpa using (List.all_eq_true.mp hfree) i hi
  · exact others_pairwise g fh hn

theorem fdEvents_quiet (g : Globals) (func : String) (fds errnos : List Int)
    (h : ∀ i ∈ others g, fdInconsistent (elem fds 0) (elem fds i) = false ∧
      elem errnos i = elem errnos 0) :
    fdAbort g fds errnos = false ∧ fdEvents g func fds errnos = [] := by
  have hround : ∀ i ∈ others g,
      fdRoundAborts g fds errnos i = false ∧ fdRoundEvents func fds errnos i = [] := by
    intro i hi
    obtain ⟨h1, h2⟩ := h i hi
    simp [fdRoundAborts, fdRoundEvents, neqAborts, neqEvents, h1, h2]
  constructor
  · unfold fdAbort
    rw [List.any_eq_false]
    intro i hi
    simp [(hround i hi).1]
  · exact loopEvents_quiet _ _ _ hround

theorem openOp_policy (w : World) (g : Globals) (func : String) (call : Nat → Syscall)
    (fi : FuseFileInfo) (s : State) (h1 : 1 ≤ g.mntpath_count)
    (h2 : g.mntpath_count ≤ MAX_MNTPATHS) :
    OpenPolicy w g call fi s (openOp w g func call fi s) := by
  obtain ⟨e1, hrun⟩ := openOp_run w g func call fi s
  have hr0 := resArr_elem w g call 0 (by omega)
  have he0 := errArr_elem w g call 0 (by omega)
  have hscalar : (∀ i, i < g.mntpath_count → errnoOf w (call i) = errnoOf w (call 0)) →
      ∀ i ∈ others g, elem (errArr w g call) i = elem (errArr w g call) 0 := by
    intro h i hi
    have hi2 := ((mem_others g i).mp hi).2
    rw [errArr_elem w g call i hi2, he0]
    exact h i hi2
  refine ⟨?_, ?_, ?_⟩
  · intro i hi1 hi2 hx
    have hab : fdAbort g (resArr w g call) (errArr w g call) = true := by
      unfold fdAbort
      rw [List.any_eq_true]
      refine ⟨i, (mem_others g i).mpr ⟨hi1, hi2⟩, ?_⟩
      unfold fdRoundAborts fdInconsistent
      rw [hr0, resArr_elem w g call i hi2]
      rcases hx with ⟨ha, hb⟩ | ⟨ha, hb⟩ <;> simp [ha, hb]
    rw [hrun, hab]
    rfl
  · intro hsucc herr hint hrange hfree
    have hq := fdEvents_quiet g func (resArr w g call) (errArr w g call) (by
      intro i hi
      have hi2 := ((mem_others g i).mp hi).2
      refine ⟨?_, hscalar herr i hi⟩
      unfold fdInconsistent
      rw [hr0, resArr_elem w g call i hi2]
      have ha := hsucc 0 (by omega)
      have hb := hsucc i hi2
      have ha1 : w.ret (call 0) ≠ -1 := by omega
      have hb1 : w.ret (call i) ≠ -1 := by omega
      simp [ha1, hb1])
    have hne : ¬ elem (resArr w g call) 0 = -1 := by
      rw [hr0]
      have := hsucc 0 (by omega)
      omega
    have hfh : toU64 (elem (resArr w g call) 0) = (w.ret (call 0)).toNat := by
      rw [hr0]
      exact toU64_of_nonneg _ (hsucc 0 (by omega)) (by omega)
    rw [hrun, hq.1, hq.2]
    simp only [Bool.false_eq_true, if_false, hne, hfh]
    rw [installHandle_ok g func _ _ ⟨e1, s.mirror_fds⟩
      (by unfold MAX_MNTPATHS at h2; unfold U64_MOD; omega) hrange hfree]
    simp [Res.map]
  · intro hfail herr
    have hq := fdEvents_quiet g func (resArr w g call) (errArr w g call) (by
      intro i hi
      have hi2 := ((mem_others g i).mp hi).2
      refine ⟨?_, hscalar herr i hi⟩
      unfold fdInconsistent
      rw [hr0, resArr_elem w g call i hi2, hfail 0 (by omega), hfail i hi2]
      rfl)
    have h0 : elem (resArr w g call) 0 = -1 := by rw [hr0]; exact hfail 0 (by omega)
    rw [hrun, hq.1, hq.2]
    simp [h0, he0]

/-- C4 (amended): `open` and `create` compare only whether the descriptors are -1, and the
error code.  For every configuration with between 1 and `MAX_MNTPATHS` replicas, both
satisfy `OpenPolicy`: they abort whenever exactly one of replica 0's and replica `i`'s
descriptors is -1; when all replicas succeed with the same error code and the elements of
`mirror_fds` of the new handle are inside the array and free, they return 0 with replica
0's descriptor as the handle and without any diagnostic, however the descriptor values
differ; when all replicas fail with the same error code they return the negated error code
and install nothing. -/
theorem open_create_policy (w : World) (g : Globals) (path : CString) (mode : Int)
    (fi : FuseFileInfo) (s : State) (h1 : 1 ≤ g.mntpath_count)
    (h2 : g.mntpath_count ≤ MAX_MNTPATHS) :
    OpenPolicy w g (fun i => Syscall.openat i (safe_path path) fi.flags none) fi s
        (mirrorfs_open w g path fi s) ∧
      OpenPolicy w g (fun i => Syscall.openat i (safe_path path) fi.flags (some mode)) fi s
        (mirrorfs_create w g path mode fi s) :=
  ⟨openOp_policy w g "mirrorfs_open" _ fi s h1 h2,
    openOp_policy w g "mirrorfs_create" _ fi s h1 h2⟩

/-- On a fresh table, opening `b` on two replicas that answer the descriptors 3 and 5
returns 0 with the handle 3 and no diagnostic. -/
theorem open_create_policy_witness :
    (mirrorfs_open worldReopen twoReplicas ['/', 'b'] fiFresh State.init).res
        = Res.ret (0, { fiFresh with fh := 3 }) ∧
      (mirrorfs_open worldReopen twoReplicas ['/', 'b'] fiFresh State.init).events
        = callEvents twoReplicas
            (fun i => Syscall.openat i (safe_path ['/', 'b']) fiFresh.flags none) :=
  (open_create_policy worldReopen twoReplicas ['/', 'b'] 0 fiFresh State.init
    (by decide) (by decide)).1.2.1
    (by intro i hi; have h2 : i < 2 := hi; interval_cases i <;> decide)
    (fun _ _ => rfl) (by decide) (by decide) (by decide)

/-- Counterexample to C4 as stated: both replicas succeed (descriptors 3 and 5) with the
same error code, yet `open` aborts, on the failed `assert`, because the element of
`mirror_fds` of the handle 3 is still occupied. -/
theorem open_aborts_when_entry_exists :
    worldReopen.ret (Syscall.openat 0 (safe_path ['/', 'b']) fiFresh.flags none) = 3 ∧
    worldReopen.ret (Syscall.openat 1 (safe_path ['/', 'b']) fiFresh.flags none) = 5 ∧
    errnoOf worldReopen (Syscall.openat 0 (safe_path ['/', 'b']) fiFresh.flags none)
      = errnoOf worldReopen (Syscall.openat 1 (safe_path ['/', 'b']) fiFresh.flags none) ∧
    (mirrorfs_open worldReopen twoReplicas ['/', 'b'] fiFresh stateStale).res
      = Res.aborted ∧
    (mirrorfs_open worldReopen twoReplicasNoAbort ['/', 'b'] fiFresh stateStale).res
      = Res.aborted ∧
    (mirrorfs_open worldReopen twoReplicas ['/', 'b'] fiFresh stateStale).events
      = [Event.call (Syscall.openat 0 (some ['b']) 0 none),
         Event.call (Syscall.openat 1 (some ['b']) 0 none),
         Event.assertFailed "mirrorfs_open" 27] := by
  refine ⟨by decide, by decide, by decide, by decide, by decide, by decide⟩

/-! ## Release (C5) -/

/-- C5 fails on the code: on two replicas `open` answers the handle 3 and stores the
second descriptor 4 in `mirror_fds[27]`; `release` of the handle 3 then closes the
descriptors -1 (what it finds in `mirror_fds[3]`) and 3, never closes 4, and leaves
`mirror_fds[27]` at 4; the next `open` that gets the canonical descriptor 3 aborts on the
`entry already exists` assertion. -/
theorem release_leaves_handle_installed :
    afterOpen.res = Res.ret (0, ⟨0, 3⟩) ∧
    afterOpen.state.mirror_fds 27 = 4 ∧
    afterRelease.res = Res.ret 0 ∧
    afterRelease.events
      = [Event.call (Syscall.close (-1)), Event.call (Syscall.close 3)] ∧
    afterRelease.state.mirror_fds 27 = 4 ∧
    (mirrorfs_open worldReopen twoReplicas ['/', 'b'] fiFresh afterRelease.state).res
      = Res.aborted := by
  refine ⟨by decide, by decide, by decide, by decide, by decide, by decide⟩

/-! ## The handle round trip (C6) -/

theorem installHandle_loop_ret (func : String) (key : Nat → Nat) (fds : List Int)
    (is : List Nat) (s : State)
    (h : (forEach is (fun i => do
        let v ← readSlot (key i)
        if v ≠ -1 then do
          emit (Event.assertFailed func (key i))
          abort
        else writeSlot (key i) (elem fds i)) s).res = Res.ret ()) :
    (forEach is (fun i => do
        let v ← readSlot (key i)
        if v ≠ -1 then do
          emit (Event.assertFailed func (key i))
          abort
        else writeSlot (key i) (elem fds i)) s).state.mirror_fds
      = installed key is fds s.mirror_fds := by
  induction is generalizing s with
  | nil => rfl
  | cons i rest ih =>
      rw [forEach_cons] at h ⊢
      by_cases hri : key i < MIRROR_FDS_LEN
      · by_cases hfi : s.mirror_fds (key i) = -1
        · have hstep : (do
              let v ← readSlot (key i)
              if v ≠ -1 then do
                emit (Event.assertFailed func (key i))
                abort
              else writeSlot (key i) (elem fds i) : M Unit) s
              = ⟨Res.ret (),
                  ⟨s.errno, fun j => if j = key i then elem fds i else s.mirror_fds j⟩,
                  []⟩ := by
            rw [run_bind_ret _ _ s s (s.mirror_fds (key i)) [] (by simp [readSlot, hri])]
            simp [hfi, writeSlot, hri]
          rw [run_bind_ret _ _ s _ _ _ hstep] at h ⊢
          exact ih _ h
        · have hstep : (do
              let v ← readSlot (key i)
              if v ≠ -1 then do
                emit (Event.assertFailed func (key i))
                abort
              else writeSlot (key i) (elem fds i) : M Unit) s
              = ⟨Res.aborted, s, [Event.assertFailed func (key i)]⟩ := by
            rw [run_bind_ret _ _ s s (s.mirror_fds (key i)) [] (by simp [readSlot, hri])]
            simp [hfi, emit, abort, bind, M.bind]
          rw [run_bind_aborted _ _ s _ _ hstep] at h
          cases h
      · have hstep : (do
            let v ← readSlot (key i)
            if v ≠ -1 then do
              emit (Event.assertFailed func (key i))
              abort
            else writeSlot (key i) (elem fds i) : M Unit) s
            = ⟨Res.undefined, s, []⟩ := by
          rw [run_bind_undefined _ _ s s [] (by simp [readSlot, hri])]
        rw [run_bind_undefined _ _ s _ _ hstep] at h
        cases h

theorem installHandle_ret (g : Globals) (func : String) (fh : Nat) (fds : List Int)
    (s : State) (h : (installHandle g func fh fds s).res = Res.ret ()) :
    (installHandle g func fh fds s).state.mirror_fds
      = installed (slot fh) (others g) fds s.mirror_fds :=
  installHandle_loop_ret func (slot fh) fds (others g) s h

theorem elem_cons_range' (x : Int) (f : Nat → Int) (n i : Nat) (h1 : 1 ≤ i) (h2 : i < n) :
    elem (x :: (List.range' 1 (n - 1)).map f) i = f i := by
  unfold elem
  obtain ⟨k, rfl⟩ : ∃ k, i = k + 1 := ⟨i - 1, by omega⟩
  rw [List.getD_cons_succ, List.getD_eq_getElem _ _ (by simp; omega)]
  simp [List.getElem_range']
  congr 1
  omega

theorem fdsOf_succ (g : Globals) (s : State) (fh i : Nat) (h1 : 1 ≤ i)
    (h2 : i < g.mntpath_count) : elem (fdsOf g s fh) i = s.mirror_fds (slot fh i) := by
  unfold fdsOf others
  generalize toInt32 fh = x
  exact elem_cons_range' x (fun i => s.mirror_fds (slot fh i)) _ i h1 h2

theorem toInt32_toNat (r : Int) (h0 : 0 ≤ r) (h1 : r < 2147483648) :
    toInt32 (r.toNat : Nat) = r := by
  rw [Int.toNat_of_nonneg h0]
  unfold toInt32
  omega

theorem mem_loopEvents (is : List Nat) (ab : Nat → Bool) (ev : Nat → List Event)
    (e : Event) (h : e ∈ loopEvents is ab ev) : ∃ i ∈ is, e ∈ ev i := by
  induction is with
  | nil => cases h
  | cons i rest ih =>
      simp only [loopEvents, List.mem_append] at h
      rcases h with h | h
      · exact ⟨i, List.mem_cons_self i rest, h⟩
      · split at h
        · cases h
        · obtain ⟨j, hj, he⟩ := ih h
          exact ⟨j, List.mem_cons_of_mem i hj, he⟩

theorem neqEvents_isNotEqual (func expr : String) (i : Nat) (x y : Int) (e : Event)
    (h : e ∈ neqEvents func expr i x y) : e.isNotEqual = true := by
  unfold neqEvents at h
  split at h
  · simp only [List.mem_singleton] at h
    subst h
    rfl
  · cases h

theorem roundEvents_isNotEqual (g : Globals) (func : String) (res errnos : List Int)
    (i : Nat) (e : Event) (h : e ∈ roundEvents g func res errnos i) :
    e.isNotEqual = true := by
  unfold roundEvents at h
  rw [List.mem_append] at h
  rcases h with h | h
  · exact neqEvents_isNotEqual _ _ _ _ _ e h
  · split at h
    · cases h
    · exact neqEvents_isNotEqual _ _ _ _ _ e h

theorem callEvents_congr_calls (g : Globals) (c1 c2 : Nat → Syscall)
    (h : ∀ i, i < g.mntpath_count → c1 i = c2 i) : callEvents g c1 = callEvents g c2 := by
  unfold callEvents replicas
  apply List.map_congr_left
  intro i hi
  rw [h i (List.mem_range.mp hi)]

theorem openOp_roundtrip (w : World) (g : Globals) (func : String) (call : Nat → Syscall)
    (fi : FuseFileInfo) (s : State) (h1 : 1 ≤ g.mntpath_count)
    (h2 : g.mntpath_count ≤ MAX_MNTPATHS) :
    HandleRoundTrip w g call (openOp w g func call fi s) := by
  intro fi2 hret h0 h31 hrange s2 hs2
  obtain ⟨e1, hrun⟩ := openOp_run w g func call fi s
  have hr0 := resArr_elem w g call 0 (by omega)
  have hne : ¬ elem (resArr w g call) 0 = -1 := by rw [hr0]; omega
  have hfh : toU64 (elem (resArr w g call) 0) = (w.ret (call 0)).toNat := by
    rw [hr0]
    exact toU64_of_nonneg _ h0 (by omega)
  rw [hrun] at hret hs2
  cases hab : fdAbort g (resArr w g call) (errArr w g call) with
  | true =>
      rw [hab] at hret
      cases hret
  | false =>
      rw [hab] at hret hs2
      simp only [Bool.false_eq_true, if_false, hne, hfh] at hret hs2
      generalize hinst : installHandle g func (w.ret (call 0)).toNat (resArr w g call)
        ⟨e1, s.mirror_fds⟩ = o at hret hs2
      have hstate := installHandle_ret g func (w.ret (call 0)).toNat (resArr w g call)
        ⟨e1, s.mirror_fds⟩
      rw [hinst] at hstate
      obtain ⟨r, st, ev⟩ := o
      cases r with
      | aborted => cases hret
      | undefined => cases hret
      | ret u =>
          simp only [Res.map, Res.ret.injEq, Prod.mk.injEq, true_and] at hret
          subst hret
          have htable : s2.mirror_fds
              = installed (slot (w.ret (call 0)).toNat) (others g) (resArr w g call)
                  s.mirror_fds := by
            rw [hs2]
            exact hstate rfl
          have hfds : ∀ i, i < g.mntpath_count →
              elem (fdsOf g s2 (w.ret (call 0)).toNat) i = w.ret (call i) := by
            intro i hi
            by_cases hi0 : i = 0
            · subst hi0
              rw [fdsOf_zero, toInt32_toNat _ h0 h31]
            · rw [fdsOf_succ g s2 _ i (by omega) hi, htable,
                installed_at _ _ _ _
                  (others_pairwise g _ (by unfold MAX_MNTPATHS at h2; unfold U64_MOD; omega))
                  i ((mem_others g i).mpr ⟨by omega, hi⟩),
                resArr_elem w g call i hi]
          refine ⟨hfds, ?_⟩
          intro path buf size offset
          constructor
          · obtain ⟨e2, hread⟩ := mirrorfs_read_handle_run w g path buf size offset
              ⟨fi.flags, (w.ret (call 0)).toNat⟩ s2 hrange
            refine ⟨payloadEvents g "mirrorfs_read"
              (resArr w g (preadCall (fdsOf g s2 (w.ret (call 0)).toNat) size offset))
              (errArr w g (preadCall (fdsOf g s2 (w.ret (call 0)).toNat) size offset))
              (fun i => w.buf (preadCall (fdsOf g s2 (w.ret (call 0)).toNat) size offset i)),
              ?_, ?_⟩
            · rw [hread]
              show callEvents g _ ++ _ = callEvents g _ ++ _
              rw [callEvents_congr_calls g
                (preadCall (fdsOf g s2 (w.ret (call 0)).toNat) size offset)
                (fun i => Syscall.pread (w.ret (call i)) size offset)
                (fun i hi => by unfold preadCall; rw [hfds i hi])]
            · intro e he
              obtain ⟨i, _, hi⟩ := mem_loopEvents _ _ _ e he
              exact roundEvents_isNotEqual _ _ _ _ _ e hi
          · obtain ⟨e2, hwrite⟩ := mirrorfs_write_handle_run w g path buf size offset
              ⟨fi.flags, (w.ret (call 0)).toNat⟩ s2 hrange
            refine ⟨resultsEvents g "mirrorfs_write"
              (resArr w g (pwriteCall (fdsOf g s2 (w.ret (call 0)).toNat) buf size offset))
              (errArr w g (pwriteCall (fdsOf g s2 (w.ret (call 0)).toNat) buf size offset)),
              ?_, ?_⟩
            · rw [hwrite]
              show callEvents g _ ++ _ = callEvents g _ ++ _
              rw [callEvents_congr_calls g
                (pwriteCall (fdsOf g s2 (w.ret (call 0)).toNat) buf size offset)
                (fun i => Syscall.pwrite (w.ret (call i)) ((List.range size).map buf) size
                  offset)
                (fun i hi => by unfold pwriteCall; rw [hfds i hi])]
            · intro e he
              obtain ⟨i, _, hi⟩ := mem_loopEvents _ _ _ e he
              exact roundEvents_isNotEqual _ _ _ _ _ e hi

/-- C6: the handle round trip.  With between 1 and `MAX_MNTPATHS` replicas, when `open` or
`create` returned 0 after `openat` succeeded with the descriptors `fds[0..N-1]`, and the
indices `fds[0] * (MAX_MNTPATHS - 1) + i - 1` are inside `mirror_fds`, then a later `read`
or `write` called with the handle `fds[0]` on the same `mirror_fds` looks up exactly
`fds[i]` for every replica `i` and issues its `pread` or `pwrite` for replica `i` on
`fds[i]`. -/
theorem handle_round_trip (w : World) (g : Globals) (path : CString) (mode : Int)
    (fi : FuseFileInfo) (s : State) (h1 : 1 ≤ g.mntpath_count)
    (h2 : g.mntpath_count ≤ MAX_MNTPATHS) :
    HandleRoundTrip w g (fun i => Syscall.openat i (safe_path path) fi.flags none)
        (mirrorfs_open w g path fi s) ∧
      HandleRoundTrip w g (fun i => Syscall.openat i (safe_path path) fi.flags (some mode))
        (mirrorfs_create w g path mode fi s) :=
  ⟨openOp_roundtrip w g "mirrorfs_open" _ fi s h1 h2,
    openOp_roundtrip w g "mirrorfs_create" _ fi s h1 h2⟩

/-- After `open` of `a` on two replicas (descriptors 3 and 4), `read` with the handle 3
looks up the descriptor 4 for replica 1. -/
theorem handle_round_trip_witness :
    elem (fdsOf twoReplicas afterOpen.state 3) 1 = 4 :=
  ((handle_round_trip worldReopen twoReplicas ['/', 'a'] 0 fiFresh State.init
    (by decide) (by decide)).1 ⟨0, 3⟩ (by decide) (by decide) (by decide) (by decide)
    afterOpen.state rfl).1 1 (by decide)

/-! ## The value returned when opening fails (C7) -/

theorem openDirs_fail (w : World) (path : CString) (is : List Nat) (dirfds : List Int)
    (s : State) (i : Nat) (h : firstDirFailure w path is = some i) :
    openDirs w path is dirfds s
      = ⟨Res.ret (Except.error (-(errnoAfter w (failedDirCalls w path is dirfds i) s.errno))),
          ⟨errnoAfter w (failedDirCalls w path is dirfds i) s.errno, s.mirror_fds⟩,
          (failedDirCalls w path is dirfds i).map Event.call⟩ := by
  induction is generalizing s dirfds with
  | nil => simp [firstDirFailure] at h
  | cons j rest ih =>
      unfold openDirs
      rw [run_bind_ret _ _ s ⟨(w.err (openDirCall path j)).getD s.errno, s.mirror_fds⟩
        (w.ret (openDirCall path j)) [Event.call (openDirCall path j)] rfl]
      by_cases hj : w.ret (openDirCall path j) = -1
      · have hdo : dirOpens w path j = false := by simp [dirOpens, hj]
        have hij : j = i := by
          simpa [firstDirFailure, List.find?_cons, hdo] using h
        subst hij
        rw [if_pos hj]
        rw [run_bind_ret _ _ _ _ _ _ (closeFirst_run w j dirfds _)]
        simp [failedDirCalls, List.takeWhile_cons, hdo, hj, dirCallsOf, getErrno, run_pure,
          errnoAfter_append, errnoAfter_cons, errnoAfter, bind, M.bind, pure, M.pure]
      · rw [if_neg hj]
        rw [run_bind_ret _ _ _
          ⟨(w.err (Syscall.fdopendir (w.ret (openDirCall path j)))).getD
            ((w.err (openDirCall path j)).getD s.errno), s.mirror_fds⟩
          (w.ret (Syscall.fdopendir (w.ret (openDirCall path j))))
          [Event.call (Syscall.fdopendir (w.ret (openDirCall path j)))] rfl]
        by_cases hd : w.ret (Syscall.fdopendir (w.ret (openDirCall path j))) = 0
        · have hdo : dirOpens w path j = false := by simp [dirOpens, hj, hd]
          have hij : j = i := by
            simpa [firstDirFailure, List.find?_cons, hdo] using h
          subst hij
          rw [if_pos hd]
          rw [run_bind_ret _ _ _ _ _ _ (closeFirst_run w (j + 1) _ _)]
          simp [failedDirCalls, List.takeWhile_cons, hdo, hj, dirCallsOf, dirCalls, getErrno,
            run_pure, errnoAfter_append, errnoAfter_cons, errnoAfter, bind, M.bind, pure,
            M.pure]
        · have hdo : dirOpens w path j = true := by simp [dirOpens, hj, hd]
          have hrest : firstDirFailure w path rest = some i := by
            simpa [firstDirFailure, List.find?_cons, hdo] using h
          rw [if_neg hd, ih (dirfds ++ [w.ret (openDirCall path j)]) _ hrest]
          simp [failedDirCalls, List.takeWhile_cons, hdo, dirCallsOf, dirCalls,
            errnoAfter_append, errnoAfter_cons, errnoAfter]

theorem openDirs_ok (w : World) (path : CString) (is : List Nat) (dirfds : List Int)
    (s : State) (h : ∀ i ∈ is, dirOpens w path i = true) :
    openDirs w path is dirfds s
      = ⟨Res.ret (Except.ok (dirfds ++ is.map (fun i => w.ret (openDirCall path i)))),
          ⟨errnoAfter w (dirCallsOf w path is) s.errno, s.mirror_fds⟩,
          (dirCallsOf w path is).map Event.call⟩ := by
  induction is generalizing s dirfds with
  | nil => simp [openDirs, run_pure, errnoAfter, dirCallsOf]
  | cons j rest ih =>
      have hj := h j (List.mem_cons_self j rest)
      simp only [dirOpens, Bool.and_eq_true, decide_eq_true_eq] at hj
      unfold openDirs
      rw [run_bind_ret _ _ s ⟨(w.err (openDirCall path j)).getD s.errno, s.mirror_fds⟩
        (w.ret (openDirCall path j)) [Event.call (openDirCall path j)] rfl]
      rw [if_neg hj.1]
      rw [run_bind_ret _ _ _
        ⟨(w.err (Syscall.fdopendir (w.ret (openDirCall path j)))).getD
          ((w.err (openDirCall path j)).getD s.errno), s.mirror_fds⟩
        (w.ret (Syscall.fdopendir (w.ret (openDirCall path j))))
        [Event.call (Syscall.fdopendir (w.ret (openDirCall path j)))] rfl]
      rw [if_neg hj.2, ih _ _ (fun k hk => h k (List.mem_cons_of_mem j hk))]
      simp [dirCallsOf, dirCalls, errnoAfter_append, errnoAfter_cons, errnoAfter]

theorem mirrorfs_readdir_fail {σ : Type} (w : World) (g : Globals) (path : CString)
    (buf : σ) (filler : σ → CString → Stat → σ × Bool) (s : State) (i : Nat)
    (h : firstDirFailure w path (replicas g) = some i) :
    mirrorfs_readdir w g path buf filler s
      = ⟨Res.ret (-(errnoAfter w (failedDirCalls w path (replicas g) [] i) s.errno), buf),
          ⟨errnoAfter w (failedDirCalls w path (replicas g) [] i) s.errno, s.mirror_fds⟩,
          (failedDirCalls w path (replicas g) [] i).map Event.call⟩ := by
  unfold mirrorfs_readdir
  rw [run_bind_ret _ _ s _ _ _ (openDirs_fail w path _ [] s i h)]
  simp [run_pure]

theorem takeWhile_range'_of_find (q : Nat → Bool) (a n i : Nat)
    (h : (List.range' a n).find? (fun j => !q j) = some i) :
    (List.range' a n).takeWhile q = List.range' a (i - a) ∧ a ≤ i := by
  induction n generalizing a with
  | zero => simp at h
  | succ n ih =>
      rw [List.range'_succ] at h ⊢
      by_cases hq : q a = true
      · have hrest : (List.range' (a + 1) n).find? (fun j => !q j) = some i := by
          simpa [List.find?_cons, hq] using h
        obtain ⟨h1, h2⟩ := ih (a + 1) hrest
        refine ⟨?_, by omega⟩
        have hlen : i - a = (i - (a + 1)) + 1 := by omega
        rw [List.takeWhile_cons, if_pos hq, h1, hlen, List.range'_succ]
      · have hia : a = i := by
          simpa [List.find?_cons, hq] using h
        subst hia
        simp [List.takeWhile_cons, hq]

theorem openedBefore_replicas (w : World) (g : Globals) (call : Nat → Syscall) (i : Nat)
    (h : firstFailure w call (replicas g) = some i) :
    openedBefore w call (replicas g) = List.range i := by
  unfold firstFailure replicas at h
  unfold openedBefore replicas
  rw [List.range_eq_range'] at h ⊢
  have hq : (fun j => decide (w.ret (call j) = -1))
      = (fun j => !(fun k => decide (w.ret (call k) ≠ -1)) j) := by
    funext j
    simp
  rw [hq] at h
  rw [(takeWhile_range'_of_find _ 0 _ i h).1, List.range_eq_range']
  rfl

theorem dirOpened_replicas (w : World) (g : Globals) (path : CString) (i : Nat)
    (h : firstDirFailure w path (replicas g) = some i) :
    (replicas g).takeWhile (dirOpens w path) = List.range i := by
  unfold firstDirFailure replicas at h
  unfold replicas
  rw [List.range_eq_range'] at h ⊢
  rw [(takeWhile_range'_of_find _ 0 _ i h).1, List.range_eq_range']
  rfl

theorem closeCalls_quiet (w : World) (k : Nat) (f : Nat → Int)
    (h : ∀ j, j < k → w.err (Syscall.close (f j)) = none) :
    ∀ c ∈ closeCalls k ((List.range k).map f), w.err c = none := by
  intro c hc
  unfold closeCalls at hc
  rw [List.mem_map] at hc
  obtain ⟨j, hj, rfl⟩ := hc
  rw [List.mem_range] at hj
  rw [elem_map_range f k j hj]
  exact h j hj

theorem replicas_pos (g : Globals) (h : 1 ≤ g.mntpath_count) :
    replicas g = 0 :: List.range' 1 (g.mntpath_count - 1) := by
  unfold replicas
  obtain ⟨m, hm⟩ : ∃ m, g.mntpath_count = m + 1 := ⟨g.mntpath_count - 1, by omega⟩
  rw [hm, List.range_eq_range', List.range'_succ]
  simp

theorem firstFailure_zero (w : World) (g : Globals) (call : Nat → Syscall)
    (h : 1 ≤ g.mntpath_count) (h0 : w.ret (call 0) = -1) :
    firstFailure w call (replicas g) = some 0 ∧
      failedOpenCalls w call (replicas g) [] 0 = [call 0] := by
  rw [replicas_pos g h]
  simp [firstFailure, failedOpenCalls, openedBefore, closeCalls, h0]

theorem firstDirFailure_zero (w : World) (g : Globals) (path : CString)
    (h : 1 ≤ g.mntpath_count) (h0 : w.ret (openDirCall path 0) = -1) :
    firstDirFailure w path (replicas g) = some 0 ∧
      failedDirCalls w path (replicas g) [] 0 = [openDirCall path 0] := by
  rw [replicas_pos g h]
  simp [firstDirFailure, failedDirCalls, dirOpens, closeCalls, h0, dirCallsOf]

/-- C7 (amended): when opening the path fails in `read` or `write` called without a
handle, or in `readdir`, there is an early `return -errno` at the first replica whose
call fails, without any comparison.  Whenever the calls made between that failing call
and the return leave `errno` alone (the `close` calls on the descriptors already
obtained and, in `write`, the line that logs the failure), the value returned is the
negated error code that the first failing call stored: replica `i`'s when the calls of
all replicas before `i` succeeded, hence replica 0's exactly when replica 0's call is the
one that fails. -/
theorem open_failure_returns_first_errno {σ : Type} (w : World) (g : Globals)
    (path : CString) (buf : Buffer) (size : Nat) (offset : Int) (dbuf : σ)
    (filler : σ → CString → Stat → σ × Bool) (s : State) :
    (∀ i e, firstFailure w (openatCall path O_RDONLY) (replicas g) = some i →
      w.err (openatCall path O_RDONLY i) = some e →
      (∀ j, j < i → w.err (Syscall.close (w.ret (openatCall path O_RDONLY j))) = none) →
      Res.map Prod.fst (mirrorfs_read w g path buf size offset none s).res
        = Res.ret (-e)) ∧
    (∀ i e, firstFailure w (openatCall path O_WRONLY) (replicas g) = some i →
      w.err (openatCall path O_WRONLY i) = some e →
      w.err (Syscall.fprintf "mirrorfs_write" "Failed to open file %d: %s" [(i : Int), e])
        = none →
      (∀ j, j < i → w.err (Syscall.close (w.ret (openatCall path O_WRONLY j))) = none) →
      (mirrorfs_write w g path buf size offset none s).res = Res.ret (-e)) ∧
    (∀ i e, firstDirFailure w path (replicas g) = some i →
      w.err (failingDirCall w path i) = some e →
      (∀ j, j < i → w.err (Syscall.close (w.ret (openDirCall path j))) = none) →
      (w.ret (openDirCall path i) ≠ -1 →
        w.err (Syscall.close (w.ret (openDirCall path i))) = none) →
      Res.map Prod.fst (mirrorfs_readdir w g path dbuf filler s).res = Res.ret (-e)) ∧
    (∀ e, 1 ≤ g.mntpath_count → w.ret (openatCall path O_RDONLY 0) = -1 →
      w.err (openatCall path O_RDONLY 0) = some e →
      Res.map Prod.fst (mirrorfs_read w g path buf size offset none s).res
        = Res.ret (-e)) ∧
    (∀ e, 1 ≤ g.mntpath_count → w.ret (openatCall path O_WRONLY 0) = -1 →
      w.err (openatCall path O_WRONLY 0) = some e →
      w.err (Syscall.fprintf "mirrorfs_write" "Failed to open file %d: %s" [0, e]) = none →
      (mirrorfs_write w g path buf size offset none s).res = Res.ret (-e)) ∧
    (∀ e, 1 ≤ g.mntpath_count → w.ret (openDirCall path 0) = -1 →
      w.err (openDirCall path 0) = some e →
      Res.map Prod.fst (mirrorfs_readdir w g path dbuf filler s).res = Res.ret (-e)) := by
  have hread : ∀ i e, firstFailure w (openatCall path O_RDONLY) (replicas g) = some i →
      w.err (openatCall path O_RDONLY i) = some e →
      (∀ j, j < i → w.err (Syscall.close (w.ret (openatCall path O_RDONLY j))) = none) →
      Res.map Prod.fst (mirrorfs_read w g path buf size offset none s).res
        = Res.ret (-e) := by
    intro i e hff herr hclose
    rw [mirrorfs_read_nohandle_fail w g path buf size offset s i hff]
    unfold failedOpenCalls
    rw [openedBefore_replicas w g _ i hff, List.nil_append, errnoAfter_append,
      errnoAfter_append, errnoAfter_cons, herr, Option.getD_some,
      errnoAfter_quiet w _ _ (closeCalls_quiet w i _ hclose)]
    rfl
  have hwrite : ∀ i e, firstFailure w (openatCall path O_WRONLY) (replicas g) = some i →
      w.err (openatCall path O_WRONLY i) = some e →
      w.err (Syscall.fprintf "mirrorfs_write" "Failed to open file %d: %s" [(i : Int), e])
        = none →
      (∀ j, j < i → w.err (Syscall.close (w.ret (openatCall path O_WRONLY j))) = none) →
      (mirrorfs_write w g path buf size offset none s).res = Res.ret (-e) := by
    intro i e hff herr hlog hclose
    apply mirrorfs_write_nohandle_fail w g path buf size offset s i e hff herr hlog
    rw [openedBefore_replicas w g _ i hff, List.nil_append]
    exact closeCalls_quiet w i _ hclose
  have hdir : ∀ i e, firstDirFailure w path (replicas g) = some i →
      w.err (failingDirCall w path i) = some e →
      (∀ j, j < i → w.err (Syscall.close (w.ret (openDirCall path j))) = none) →
      (w.ret (openDirCall path i) ≠ -1 →
        w.err (Syscall.close (w.ret (openDirCall path i))) = none) →
      Res.map Prod.fst (mirrorfs_readdir w g path dbuf filler s).res = Res.ret (-e) := by
    intro i e hff herr hclose hlast
    rw [mirrorfs_readdir_fail w g path dbuf filler s i hff]
    unfold failedDirCalls
    unfold failingDirCall at herr
    rw [dirOpened_replicas w g path i hff, List.nil_append, errnoAfter_append]
    by_cases h1 : w.ret (openDirCall path i) = -1
    · rw [if_pos h1] at herr
      rw [if_pos h1, errnoAfter_cons, herr, Option.getD_some,
        errnoAfter_quiet w _ _ (closeCalls_quiet w i _ hclose)]
      rfl
    · rw [if_neg h1] at herr
      have hall : ∀ j, j < i + 1 → w.err (Syscall.close (w.ret (openDirCall path j)))
          = none := by
        intro j hj
        by_cases hji : j = i
        · rw [hji]
          exact hlast h1
        · exact hclose j (by omega)
      have hlist : (List.range i).map (fun j => w.ret (openDirCall path j))
          ++ [w.ret (openDirCall path i)]
          = (List.range (i + 1)).map (fun j => w.ret (openDirCall path j)) := by
        rw [List.range_succ, List.map_append]
        rfl
      rw [if_neg h1, hlist]
      unfold dirCalls
      rw [errnoAfter_append, errnoAfter_cons, errnoAfter_cons, herr, Option.getD_some,
        errnoAfter_quiet w _ _ (closeCalls_quiet w (i + 1) _ hall)]
      rfl
  refine ⟨hread, hwrite, hdir, ?_, ?_, ?_⟩
  · intro e hn h0 herr
    exact hread 0 e (firstFailure_zero w g _ hn h0).1 herr (fun j hj => absurd hj (by omega))
  · intro e hn h0 herr hlog
    exact hwrite 0 e (firstFailure_zero w g _ hn h0).1 herr hlog
      (fun j hj => absurd hj (by omega))
  · intro e hn h0 herr
    have hf : failingDirCall w path 0 = openDirCall path 0 := by
      unfold failingDirCall
      rw [if_pos h0]
    exact hdir 0 e (firstDirFailure_zero w g path hn h0).1 (by rw [hf]; exact herr)
      (fun j hj => absurd hj (by omega)) (fun hne => absurd h0 hne)

/-- With replica 0 opening fine and replica 1 failing with error code 2, and with
`close` and the log line leaving `errno` alone, `read` and `write` without a handle return
-2, the error code of replica 1. -/
theorem open_failure_returns_first_errno_witness :
    Res.map Prod.fst (mirrorfs_read (worldSecondFails 2) twoReplicas ['/', 'x']
        (fun _ => 0) 4 0 none State.init).res = Res.ret (-2) ∧
      (mirrorfs_write (worldSecondFails 2) twoReplicas ['/', 'x'] (fun _ => 0) 4 0 none
        State.init).res = Res.ret (-2) :=
  ⟨(open_failure_returns_first_errno (worldSecondFails 2) twoReplicas ['/', 'x']
      (fun _ => 0) 4 0 () (fun _ _ _ => ((), false)) State.init).1 1 2 (by decide)
      (by decide) (fun _ _ => rfl),
    (open_failure_returns_first_errno (worldSecondFails 2) twoReplicas ['/', 'x']
      (fun _ => 0) 4 0 () (fun _ _ _ => ((), false)) State.init).2.1 1 2 (by decide)
      (by decide) (by decide) (fun _ _ => rfl)⟩

/-- When the line of `mirrorfs_write` that logs a failed `openat` itself stores an error
code in `errno` (here 28, after replica 1's `openat` failed with the error code 2), the
`return -errno` that follows hands back that code, which is no replica's error code. -/
theorem write_log_line_can_change_errno :
    (mirrorfs_write worldLogFails twoReplicas ['/', 'x'] (fun _ => 0) 4 0 none
      State.init).res = Res.ret (-28) := by
  decide

/-- Counterexample to C7 as stated: two worlds agree on everything replica 0 does (its
`openat` succeeds with descriptor 5 and leaves `errno` alone) and differ in the error code
of replica 1; in both, `close` and the line of `write` that logs the failure leave `errno`
alone.  `read` and `write` without a handle, and `readdir`, return -2 in one and -13 in
the other, so the value is not replica 0's. -/
theorem open_failure_not_from_replica0 :
    (worldSecondFails 2).ret (openatCall ['/', 'x'] O_RDONLY 0) = 5 ∧
    (worldSecondFails 13).ret (openatCall ['/', 'x'] O_RDONLY 0) = 5 ∧
    (worldSecondFails 2).err (openatCall ['/', 'x'] O_RDONLY 0) = none ∧
    (worldSecondFails 13).err (openatCall ['/', 'x'] O_RDONLY 0) = none ∧
    (worldSecondFails 2).ret (openatCall ['/', 'x'] O_WRONLY 0) = 5 ∧
    (worldSecondFails 13).ret (openatCall ['/', 'x'] O_WRONLY 0) = 5 ∧
    (worldSecondFails 2).err (openatCall ['/', 'x'] O_WRONLY 0) = none ∧
    (worldSecondFails 13).err (openatCall ['/', 'x'] O_WRONLY 0) = none ∧
    (worldSecondFails 2).err
      (Syscall.fprintf "mirrorfs_write" "Failed to open file %d: %s" [1, 2]) = none ∧
    (worldSecondFails 13).err
      (Syscall.fprintf "mirrorfs_write" "Failed to open file %d: %s" [1, 13]) = none ∧
    Res.map Prod.fst (mirrorfs_read (worldSecondFails 2) twoReplicas ['/', 'x']
      (fun _ => 0) 4 0 none State.init).res = Res.ret (-2) ∧
    Res.map Prod.fst (mirrorfs_read (worldSecondFails 13) twoReplicas ['/', 'x']
      (fun _ => 0) 4 0 none State.init).res = Res.ret (-13) ∧
    (mirrorfs_write (worldSecondFails 2) twoReplicas ['/', 'x'] (fun _ => 0) 4 0 none
      State.init).res = Res.ret (-2) ∧
    (mirrorfs_write (worldSecondFails 13) twoReplicas ['/', 'x'] (fun _ => 0) 4 0 none
      State.init).res = Res.ret (-13) ∧
    Res.map Prod.fst (mirrorfs_readdir (worldSecondFails 2) twoReplicas ['/', 'x'] ()
      (fun _ _ _ => ((), false)) State.init).res = Res.ret (-2) ∧
    Res.map Prod.fst (mirrorfs_readdir (worldSecondFails 13) twoReplicas ['/', 'x'] ()
      (fun _ _ _ => ((), false)) State.init).res = Res.ret (-13) := by
  refine ⟨?_, ?_, ?_, ?_, ?_, ?_, ?_, ?_, ?_, ?_, ?_, ?_, ?_, ?_, ?_, ?_⟩ <;> decide

/-! ## The per-entry check of `readdir` (C8) -/

theorem any_all_congr (l : List Nat) (p q : Nat → Bool) (h : ∀ i ∈ l, p i = q i) :
    l.all p = l.all q := by
  induction l with
  | nil => rfl
  | cons i rest ih =>
      simp only [List.all_cons, h i (List.mem_cons_self i rest),
        ih (fun j hj => h j (List.mem_cons_of_mem i hj))]

theorem checkEntry_run (de : Dirent) (is : List Nat) (dps : Nat → List Dirent) (s : State)
    (hnd : is.Nodup) :
    checkEntry de is dps s
      = if is.all (fun i =>
            match dps i with
            | [] => false
            | de_i :: _ => decide (de.d_name = de_i.d_name)) then
          ⟨Res.ret (fun j => if j ∈ is then (dps j).tail else dps j), s, []⟩
        else ⟨Res.aborted, s, [Event.inconsistentEntry de.d_name]⟩ := by
  induction is generalizing dps with
  | nil => simp [checkEntry, run_pure]
  | cons i rest ih =>
      rw [List.nodup_cons] at hnd
      unfold checkEntry
      cases hd : dps i with
      | nil => simp [hd, emit, abort, bind, M.bind]
      | cons de_i left =>
          simp only []
          by_cases hname : de.d_name = de_i.d_name
          · rw [if_neg (not_not.mpr hname), ih _ hnd.2]
            have hall : (rest.all fun j =>
                match (if j = i then left else dps j) with
                | [] => false
                | de_j :: _ => decide (de.d_name = de_j.d_name))
                = rest.all fun j =>
                  match dps j with
                  | [] => false
                  | de_j :: _ => decide (de.d_name = de_j.d_name) := by
              apply any_all_congr
              intro j hj
              have hji : j ≠ i := fun h => hnd.1 (h ▸ hj)
              simp [hji]
            rw [hall]
            have hcons : ((i :: rest).all fun j =>
                match dps j with
                | [] => false
                | de_j :: _ => decide (de.d_name = de_j.d_name))
                = rest.all fun j =>
                  match dps j with
                  | [] => false
                  | de_j :: _ => decide (de.d_name = de_j.d_name) := by
              simp only [List.all_cons, hd, hname, decide_True, Bool.true_and]
            rw [hcons]
            have hfun : (fun j => if j ∈ rest then (if j = i then left else dps j).tail
                else if j = i then left else dps j)
                = fun j => if j ∈ i :: rest then (dps j).tail else dps j := by
              funext j
              by_cases hji : j = i
              · subst hji
                simp [hd, hnd.1]
              · by_cases hjr : j ∈ rest <;> simp [hji, hjr]
            rw [hfun]
          · rw [if_pos hname]
            have hcons : ((i :: rest).all fun j =>
                match dps j with
                | [] => false
                | de_j :: _ => decide (de.d_name = de_j.d_name)) = false := by
              simp only [List.all_cons, hd, hname, decide_False, Bool.false_and]
            rw [hcons]
            simp [emit, abort, bind, M.bind]

theorem getElem?_tail_eq (l : List Dirent) (k : Nat) : l.tail[k]? = l[k + 1]? := by
  cases l <;> simp

theorem agreeWith_succ (g : Globals) (m : Nat) (de : Dirent) (left : List Dirent)
    (dps : Nat → List Dirent) :
    AgreeWith g (1 + m) (de :: left) dps
      ↔ headsAgree g de dps = true ∧ AgreeWith g m left (advanced g dps) := by
  unfold AgreeWith headsAgree advanced
  constructor
  · intro h
    constructor
    · rw [List.all_eq_true]
      intro i hi
      have h0 := h 0 (by omega) i hi
      cases hd : dps i with
      | nil => simp [hd] at h0
      | cons d rest => simpa [hd, eq_comm] using h0
    · intro k hk i hi
      have hk1 := h (k + 1) (by omega) i hi
      simp only [hi, if_true, getElem?_tail_eq]
      simpa using hk1
  · rintro ⟨h0, hrest⟩ k hk i hi
    cases k with
    | zero =>
        have := (List.all_eq_true.mp h0) i hi
        cases hd : dps i with
        | nil => simp [hd] at this
        | cons d rest => simpa [hd, eq_comm] using this
    | succ k =>
        have := hrest k (by omega) i hi
        simp only [hi, if_true, getElem?_tail_eq] at this
        simpa using this

theorem others_nodup (g : Globals) : (others g).Nodup := by
  unfold others
  exact List.nodup_range' 1 (g.mntpath_count - 1)

theorem readdirLoop_cons {σ : Type} (g : Globals) (filler : σ → CString → Stat → σ × Bool)
    (de : Dirent) (left : List Dirent) (buf : σ) (dps : Nat → List Dirent) (s : State) :
    readdirLoop g filler (de :: left) buf dps s
      = if (filler buf de.d_name (direntStat de)).2 then
          ⟨Res.ret (filler buf de.d_name (direntStat de)).1, s, [fillerEvent de]⟩
        else if headsAgree g de dps then
          ⟨(readdirLoop g filler left (filler buf de.d_name (direntStat de)).1
              (advanced g dps) s).res,
            (readdirLoop g filler left (filler buf de.d_name (direntStat de)).1
              (advanced g dps) s).state,
            fillerEvent de ::
              (readdirLoop g filler left (filler buf de.d_name (direntStat de)).1
                (advanced g dps) s).events⟩
        else ⟨Res.aborted, s, [fillerEvent de, Event.inconsistentEntry de.d_name]⟩ := by
  rw [readdirLoop]
  rw [run_bind_ret _ _ s s () [fillerEvent de] rfl]
  by_cases hstop : (filler buf de.d_name (direntStat de)).2 = true
  · simp [hstop, run_pure]
  · simp only [hstop, if_false, Bool.false_eq_true]
    have hce := checkEntry_run de (others g) dps s (others_nodup g)
    by_cases hh : headsAgree g de dps = true
    · have hh2 := hh
      unfold headsAgree at hh2
      rw [if_pos hh2] at hce
      rw [run_bind_ret _ _ s s _ [] hce, if_pos hh]
      have hadv : (fun j => if j ∈ others g then (dps j).tail else dps j) = advanced g dps :=
        rfl
      rw [hadv]
      simp
    · have hh2 := hh
      unfold headsAgree at hh2
      rw [if_neg hh2] at hce
      rw [run_bind_aborted _ _ s s _ hce, if_neg hh]
      simp

theorem readdirLoop_spec {σ : Type} (g : Globals) (filler : σ → CString → Stat → σ × Bool)
    (es0 : List Dirent) (buf : σ) (dps : Nat → List Dirent) (s : State) :
    (AgreeWith g (acceptedCount filler buf es0) es0 dps →
      readdirLoop g filler es0 buf dps s
        = ⟨Res.ret (finalBuf filler buf es0), s,
            (es0.take (fillerCalls filler buf es0)).map fillerEvent⟩) ∧
    (¬ AgreeWith g (acceptedCount filler buf es0) es0 dps →
      ∃ j name, j ≤ fillerCalls filler buf es0 ∧
        readdirLoop g filler es0 buf dps s
          = ⟨Res.aborted, s,
              (es0.take j).map fillerEvent ++ [Event.inconsistentEntry name]⟩) := by
  induction es0 generalizing buf dps with
  | nil =>
      constructor
      · intro _
        rfl
      · intro h
        exact absurd (fun k hk => by simp [acceptedCount] at hk) h
  | cons de left ih =>
      rw [readdirLoop_cons]
      by_cases hstop : (filler buf de.d_name (direntStat de)).2 = true
      · constructor
        · intro _
          simp [hstop, finalBuf, fillerCalls]
        · intro h
          exact absurd (fun k hk => by simp [acceptedCount, hstop] at hk) h
      · have hacc : acceptedCount filler buf (de :: left)
            = 1 + acceptedCount filler (filler buf de.d_name (direntStat de)).1 left := by
          simp [acceptedCount, hstop]
        have hcalls : fillerCalls filler buf (de :: left)
            = 1 + fillerCalls filler (filler buf de.d_name (direntStat de)).1 left := by
          simp [fillerCalls, hstop]
        have hfinal : finalBuf filler buf (de :: left)
            = finalBuf filler (filler buf de.d_name (direntStat de)).1 left := by
          simp [finalBuf, hstop]
        rw [hacc, hcalls, hfinal, agreeWith_succ]
        simp only [hstop, if_false, Bool.false_eq_true]
        obtain ⟨ih1, ih2⟩ := ih (filler buf de.d_name (direntStat de)).1 (advanced g dps)
        constructor
        · rintro ⟨hh, hag⟩
          rw [if_pos hh, ih1 hag]
          simp [Nat.add_comm 1, List.take_succ_cons]
        · intro hnot
          by_cases hh : headsAgree g de dps = true
          · have hag : ¬ AgreeWith g
                (acceptedCount filler (filler buf de.d_name (direntStat de)).1 left) left
                (advanced g dps) := fun h => hnot ⟨hh, h⟩
            obtain ⟨j, name, hj, hrun⟩ := ih2 hag
            refine ⟨j + 1, name, by omega, ?_⟩
            rw [if_pos hh, hrun]
            simp [List.take_succ_cons]
          · refine ⟨1, de.d_name, by omega, ?_⟩
            rw [if_neg hh]
            simp

theorem closeDirs_loop_run (w : World) (dirfds : List Int) (is : List Nat) (s : State) :
    ∃ (e1 : Int) (cs : List Syscall), forEach is (fun i => do
        let _ ← sys w (Syscall.closedir (elem dirfds i))
        let _ ← sys w (Syscall.close (elem dirfds i))
        pure ()) s
      = ⟨Res.ret (), ⟨e1, s.mirror_fds⟩, cs.map Event.call⟩ := by
  induction is generalizing s with
  | nil => exact ⟨s.errno, [], rfl⟩
  | cons i rest ih =>
      obtain ⟨e1, cs, h⟩ := ih
        ⟨(w.err (Syscall.close (elem dirfds i))).getD
          ((w.err (Syscall.closedir (elem dirfds i))).getD s.errno), s.mirror_fds⟩
      refine ⟨e1, Syscall.closedir (elem dirfds i) :: Syscall.close (elem dirfds i) :: cs, ?_⟩
      rw [forEach_cons, run_bind_ret _ _ s
        ⟨(w.err (Syscall.close (elem dirfds i))).getD
          ((w.err (Syscall.closedir (elem dirfds i))).getD s.errno), s.mirror_fds⟩ ()
        [Event.call (Syscall.closedir (elem dirfds i)),
          Event.call (Syscall.close (elem dirfds i))] rfl, h]
      rfl

theorem closeDirs_run (w : World) (g : Globals) (dirfds : List Int) (s : State) :
    ∃ (e1 : Int) (cs : List Syscall),
      closeDirs w g dirfds s = ⟨Res.ret (), ⟨e1, s.mirror_fds⟩, cs.map Event.call⟩ :=
  closeDirs_loop_run w dirfds (replicas g) s

theorem fillerEventsOf_calls (cs : List Syscall) : fillerEventsOf (cs.map Event.call) = [] := by
  induction cs with
  | nil => rfl
  | cons c rest ih =>
      simp only [fillerEventsOf, List.map_cons] at ih ⊢
      rw [List.filter_cons_of_neg (by simp [Event.isFiller])]
      exact ih

theorem fillerEventsOf_fillers (es : List Dirent) :
    fillerEventsOf (es.map fillerEvent) = es.map fillerEvent := by
  induction es with
  | nil => rfl
  | cons de rest ih =>
      simp only [fillerEventsOf, List.map_cons] at ih ⊢
      rw [List.filter_cons_of_pos (by simp [Event.isFiller, fillerEvent]), ih]

theorem fillerEventsOf_append (l1 l2 : List Event) :
    fillerEventsOf (l1 ++ l2) = fillerEventsOf l1 ++ fillerEventsOf l2 := by
  simp [fillerEventsOf]

theorem agreeWith_entries (w : World) (g : Globals) (path : CString) (m : Nat)
    (dirfds : List Int)
    (hfds : ∀ i, i < g.mntpath_count → elem dirfds i = w.ret (openDirCall path i))
    (hn : 1 ≤ g.mntpath_count) :
    AgreeWith g m (w.dirents (elem dirfds 0)) (fun i => w.dirents (elem dirfds i))
      ↔ EntriesAgree g.mntpath_count m (entriesOf w path) := by
  unfold AgreeWith EntriesAgree entriesOf
  rw [hfds 0 (by omega)]
  constructor
  · intro h k hk i hi1 hi2
    have h3 := h k hk i ((mem_others g i).mpr ⟨hi1, hi2⟩)
    simp only [hfds i hi2] at h3
    exact h3
  · intro h k hk i hi
    obtain ⟨hi1, hi2⟩ := (mem_others g i).mp hi
    show ((w.dirents (elem dirfds i))[k]?).map Dirent.d_name = _
    rw [hfds i hi2]
    exact h k hk i hi1 hi2

theorem mirrorfs_readdir_run {σ : Type} (w : World) (g : Globals) (path : CString)
    (buf : σ) (filler : σ → CString → Stat → σ × Bool) (s : State)
    (hn : 1 ≤ g.mntpath_count) (hopen : ∀ i, i < g.mntpath_count → dirOpens w path i = true) :
    (EntriesAgree g.mntpath_count (acceptedCount filler buf (entriesOf w path 0))
        (entriesOf w path) →
      (mirrorfs_readdir w g path buf filler s).res
          = Res.ret (0, finalBuf filler buf (entriesOf w path 0)) ∧
        fillerEventsOf (mirrorfs_readdir w g path buf filler s).events
          = ((entriesOf w path 0).take (fillerCalls filler buf (entriesOf w path 0))).map
              fillerEvent) ∧
    (¬ EntriesAgree g.mntpath_count (acceptedCount filler buf (entriesOf w path 0))
        (entriesOf w path) →
      (mirrorfs_readdir w g path buf filler s).res = Res.aborted ∧
        ∃ j, j ≤ fillerCalls filler buf (entriesOf w path 0) ∧
          fillerEventsOf (mirrorfs_readdir w g path buf filler s).events
            = ((entriesOf w path 0).take j).map fillerEvent) := by
  have hopen2 : ∀ i ∈ replicas g, dirOpens w path i = true :=
    fun i hi => hopen i (List.mem_range.mp hi)
  have hok := openDirs_ok w path (replicas g) [] s hopen2
  simp only [List.nil_append] at hok
  have hfds : ∀ i, i < g.mntpath_count →
      elem ((replicas g).map (fun i => w.ret (openDirCall path i))) i
        = w.ret (openDirCall path i) :=
    fun i hi => resArr_elem w g (openDirCall path) i hi
  generalize (replicas g).map (fun i => w.ret (openDirCall path i)) = dirfds at hok hfds
  generalize hs1 : (⟨errnoAfter w (dirCallsOf w path (replicas g)) s.errno, s.mirror_fds⟩ :
    State) = s1 at hok
  have hagree := agreeWith_entries w g path
    (acceptedCount filler buf (entriesOf w path 0)) dirfds hfds hn
  have he0 : w.dirents (elem dirfds 0) = entriesOf w path 0 := by
    unfold entriesOf
    rw [hfds 0 (by omega)]
  obtain ⟨hl1, hl2⟩ := readdirLoop_spec g filler (w.dirents (elem dirfds 0)) buf
    (fun i => w.dirents (elem dirfds i)) s1
  rw [he0] at hl1 hl2 hagree
  unfold mirrorfs_readdir
  rw [run_bind_ret _ _ s _ _ _ hok]
  simp only []
  rw [he0]
  constructor
  · intro hag
    have hloop := hl1 (hagree.mpr hag)
    obtain ⟨e2, cs, hclose⟩ := closeDirs_run w g dirfds s1
    rw [run_bind_ret _ _ s1 _ _ _ hloop, run_bind_ret _ _ s1 _ _ _ hclose]
    refine ⟨rfl, ?_⟩
    simp only [run_pure, fillerEventsOf_append, fillerEventsOf_calls, fillerEventsOf_fillers,
      List.nil_append, List.append_nil]
  · intro hag
    obtain ⟨j, name, hj, hloop⟩ := hl2 (fun h => hag (hagree.mp h))
    rw [run_bind_aborted _ _ s1 _ _ hloop]
    refine ⟨rfl, j, hj, ?_⟩
    simp only [fillerEventsOf_append, fillerEventsOf_calls, fillerEventsOf_fillers,
      List.nil_append]
    simp [fillerEventsOf, Event.isFiller]

/-- C8: the per-entry check of `readdir`.  Assume at least one replica and that `openat`
and `fdopendir` succeeded on every replica; let `entriesOf w path i` be the entries of
replica `i`.  Then, for every configuration (so regardless of `abort_on_difference`):
* `readdir` returns (the value 0, with the filler's buffer) if and only if, for every
  position `k` whose entry the filler accepted, every replica `1 ≤ i < N` has an entry at
  position `k` whose name equals replica 0's name at position `k`; otherwise (a replica's
  list ends before such a position, or the name differs) it aborts;
* the filler is called on replica 0's entries, in replica 0's order: the calls are the
  first `j` entries of replica 0 for some `j ≤ fillerCalls`, and exactly the first
  `fillerCalls` entries when `readdir` returns, where `fillerCalls` counts the entries up
  to the first one for which the filler signals stop, or to the end of the list. -/
theorem readdir_entry_check {σ : Type} (w : World) (g : Globals) (path : CString)
    (buf : σ) (filler : σ → CString → Stat → σ × Bool) (s : State)
    (hn : 1 ≤ g.mntpath_count) (hopen : ∀ i, i < g.mntpath_count → dirOpens w path i = true) :
    ((mirrorfs_readdir w g path buf filler s).res
        = Res.ret (0, finalBuf filler buf (entriesOf w path 0)) ↔
      EntriesAgree g.mntpath_count (acceptedCount filler buf (entriesOf w path 0))
        (entriesOf w path)) ∧
    ((mirrorfs_readdir w g path buf filler s).res = Res.aborted ↔
      ¬ EntriesAgree g.mntpath_count (acceptedCount filler buf (entriesOf w path 0))
        (entriesOf w path)) ∧
    (∀ v, (mirrorfs_readdir w g path buf filler s).res = Res.ret v →
      v = (0, finalBuf filler buf (entriesOf w path 0)) ∧
      EntriesAgree g.mntpath_count (acceptedCount filler buf (entriesOf w path 0))
        (entriesOf w path) ∧
      fillerEventsOf (mirrorfs_readdir w g path buf filler s).events
        = ((entriesOf w path 0).take (fillerCalls filler buf (entriesOf w path 0))).map
            fillerEvent) ∧
    (∃ j, j ≤ fillerCalls filler buf (entriesOf w path 0) ∧
      fillerEventsOf (mirrorfs_readdir w g path buf filler s).events
        = ((entriesOf w path 0).take j).map fillerEvent) := by
  obtain ⟨h1, h2⟩ := mirrorfs_readdir_run w g path buf filler s hn hopen
  by_cases hag : EntriesAgree g.mntpath_count
      (acceptedCount filler buf (entriesOf w path 0)) (entriesOf w path)
  · obtain ⟨hres, hev⟩ := h1 hag
    refine ⟨⟨fun _ => hag, fun _ => hres⟩, ⟨fun h => ?_, fun h => absurd hag h⟩, ?_, ?_⟩
    · rw [hres] at h
      cases h
    · intro v hv
      rw [hres] at hv
      cases hv
      exact ⟨rfl, hag, hev⟩
    · exact ⟨_, le_refl _, hev⟩
  · obtain ⟨hres, j, hj, hev⟩ := h2 hag
    refine ⟨⟨fun h => ?_, fun h => absurd h hag⟩, ⟨fun _ => hag, fun _ => hres⟩, ?_, ?_⟩
    · rw [hres] at h
      cases h
    · intro v hv
      rw [hres] at hv
      cases hv
    · exact ⟨j, hj, hev⟩

/-- Replica 0 lists `a`, `b` and replica 1 only `a`: `readdir` aborts although
`abort_on_difference` is off. -/
theorem readdir_entry_check_witness :
    (mirrorfs_readdir worldShortDir twoReplicasNoAbort ['/'] [] recordingFiller
      State.init).res = Res.aborted :=
  (readdir_entry_check worldShortDir twoReplicasNoAbort ['/'] [] recordingFiller State.init
    (by decide)
    (by intro i hi; have h2 : i < 2 := hi; interval_cases i <;> decide)).2.1.mpr
    (fun h => by
      have h1 := h 1 (by decide) 1 (by decide) (by decide)
      revert h1
      decide)

/-! ## The output of `readlink` (C10) -/

theorem readlinkatCall_size (path : CString) (size i : Nat) (h1 : 1 ≤ size)
    (h2 : size < U64_MOD) :
    readlinkatCall path size i = Syscall.readlinkat i (safe_path path) (size - 1) := by
  unfold readlinkatCall
  have : (size + U64_MOD - 1) % U64_MOD = size - 1 := by
    unfold U64_MOD at *
    omega
  rw [this]

theorem toU64_natCast (r : Nat) (h : r < U64_MOD) : toU64 (r : Int) = r := by
  rw [toU64_of_nonneg _ (Int.natCast_nonneg r) (by unfold U64_MOD at h; omega)]
  exact Int.toNat_natCast r

theorem payloadEvents_isNotEqual (g : Globals) (func : String) (res errnos : List Int)
    (bufs : Nat → Buffer) (e : Event) (h : e ∈ payloadEvents g func res errnos bufs) :
    e.isNotEqual = true := by
  obtain ⟨i, _, hi⟩ := mem_loopEvents _ _ _ e h
  exact roundEvents_isNotEqual _ _ _ _ _ e hi

/-- C10: the output of `readlink`.  For a buffer size `1 ≤ size` (a `size_t`) and at
least one replica:
* every replica is asked for exactly `size - 1` bytes: the system calls of `readlink` are
  one `readlinkat` per replica with buffer size `size - 1`, in replica order, and whatever
  else it does is printing divergence lines;
* when replica 0's `readlinkat` returns `ret` with `0 ≤ ret ≤ size - 1` and the process
  does not abort, `readlink` returns 0, `ret < size`, the caller's buffer holds replica
  0's first `ret` bytes at the indices below `ret` and a null byte at index `ret`, and is
  unchanged beyond;
* in particular for `ret = size - 1` all `size - 1` bytes are delivered and the null byte
  lands at index `size - 1`. -/
theorem readlink_output (w : World) (g : Globals) (path : CString) (buf : Buffer)
    (size : Nat) (s : State) (hn : 1 ≤ g.mntpath_count) (h1 : 1 ≤ size)
    (h2 : size < U64_MOD) :
    (∃ lines, (mirrorfs_readlink w g path buf size s).events
        = (replicas g).map
            (fun i => Event.call (Syscall.readlinkat i (safe_path path) (size - 1)))
          ++ lines
      ∧ ∀ e ∈ lines, e.isNotEqual = true) ∧
    (∀ ret : Nat, w.ret (Syscall.readlinkat 0 (safe_path path) (size - 1)) = (ret : Int) →
      ret ≤ size - 1 → (mirrorfs_readlink w g path buf size s).res ≠ Res.aborted →
      ret < size ∧
      ∃ out, (mirrorfs_readlink w g path buf size s).res = Res.ret (0, out) ∧
        (∀ k, k < ret →
          out k = w.buf (Syscall.readlinkat 0 (safe_path path) (size - 1)) k) ∧
        out ret = 0 ∧ (∀ k, ret < k → out k = buf k)) ∧
    (w.ret (Syscall.readlinkat 0 (safe_path path) (size - 1)) = ((size - 1 : Nat) : Int) →
      (mirrorfs_readlink w g path buf size s).res ≠ Res.aborted →
      ∃ out, (mirrorfs_readlink w g path buf size s).res = Res.ret (0, out) ∧
        (∀ k, k < size - 1 →
          out k = w.buf (Syscall.readlinkat 0 (safe_path path) (size - 1)) k) ∧
        out (size - 1) = 0) := by
  obtain ⟨e1, hrun⟩ := mirrorfs_readlink_run w g path buf size s
  have hcall : ∀ i, readlinkatCall path size i
      = Syscall.readlinkat i (safe_path path) (size - 1) :=
    fun i => readlinkatCall_size path size i h1 h2
  have hr0 := resArr_elem w g (readlinkatCall path size) 0 (by omega)
  rw [hcall 0] at hr0
  have hmain : ∀ ret : Nat,
      w.ret (Syscall.readlinkat 0 (safe_path path) (size - 1)) = (ret : Int) →
      ret ≤ size - 1 → (mirrorfs_readlink w g path buf size s).res ≠ Res.aborted →
      ret < size ∧
      ∃ out, (mirrorfs_readlink w g path buf size s).res = Res.ret (0, out) ∧
        (∀ k, k < ret →
          out k = w.buf (Syscall.readlinkat 0 (safe_path path) (size - 1)) k) ∧
        out ret = 0 ∧ (∀ k, ret < k → out k = buf k) := by
    intro ret hret hle hna
    have hlt : ret < size := by omega
    refine ⟨hlt, ?_⟩
    rw [hrun] at hna ⊢
    rw [hr0, hret, hcall 0] at hna ⊢
    have hne : ¬ ((ret : Int) = -1) := by omega
    have hu : toU64 (ret : Int) = ret := toU64_natCast ret (by omega)
    cases hab : payloadAbort g (resArr w g (readlinkatCall path size))
        (errArr w g (readlinkatCall path size))
        (fun i => w.buf (readlinkatCall path size i)) with
    | true =>
        rw [hab] at hna
        exact absurd rfl hna
    | false =>
        simp only [Bool.false_eq_true, if_false, hne, hu, hlt, if_true]
        refine ⟨_, rfl, ?_, ?_, ?_⟩
        · intro k hk
          have hkn : k ≠ ret := by omega
          simp [terminated, hkn, hk]
        · simp [terminated]
        · intro k hk
          have hkn : k ≠ ret := by omega
          have hkl : ¬ k < ret := by omega
          simp [terminated, hkn, hkl]
  refine ⟨?_, hmain, ?_⟩
  · refine ⟨payloadEvents g "mirrorfs_readlink" (resArr w g (readlinkatCall path size))
      (errArr w g (readlinkatCall path size))
      (fun i => w.buf (readlinkatCall path size i)), ?_, ?_⟩
    · rw [hrun]
      show callEvents g _ ++ _ = callEvents g _ ++ _
      rw [callEvents_congr_calls g (readlinkatCall path size)
        (fun i => Syscall.readlinkat i (safe_path path) (size - 1)) (fun i _ => hcall i)]
    · intro e he
      exact payloadEvents_isNotEqual _ _ _ _ _ e he
  · intro hret hna
    obtain ⟨_, out, h3, h4, h5, _⟩ := hmain (size - 1) hret (le_refl _) hna
    exact ⟨out, h3, h4, h5⟩

/-- The link target `target` read into a 64-byte buffer: `readlink` returns 0 and puts a
null byte at index 6. -/
theorem readlink_output_witness :
    ∃ out, (mirrorfs_readlink worldSymlink twoReplicas ['/', 'l'] (fun _ => 7) 64
        State.init).res = Res.ret (0, out) ∧
      (∀ k, k < 6 →
        out k = worldSymlink.buf (Syscall.readlinkat 0 (safe_path ['/', 'l']) (64 - 1)) k) ∧
      out 6 = 0 ∧ (∀ k, 6 < k → out k = 7) :=
  ((readlink_output worldSymlink twoReplicas ['/', 'l'] (fun _ => 7) 64 State.init
    (by decide) (by decide) (by decide)).2.1 6 (by decide) (by decide)
    (fun h => by
      have h1 := congrArg (Res.map Prod.fst) h
      revert h1
      decide)).2

/-! ## Rename (C11) -/

theorem resultsEvents_isNotEqual (g : Globals) (func : String) (res errnos : List Int)
    (e : Event) (h : e ∈ resultsEvents g func res errnos) : e.isNotEqual = true := by
  obtain ⟨i, _, hi⟩ := mem_loopEvents _ _ _ e h
  exact roundEvents_isNotEqual _ _ _ _ _ e hi

/-- C11: `rename` with any nonzero flags returns `-EINVAL`, issues no system call (so no
`renameat` reaches any replica), prints no comparison line and leaves the state alone.
With flags 0 its system calls are exactly one `renameat` per replica, in replica order,
each with the replica's own directory handle as both the source and the destination
root; whatever else it does is printing divergence lines, and `mirror_fds` is
untouched. -/
theorem rename_flags (w : World) (g : Globals) (src dst : CString) (s : State) :
    (∀ flags : Nat, flags ≠ 0 →
      (mirrorfs_rename w g src dst flags s).res = Res.ret (-EINVAL) ∧
      (mirrorfs_rename w g src dst flags s).events = [] ∧
      (mirrorfs_rename w g src dst flags s).state = s) ∧
    ((∃ lines, (mirrorfs_rename w g src dst 0 s).events
        = (replicas g).map
            (fun i => Event.call (Syscall.renameat i (safe_path src) i (safe_path dst)))
          ++ lines
      ∧ ∀ e ∈ lines, e.isNotEqual = true) ∧
      (mirrorfs_rename w g src dst 0 s).state.mirror_fds = s.mirror_fds) := by
  constructor
  · intro flags hf
    unfold mirrorfs_rename
    rw [if_pos hf]
    exact ⟨rfl, rfl, rfl⟩
  · obtain ⟨e1, hrun⟩ := fanoutOp_run w g "mirrorfs_rename"
      (fun i => Syscall.renameat i (safe_path src) i (safe_path dst)) s
    have hdef : mirrorfs_rename w g src dst 0 s
        = fanoutOp w g "mirrorfs_rename"
            (fun i => Syscall.renameat i (safe_path src) i (safe_path dst)) s := by
      unfold mirrorfs_rename
      rw [if_neg (by simp)]
    rw [hdef, hrun]
    refine ⟨⟨_, rfl, ?_⟩, rfl⟩
    intro e he
    exact resultsEvents_isNotEqual _ _ _ _ e he

/-- With the flags 1 (`RENAME_NOREPLACE`) `rename` returns -22 and does nothing. -/
theorem rename_flags_witness :
    (mirrorfs_rename worldDiverging twoReplicas ['/', 'a'] ['/', 'b'] 1 State.init).res
        = Res.ret (-22) ∧
      (mirrorfs_rename worldDiverging twoReplicas ['/', 'a'] ['/', 'b'] 1 State.init).events
        = [] :=
  ⟨((rename_flags worldDiverging twoReplicas ['/', 'a'] ['/', 'b'] State.init).1 1
      (by decide)).1,
    ((rename_flags worldDiverging twoReplicas ['/', 'a'] ['/', 'b'] State.init).1 1
      (by decide)).2.1⟩

/-! ## The elements of `mirror_fds` of distinct handles (C12) -/

theorem installStep_run (func : String) (key : Nat → Nat) (fds : List Int) (i : Nat)
    (s : State) :
    (do
      let v ← readSlot (key i)
      if v ≠ -1 then do
        emit (Event.assertFailed func (key i))
        abort
      else writeSlot (key i) (elem fds i) : M Unit) s
      = if key i < MIRROR_FDS_LEN then
          if s.mirror_fds (key i) = -1 then
            ⟨Res.ret (),
              ⟨s.errno, fun j => if j = key i then elem fds i else s.mirror_fds j⟩, []⟩
          else ⟨Res.aborted, s, [Event.assertFailed func (key i)]⟩
        else ⟨Res.undefined, s, []⟩ := by
  by_cases hri : key i < MIRROR_FDS_LEN
  · rw [if_pos hri, run_bind_ret _ _ s s (s.mirror_fds (key i)) [] (by simp [readSlot, hri])]
    by_cases hfi : s.mirror_fds (key i) = -1
    · simp [hfi, writeSlot, hri]
    · simp [hfi, emit, abort, bind, M.bind]
  · rw [if_neg hri, run_bind_undefined _ _ s s [] (by simp [readSlot, hri])]

theorem installHandle_loop_other (func : String) (key : Nat → Nat) (fds : List Int)
    (is : List Nat) (s : State) (k : Nat) (hk : ∀ i ∈ is, key i ≠ k) :
    (forEach is (fun i => do
        let v ← readSlot (key i)
        if v ≠ -1 then do
          emit (Event.assertFailed func (key i))
          abort
        else writeSlot (key i) (elem fds i)) s).state.mirror_fds k = s.mirror_fds k := by
  induction is generalizing s with
  | nil => rfl
  | cons i rest ih =>
      have hstep := installStep_run func key fds i s
      have hki := hk i (List.mem_cons_self i rest)
      rw [forEach_cons]
      by_cases hri : key i < MIRROR_FDS_LEN
      · by_cases hfi : s.mirror_fds (key i) = -1
        · rw [if_pos hri, if_pos hfi] at hstep
          rw [run_bind_ret _ _ s _ _ _ hstep]
          rw [ih _ (fun j hj => hk j (List.mem_cons_of_mem i hj))]
          exact if_neg (fun h => hki h.symm)
        · rw [if_pos hri, if_neg hfi] at hstep
          rw [run_bind_aborted _ _ s _ _ hstep]
      · rw [if_neg hri] at hstep
        rw [run_bind_undefined _ _ s _ _ hstep]

theorem installHandle_loop_defined (func : String) (key : Nat → Nat) (fds : List Int)
    (is : List Nat) (s : State) (hr : ∀ i ∈ is, key i < MIRROR_FDS_LEN) :
    (forEach is (fun i => do
        let v ← readSlot (key i)
        if v ≠ -1 then do
          emit (Event.assertFailed func (key i))
          abort
        else writeSlot (key i) (elem fds i)) s).res ≠ Res.undefined := by
  induction is generalizing s with
  | nil =>
      intro h
      cases h
  | cons i rest ih =>
      have hstep := installStep_run func key fds i s
      have hri := hr i (List.mem_cons_self i rest)
      rw [forEach_cons]
      rw [if_pos hri] at hstep
      by_cases hfi : s.mirror_fds (key i) = -1
      · rw [if_pos hfi] at hstep
        rw [run_bind_ret _ _ s _ _ _ hstep]
        exact ih _ (fun j hj => hr j (List.mem_cons_of_mem i hj))
      · rw [if_neg hfi] at hstep
        rw [run_bind_aborted _ _ s _ _ hstep]
        intro h
        cases h

theorem installHandle_loop_outside (func : String) (key : Nat → Nat) (fds : List Int)
    (is : List Nat) (s : State) (hout : ∃ i ∈ is, ¬ key i < MIRROR_FDS_LEN)
    (hfree : ∀ i ∈ is, s.mirror_fds (key i) = -1)
    (hinj : is.Pairwise (fun i j => key i ≠ key j)) :
    (forEach is (fun i => do
        let v ← readSlot (key i)
        if v ≠ -1 then do
          emit (Event.assertFailed func (key i))
          abort
        else writeSlot (key i) (elem fds i)) s).res = Res.undefined := by
  induction is generalizing s with
  | nil =>
      obtain ⟨i, hi, _⟩ := hout
      cases hi
  | cons i rest ih =>
      have hstep := installStep_run func key fds i s
      rw [List.pairwise_cons] at hinj
      rw [forEach_cons]
      by_cases hri : key i < MIRROR_FDS_LEN
      · rw [if_pos hri, if_pos (hfree i (List.mem_cons_self i rest))] at hstep
        rw [run_bind_ret _ _ s _ _ _ hstep]
        apply ih
        · obtain ⟨j, hj, hjo⟩ := hout
          cases List.mem_cons.mp hj with
          | inl hji => subst hji; exact absurd hri hjo
          | inr hjr => exact ⟨j, hjr, hjo⟩
        · intro j hj
          have hne : ¬ key j = key i := fun heq => hinj.1 j hj heq.symm
          simp only [hne, if_false]
          exact hfree j (List.mem_cons_of_mem i hj)
        · exact hinj.2
      · rw [if_neg hri] at hstep
        rw [run_bind_undefined _ _ s _ _ hstep]

theorem slot_value (fh i : Nat) (hf : fh < 2147483648) (hi : 1 ≤ i) (hi9 : i ≤ 9) :
    slot fh i = fh * (MAX_MNTPATHS - 1) + i - 1 := by
  unfold slot U64_MOD MAX_MNTPATHS
  omega

theorem slot_inj_pair (fh fh2 i i2 : Nat) (hf : fh < 2147483648) (hf2 : fh2 < 2147483648)
    (hi : 1 ≤ i) (hi9 : i ≤ 9) (hj : 1 ≤ i2) (hj9 : i2 ≤ 9)
    (h : slot fh i = slot fh2 i2) : fh = fh2 ∧ i = i2 := by
  rw [slot_value fh i hf hi hi9, slot_value fh2 i2 hf2 hj hj9] at h
  unfold MAX_MNTPATHS at h
  omega

theorem slotsInRange_iff (g : Globals) (fh : Nat) (h1 : 2 ≤ g.mntpath_count)
    (h2 : g.mntpath_count ≤ MAX_MNTPATHS) (hf : fh < 2147483648) :
    slotsInRange g fh = true
      ↔ fh * (MAX_MNTPATHS - 1) + g.mntpath_count - 2 < MIRROR_FDS_LEN := by
  have h2' : g.mntpath_count ≤ 10 := h2
  unfold slotsInRange
  rw [List.all_eq_true]
  constructor
  · intro h
    have hm := h (g.mntpath_count - 1) ((mem_others g _).mpr ⟨by omega, by omega⟩)
    rw [decide_eq_true_eq, slot_value fh _ hf (by omega) (by omega)] at hm
    unfold MAX_MNTPATHS MIRROR_FDS_LEN at *
    omega
  · intro h i hi
    obtain ⟨hi1, hi2⟩ := (mem_others g i).mp hi
    rw [decide_eq_true_eq, slot_value fh i hf hi1 (by omega)]
    unfold MAX_MNTPATHS MIRROR_FDS_LEN at *
    omega

theorem Res.map_ne_undefined {α β : Type} (f : α → β) (r : Res α)
    (h : r ≠ Res.undefined) : Res.map f r ≠ Res.undefined := by
  cases r with
  | ret a =>
      intro hx
      cases hx
  | aborted =>
      intro hx
      cases hx
  | undefined => exact absurd rfl h

theorem openOp_table (w : World) (g : Globals) (func : String) (call : Nat → Syscall)
    (fi : FuseFileInfo) (s : State) (h1 : 1 ≤ g.mntpath_count) (k : Nat)
    (hk : w.ret (call 0) = -1 ∨
      ∀ i, 1 ≤ i → i < g.mntpath_count → slot (toU64 (w.ret (call 0))) i ≠ k) :
    (openOp w g func call fi s).state.mirror_fds k = s.mirror_fds k := by
  obtain ⟨e1, hrun⟩ := openOp_run w g func call fi s
  have hr0 := resArr_elem w g call 0 (by omega)
  rw [hrun]
  by_cases hab : fdAbort g (resArr w g call) (errArr w g call) = true
  · rw [if_pos hab]
  · rw [if_neg hab]
    by_cases hm : elem (resArr w g call) 0 = -1
    · rw [if_pos hm]
    · rw [if_neg hm]
      rw [hr0] at hm
      have hk2 := hk.resolve_left hm
      rw [hr0]
      unfold installHandle
      exact installHandle_loop_other func (slot (toU64 (w.ret (call 0)))) (resArr w g call)
        (others g) ⟨e1, s.mirror_fds⟩ k
        (fun i hi => hk2 i ((mem_others g i).mp hi).1 ((mem_others g i).mp hi).2)

theorem openOp_keeps_other_handles (w : World) (g : Globals) (func : String)
    (call : Nat → Syscall) (fi : FuseFileInfo) (s : State) (h1 : 2 ≤ g.mntpath_count)
    (h2 : g.mntpath_count ≤ MAX_MNTPATHS) :
    KeepsOtherHandles w g call s (openOp w g func call fi s) := by
  have h2' : g.mntpath_count ≤ 10 := h2
  have hr0 := resArr_elem w g call 0 (by omega)
  have he0 := errArr_elem w g call 0 (by omega)
  refine ⟨?_, ?_, ?_, ?_⟩
  · intro _ k hk
    exact openOp_table w g func call fi s (by omega) k (Or.inr hk)
  · intro _ hlo hhi fh hfh hne
    unfold fdsOf
    rw [List.map_congr_left (fun i hi => openOp_table w g func call fi s (by omega)
      (slot fh i) (by
        obtain ⟨hi1, hi2⟩ := (mem_others g i).mp hi
        by_cases hm : w.ret (call 0) = -1
        · exact Or.inl hm
        · right
          intro j hj1 hj2 heq
          have h0 : 0 ≤ w.ret (call 0) := by omega
          rw [toU64_of_nonneg _ h0 (by omega)] at heq
          have := (slot_inj_pair _ _ _ _ (by omega) hfh hj1 (by omega) hi1 (by omega)
            heq).1
          omega))]
  · intro h0 hhi hb
    obtain ⟨e1, hrun⟩ := openOp_run w g func call fi s
    rw [hrun]
    by_cases hab : fdAbort g (resArr w g call) (errArr w g call) = true
    · rw [if_pos hab]
      intro hx
      cases hx
    · rw [if_neg hab]
      by_cases hm : elem (resArr w g call) 0 = -1
      · rw [if_pos hm]
        intro hx
        cases hx
      · rw [if_neg hm]
        apply Res.map_ne_undefined
        rw [hr0, toU64_of_nonneg _ h0 (by omega)]
        unfold installHandle
        apply installHandle_loop_defined func (slot (w.ret (call 0)).toNat)
        intro i hi
        obtain ⟨hi1, hi2⟩ := (mem_others g i).mp hi
        rw [slot_value _ i (by omega) hi1 (by omega)]
        unfold MAX_MNTPATHS MIRROR_FDS_LEN at *
        omega
  · intro hsucc herr hint hfree hb
    obtain ⟨e1, hrun⟩ := openOp_run w g func call fi s
    have hq := fdEvents_quiet g func (resArr w g call) (errArr w g call) (by
      intro i hi
      have hi2 := ((mem_others g i).mp hi).2
      refine ⟨?_, ?_⟩
      · unfold fdInconsistent
        rw [hr0, resArr_elem w g call i hi2]
        have ha := hsucc 0 (by omega)
        have hb := hsucc i hi2
        have ha1 : w.ret (call 0) ≠ -1 := by omega
        have hb1 : w.ret (call i) ≠ -1 := by omega
        simp [ha1, hb1]
      · rw [errArr_elem w g call i hi2, he0]
        exact herr i hi2)
    have h0 := hsucc 0 (by omega)
    have hne : ¬ elem (resArr w g call) 0 = -1 := by
      rw [hr0]
      omega
    have hfh : toU64 (elem (resArr w g call) 0) = (w.ret (call 0)).toNat := by
      rw [hr0]
      exact toU64_of_nonneg _ h0 (by omega)
    have hund : (installHandle g func (w.ret (call 0)).toNat (resArr w g call)
        ⟨e1, s.mirror_fds⟩).res = Res.undefined := by
      unfold installHandle
      apply installHandle_loop_outside func (slot (w.ret (call 0)).toNat)
      · refine ⟨g.mntpath_count - 1, (mem_others g _).mpr ⟨by omega, by omega⟩, ?_⟩
        rw [slot_value _ _ (by omega) (by omega) (by omega)]
        unfold MAX_MNTPATHS MIRROR_FDS_LEN at *
        omega
      · intro i hi
        simpa using (List.all_eq_true.mp hfree) i hi
      · exact others_pairwise g _ (by unfold U64_MOD; omega)
    rw [hrun, hq.1]
    simp only [Bool.false_eq_true, if_false, hne, hfh]
    rw [hund]
    rfl


/-- C12: the elements of `mirror_fds` of distinct handles never collide.  For every
configuration with between 2 replicas (`main` refuses fewer) and `MAX_MNTPATHS`, with
handles that are non-negative `int` descriptors and replica indices `1 ≤ i <
mntpath_count`: the index `slot fh i` computed in `uint64_t` is `fh * (MAX_MNTPATHS - 1) +
i - 1`; it is injective in the pair of the handle and the replica index; every index of
the handle `fh` is inside the 1024-element array exactly when `fh * 9 + mntpath_count - 2 <
1024`; and `open` and `create` satisfy `KeepsOtherHandles`: a run without undefined
behaviour changes only the elements of the new handle and leaves the descriptors looked
up for every other handle as they were, a new handle within that bound never leads outside
the array, and a successful open of a handle beyond that bound with free elements accesses
`mirror_fds` outside the array. -/
theorem handle_slots_do_not_collide (w : World) (g : Globals) (path : CString) (mode : Int)
    (fi : FuseFileInfo) (s : State) (h1 : 2 ≤ g.mntpath_count)
    (h2 : g.mntpath_count ≤ MAX_MNTPATHS) :
    (∀ fh i : Nat, fh < 2147483648 → 1 ≤ i → i < g.mntpath_count →
      slot fh i = fh * (MAX_MNTPATHS - 1) + i - 1) ∧
    (∀ fh fh2 i i2 : Nat, fh < 2147483648 → fh2 < 2147483648 →
      1 ≤ i → i < g.mntpath_count → 1 ≤ i2 → i2 < g.mntpath_count →
      slot fh i = slot fh2 i2 → fh = fh2 ∧ i = i2) ∧
    (∀ fh : Nat, fh < 2147483648 →
      (slotsInRange g fh = true
        ↔ fh * (MAX_MNTPATHS - 1) + g.mntpath_count - 2 < MIRROR_FDS_LEN)) ∧
    KeepsOtherHandles w g (fun i => Syscall.openat i (safe_path path) fi.flags none) s
      (mirrorfs_open w g path fi s) ∧
    KeepsOtherHandles w g (fun i => Syscall.openat i (safe_path path) fi.flags (some mode)) s
      (mirrorfs_create w g path mode fi s) := by
  have h2' : g.mntpath_count ≤ 10 := h2
  refine ⟨?_, ?_, ?_, ?_, ?_⟩
  · intro fh i hf hi1 hi2
    exact slot_value fh i hf hi1 (by omega)
  · intro fh fh2 i i2 hf hf2 hi1 hi2 hj1 hj2 h
    exact slot_inj_pair fh fh2 i i2 hf hf2 hi1 (by omega) hj1 (by omega) h
  · intro fh hf
    exact slotsInRange_iff g fh h1 h2 hf
  · exact openOp_keeps_other_handles w g "mirrorfs_open" _ fi s h1 h2
  · exact openOp_keeps_other_handles w g "mirrorfs_create" _ fi s h1 h2

/-- With the handle 3 installed on two replicas, opening another file as the handle 5
leaves the descriptors looked up for the handle 3 as they were. -/
theorem handle_slots_do_not_collide_witness :
    fdsOf twoReplicas
        (mirrorfs_open worldNextHandle twoReplicas ['/', 'b'] fiFresh afterOpen.state).state 3
      = fdsOf twoReplicas afterOpen.state 3 :=
  (handle_slots_do_not_collide worldNextHandle twoReplicas ['/', 'b'] 0 fiFresh
    afterOpen.state (by decide) (by decide)).2.2.2.1.2.1
    (by decide) (by decide) (by decide) 3 (by decide) (by decide)

end MirrorFS
